import Mathlib

/-!
# Vertical-line detection (hugin `FindLines.cpp`): embedding and checked properties

Conventions of the embedding.

* C++ `int` / `unsigned int` / `size_t` values are `Int` / `Nat`.  The `int` arithmetic on
  point coordinates (differences, products and sums in `GetFootpoint`, `Diff2D`) can leave
  the 32-bit range for steep regression lines; there the result is reduced to the `int`
  range by `wrapInt` (two's complement).  Image sizes and counts stay far inside the range.
* A C++ `double` is modelled by the rational number it denotes.  Every arithmetic operation
  on doubles is the exact operation followed by the rounding `round` of the floating-point
  environment `FloatEnv`, which is a parameter: general theorems hold for every rounding,
  theorems about exact arithmetic assume `round q = q`, and concrete evaluations use
  `ieee` (binary64, round to nearest, ties to even).  NaN, infinities, overflow and
  underflow are not modelled; where the source can divide by zero the definition says so.
* The `<cmath>` functions `sqrt`, `cos`, `sin`, `atan2` and the macro `DEG_TO_RAD` are part
  of the environment as well.
* The decimal thresholds `0.1`, `0.05`, `1.1` and `0.00001` of the source denote the double
  next above the decimal value, so comparing a double with them is the same as comparing
  it with the exact decimal value; the definitions use the exact value.
* A conversion `double -> int` truncates toward zero (`toInt`); conversions of values
  outside the `int` range (undefined in C++) are not modelled.  A conversion
  `int -> double` is exact.
* `vigra::Point2D` / `vigra::Diff2D` have `int` coordinates.
-/

namespace HuginLines

/-! ## Numeric primitives -/

/-- Conversion `double -> int` of C++: truncation toward zero. -/
def toInt (q : ℚ) : Int := if 0 ≤ q then ⌊q⌋ else ⌈q⌉

/-- The values of a 32-bit `int`. -/
def fitsInt (z : Int) : Prop := -2147483648 ≤ z ∧ z < 2147483648

instance (z : Int) : Decidable (fitsInt z) := by
  unfold fitsInt; infer_instance

/-- Reduction of an integer to the 32-bit `int` range (two's complement).  Since reduction
modulo `2^32` commutes with `+`, `-` and `*`, reducing the exact value of an `int` expression
once gives the value obtained by reducing after every operation. -/
def wrapInt (z : Int) : Int := (z + 2147483648) % 4294967296 - 2147483648

/-- The floating-point environment: the rounding applied to the exact result of an
arithmetic operation, the `<cmath>` functions and the angle macro used by `FindLines.cpp`. -/
structure FloatEnv where
  round : ℚ → ℚ
  sqrt : ℚ → ℚ
  cos : ℚ → ℚ
  sin : ℚ → ℚ
  atan2 : ℚ → ℚ → ℚ
  DEG_TO_RAD : ℚ → ℚ

/-- Addition of doubles. -/
def FloatEnv.add (m : FloatEnv) (a b : ℚ) : ℚ := m.round (a + b)

/-- Subtraction of doubles. -/
def FloatEnv.sub (m : FloatEnv) (a b : ℚ) : ℚ := m.round (a - b)

/-- Multiplication of doubles. -/
def FloatEnv.mul (m : FloatEnv) (a b : ℚ) : ℚ := m.round (a * b)

/-- Division of doubles (the divisor is not zero where the model is used). -/
def FloatEnv.div (m : FloatEnv) (a b : ℚ) : ℚ := m.round (a / b)

/-- Floor of the binary logarithm of a positive natural number, by repeated halving. -/
def ilog2 : Nat → Nat → Nat
  | 0, _ => 0
  | fuel + 1, n => if n < 2 then 0 else ilog2 fuel (n / 2) + 1

/-- The power `2^k` for an integer exponent. -/
def pow2 (k : Int) : ℚ := if 0 ≤ k then (2 : ℚ) ^ k.toNat else 1 / (2 : ℚ) ^ (-k).toNat

/-- The binary exponent `e` of a positive rational: `2^e <= a < 2^(e+1)`. -/
def binExponent (a : ℚ) : Int :=
  let e0 : Int := (ilog2 4096 a.num.toNat : Int) - (ilog2 4096 a.den : Int)
  if pow2 e0 ≤ a then e0 else e0 - 1

/-- Rounding of a non-negative rational to the nearest integer, ties to even. -/
def roundHalfEven (s : ℚ) : Int :=
  let f := ⌊s⌋
  if s - f < 1 / 2 then f
  else if 1 / 2 < s - f then f + 1
  else if f % 2 = 0 then f else f + 1

/-- Rounding to binary64: the nearest number with a 53-bit significand, ties to even
(exponent range unbounded).  The test `pow2 e ≤ a` on the computed exponent succeeds for
every rational whose numerator and denominator are below `2^4096`. -/
def roundDouble (q : ℚ) : ℚ :=
  if q = 0 then 0
  else
    let a := |q|
    let e := binExponent a
    let ulp := pow2 (e - 52)
    if pow2 e ≤ a then
      let r := (roundHalfEven (a / ulp) : ℚ) * ulp
      if 0 < q then r else -r
    else q

/-- Newton iteration for the integer square root from a starting value not below it. -/
def isqrtLoop : Nat → Nat → Nat → Nat
  | 0, _, g => g
  | k + 1, n, g =>
    let next := (g + n / g) / 2
    if next < g then isqrtLoop k n next else g

/-- Integer square root (floor). -/
def isqrt (n : Nat) : Nat :=
  if n ≤ 1 then n else isqrtLoop 4096 n (2 ^ (ilog2 4096 n / 2 + 1))

/-- Square root of a rational to 40 decimal digits (rounded down); exact on quotients of
perfect squares. -/
def refSqrt (q : ℚ) : ℚ :=
  if q ≤ 0 then 0
  else (isqrt (q.num.toNat * q.den * 10 ^ 80) : ℚ) / ((q.den : ℚ) * 10 ^ 40)

/-- Cosine by its Taylor polynomial of degree 8 (exact at 0). -/
def refCos (x : ℚ) : ℚ := 1 - x ^ 2 / 2 + x ^ 4 / 24 - x ^ 6 / 720 + x ^ 8 / 40320

/-- Sine by its Taylor polynomial of degree 9 (exact at 0). -/
def refSin (x : ℚ) : ℚ := x - x ^ 3 / 6 + x ^ 5 / 120 - x ^ 7 / 5040 + x ^ 9 / 362880

/-- The double constant `M_PI`. -/
def refPi : ℚ := 884279719003555 / 281474976710656

/-- Arc tangent on `[-1, 1]` by a rational approximation (exact at 0). -/
def refAtan (t : ℚ) : ℚ := t / (1 + 7 / 25 * t ^ 2)

/-- The two-argument arc tangent built from `refAtan`, quadrant by quadrant. -/
def refAtan2 (y x : ℚ) : ℚ :=
  if x = 0 ∧ y = 0 then 0
  else if |y| ≤ |x| then
    (if 0 < x then refAtan (y / x)
     else if 0 ≤ y then refAtan (y / x) + refPi else refAtan (y / x) - refPi)
  else
    (if 0 < y then refPi / 2 - refAtan (x / y) else -(refPi / 2) - refAtan (x / y))

/-- The binary64 environment used for evaluations: IEEE rounding of the arithmetic, and
library functions given by rounded approximations that are exact on the arguments that
occur (square roots of perfect squares, angle 0 and equal angles). -/
def ieee : FloatEnv where
  round := roundDouble
  sqrt := fun q => roundDouble (refSqrt q)
  cos := fun x => roundDouble (refCos x)
  sin := fun x => roundDouble (refSin x)
  atan2 := fun y x => roundDouble (refAtan2 y x)
  DEG_TO_RAD := fun x => roundDouble (roundDouble (roundDouble (x * 2) * refPi) / 360)

/-- The environment of exact arithmetic: no rounding. -/
def exact : FloatEnv where
  round := fun q => q
  sqrt := refSqrt
  cos := refCos
  sin := refSin
  atan2 := refAtan2
  DEG_TO_RAD := fun x => x * 2 * refPi / 360

/-- The constant `DBL_MAX` of `<cfloat>`. -/
def DBL_MAX : ℚ := (2 ^ 53 - 1) * 2 ^ 971

/-- A rounding with relative error at most `2^-53` (the standard model of binary64
arithmetic). -/
def Accurate (m : FloatEnv) : Prop := ∀ q : ℚ, |m.round q - q| ≤ |q| / 2 ^ 53

/-- An environment without rounding. -/
def Exact (m : FloatEnv) : Prop := ∀ q : ℚ, m.round q = q

/-! ## Image Resizer (`resize_image`) -/

/-- A raster: its size and its samples. -/
structure Image (P : Type) where
  width : Int
  height : Int
  data : Int → Int → P

/-- Translation of `resize_image`: the destination image and the returned factor.  The vigra
routine `resizeImageNoInterpolation` fills a destination of the size set by `dest.resize`;
its sample values are the parameter `resample`.  (For `resize_dimension = 0` the source
divides by zero in `1.0/sizefactor`.) -/
def resize_image {P : Type} (m : FloatEnv) (resample : Image P → Int → Int → Int → Int → P)
    (src : Image P) (resize_dimension : Int) : Image P × ℚ :=
  let sizefactor : ℚ := 1
  if src.width > resize_dimension ∨ src.height > resize_dimension then
    if src.width ≥ src.height then
      let sizefactor : ℚ := m.div (resize_dimension : ℚ) (src.width : ℚ)
      let nw := resize_dimension
      let nh := toInt (m.add (1 / 2) (m.mul sizefactor (src.height : ℚ)))
      (⟨nw, nh, resample src nw nh⟩, m.div 1 sizefactor)
    else
      let sizefactor : ℚ := m.div (resize_dimension : ℚ) (src.height : ℚ)
      let nw := toInt (m.add (1 / 2) (m.mul sizefactor (src.width : ℚ)))
      let nh := resize_dimension
      (⟨nw, nh, resample src nw nh⟩, m.div 1 sizefactor)
  else
    (⟨src.width, src.height, src.data⟩, m.div 1 sizefactor)

/-! ## Data model -/

/-- The class `vigra::Point2D` (also used for `vigra::Diff2D`): integer coordinates. -/
structure Point2D where
  x : Int
  y : Int
  deriving DecidableEq, Repr, Inhabited

/-- Modelled from the spec: the enum `LineStatus` of `FindLines.h` (not among the sources).
The design tags a RawLine `valid` or `rejected`; `FilterLines` tests for `valid_line`. -/
inductive LineStatus where
  | valid_line
  | rejected
  deriving DecidableEq, Repr

/-- Modelled from the spec: the struct `SingleLine` of `FindLines.h` (not among the sources),
the RawLine of the design: an ordered sequence of integer points with a validity status. -/
structure SingleLine where
  line : List Point2D
  status : LineStatus
  deriving DecidableEq, Repr

/-- The class `VerticalLine` (the FittedLine of the design): start and end point. -/
structure VerticalLine where
  m_start : Point2D
  m_end : Point2D
  deriving DecidableEq, Repr

/-- The method `vigra::Diff2D::magnitude`: `sqrt((double)(x*x + y*y))`, the sum of squares
computed in `int`. -/
def magnitude (m : FloatEnv) (d : Point2D) : ℚ :=
  m.sqrt ((wrapInt (d.x * d.x + d.y * d.y) : Int) : ℚ)

/-- Difference of two points (`operator-` giving a `Diff2D`), computed in `int`. -/
def Point2D.sub (a b : Point2D) : Point2D := ⟨wrapInt (a.x - b.x), wrapInt (a.y - b.y)⟩

/-- Modelled from the spec: the helper `hugin_utils::norm` of `hugin_math.h` (not among the
sources) on a `FDiff2D`, the Euclidean length `sqrt(x*x + y*y)` used for the footpoint. -/
def norm (m : FloatEnv) (x y : ℚ) : ℚ := m.sqrt (m.add (m.mul x x) (m.mul y y))

/-- Modelled from the spec: the helper `hugin_utils::sqr` of `hugin_math.h` (not among the
sources), the square of its argument. -/
def sqr (m : FloatEnv) (t : ℚ) : ℚ := m.mul t t

/-! ## Footpoint and fitted-line geometry -/

/-- Translation of `GetFootpoint(p, p1, p2, u)`: the returned point and the parameter `u`.
The numerator is computed in `int`, the quotient in `double`; the sum `p1 + u*diff` is
converted back to `int` coordinates by the `Point2D` constructor.  (For `p1 = p2` the source
divides by zero, see `getDist`; `FitLine` passes distinct points.) -/
def GetFootpoint (m : FloatEnv) (p p1 p2 : Point2D) : Point2D × ℚ :=
  let diffx : ℚ := ((p2.sub p1).x : ℚ)
  let diffy : ℚ := ((p2.sub p1).y : ℚ)
  let u : ℚ := m.div
    ((wrapInt ((p.x - p1.x) * (p2.x - p1.x) + (p.y - p1.y) * (p2.y - p1.y)) : Int) : ℚ)
    (sqr m (norm m diffx diffy))
  let diffx := m.mul diffx u
  let diffy := m.mul diffy u
  (⟨toInt (m.add (p1.x : ℚ) diffx), toInt (m.add (p1.y : ℚ) diffy)⟩, u)

/-- Translation of `VerticalLine::GetLineLength`. -/
def VerticalLine.GetLineLength (m : FloatEnv) (l : VerticalLine) : ℚ :=
  magnitude m (l.m_end.sub l.m_start)

/-- The lambda `getDist` inside `GetEstimatedDistance`.  When the squared norm of `p2 - p1`
is zero the source divides by zero, `t` is NaN or infinite and the range test fails. -/
def getDist (m : FloatEnv) (p p1 p2 : Point2D) : ℚ :=
  let r := GetFootpoint m p p1 p2
  let endPoint := r.1
  let t := r.2
  if sqr m (norm m ((p2.sub p1).x : ℚ) ((p2.sub p1).y : ℚ)) ≠ 0 ∧ -(1 / 10) < t ∧ t < 11 / 10
  then magnitude m (endPoint.sub p) else DBL_MAX

/-- Translation of `VerticalLine::GetEstimatedDistance` (`std::min` of four distances). -/
def VerticalLine.GetEstimatedDistance (m : FloatEnv) (l otherLine : VerticalLine) : ℚ :=
  min (getDist m otherLine.m_start l.m_start l.m_end)
    (min (getDist m otherLine.m_end l.m_start l.m_end)
      (min (getDist m l.m_start otherLine.m_start otherLine.m_end)
        (getDist m l.m_end otherLine.m_start otherLine.m_end)))

/-- Translation of `VerticalLine::GetAngle`. -/
def VerticalLine.GetAngle (m : FloatEnv) (l : VerticalLine) : ℚ :=
  m.atan2 ((wrapInt (l.m_end.y - l.m_start.y) : Int) : ℚ)
    ((wrapInt (l.m_end.x - l.m_start.x) : Int) : ℚ)

/-! ## `FitLine` -/

/-- The four running sums of the loop of `FitLine`, each term divided by `n`. -/
structure FitSums where
  s_x : ℚ
  s_y : ℚ
  s_xy : ℚ
  s_x2 : ℚ

/-- The accumulation loop of `FitLine`. -/
def fitSums (m : FloatEnv) (pts : List Point2D) : FitSums :=
  let n : ℚ := (pts.length : ℚ)
  pts.foldl (fun s p =>
    { s_x := m.add s.s_x (m.div (p.x : ℚ) n)
      s_y := m.add s.s_y (m.div (p.y : ℚ) n)
      s_xy := m.add s.s_xy (m.div (m.mul (p.x : ℚ) (p.y : ℚ)) n)
      s_x2 := m.add s.s_x2 (m.div (m.mul (p.x : ℚ) (p.x : ℚ)) n) }) ⟨0, 0, 0, 0⟩

/-- Translation of `FitLine`.  `line.line[0]` and `line.line[n-1]` are read with a default
for the empty line (undefined in the source; `FilterLines` passes lines of more than 2
points). -/
def FitLine (m : FloatEnv) (line : SingleLine) : VerticalLine :=
  let n := line.line.length
  let s := fitSums m line.line
  let first := line.line.getD 0 default
  let last := line.line.getD (n - 1) default
  if |m.sub s.s_x2 (m.mul s.s_x s.s_x)| < 1 / 100000 then
    ⟨⟨toInt s.s_x, first.y⟩, ⟨toInt s.s_x, last.y⟩⟩
  else
    let slope := m.div (m.sub s.s_xy (m.mul s.s_x s.s_y)) (m.sub s.s_x2 (m.mul s.s_x s.s_x))
    let offset := m.sub s.s_y (m.mul slope s.s_x)
    let p1 : Point2D := ⟨0, toInt offset⟩
    let p2 : Point2D := ⟨100, toInt (m.add (m.mul 100 slope) offset)⟩
    ⟨(GetFootpoint m first p1 p2).1, (GetFootpoint m last p1 p2).1⟩

/-! ## `FilterLines` -/

/-- The length test of `FilterLines`: `diff.magnitude() > 20`. -/
def lengthOk (m : FloatEnv) (vl : VerticalLine) : Prop :=
  magnitude m (vl.m_end.sub vl.m_start) > 20

instance (m : FloatEnv) (vl : VerticalLine) : Decidable (lengthOk m vl) := by
  unfold lengthOk; infer_instance

/-- The left-hand side of the verticality test: `|(dx*cos(r) + dy*sin(r)) / magnitude|`
with `r = DEG_TO_RAD(roll)`. -/
def deviation (m : FloatEnv) (roll : ℚ) (d : Point2D) : ℚ :=
  |m.div (m.add (m.mul (d.x : ℚ) (m.cos (m.DEG_TO_RAD roll)))
      (m.mul (d.y : ℚ) (m.sin (m.DEG_TO_RAD roll))))
    (magnitude m d)|

/-- The verticality test of `FilterLines`: deviation below 0.1. -/
def verticalOk (m : FloatEnv) (roll : ℚ) (vl : VerticalLine) : Prop :=
  deviation m roll (vl.m_end.sub vl.m_start) < 1 / 10

instance (m : FloatEnv) (roll : ℚ) (vl : VerticalLine) : Decidable (verticalOk m roll vl) := by
  unfold verticalOk; infer_instance

/-- Two fitted lines are close: estimated distance below 80 and angles within 0.05. -/
def isClose (m : FloatEnv) (vl otherLine : VerticalLine) : Prop :=
  vl.GetEstimatedDistance m otherLine < 80 ∧
    |m.sub (vl.GetAngle m) (otherLine.GetAngle m)| < 1 / 20

instance (m : FloatEnv) (a b : VerticalLine) : Decidable (isClose m a b) := by
  unfold isClose; infer_instance

/-- The inner loop of `FilterLines` over the accepted lines (`for (auto& otherLine : ...)`):
the list after in-place replacement and the flag `distanceBig`. -/
def scanLines (m : FloatEnv) (vl : VerticalLine) :
    List VerticalLine → Bool → List VerticalLine × Bool
  | [], distanceBig => ([], distanceBig)
  | otherLine :: rest, distanceBig =>
    if vl.GetEstimatedDistance m otherLine < 80 then
      if |m.sub (vl.GetAngle m) (otherLine.GetAngle m)| < 1 / 20 then
        let r := scanLines m vl rest false
        if vl.GetLineLength m > otherLine.GetLineLength m then (vl :: r.1, r.2)
        else (otherLine :: r.1, r.2)
      else
        let r := scanLines m vl rest distanceBig
        (otherLine :: r.1, r.2)
    else
      let r := scanLines m vl rest distanceBig
      (otherLine :: r.1, r.2)

/-- One iteration of the outer loop of `FilterLines`. -/
def filterStep (m : FloatEnv) (roll : ℚ) (vertLines : List VerticalLine) (it : SingleLine) :
    List VerticalLine :=
  if it.status = LineStatus.valid_line ∧ it.line.length > 2 then
    let vl := FitLine m it
    if lengthOk m vl then
      if verticalOk m roll vl then
        let r := scanLines m vl vertLines true
        if r.2 then r.1 ++ [vl] else r.1
      else vertLines
    else vertLines
  else vertLines

/-- Translation of `FilterLines`. -/
def FilterLines (m : FloatEnv) (lines : List SingleLine) (roll : ℚ) : List VerticalLine :=
  lines.foldl (filterStep m roll) []

/-! ## Control points: synthesizer and validator of `_getVerticalLines` -/

/-- Modelled from the spec: the class `HuginBase::ControlPoint` (not among the sources), the
ControlPoint of the design: image-index pair, point pair, mode and error.  The mode is kept
as a number (`X` is 1). -/
structure ControlPoint where
  image1Nr : Nat
  x1 : ℚ
  y1 : ℚ
  image2Nr : Nat
  x2 : ℚ
  y2 : ℚ
  mode : Nat
  error : ℚ
  deriving DecidableEq, Repr

/-- Modelled from the spec: the mode `HuginBase::ControlPoint::X` (same-image x/y pair). -/
def ControlPoint.X : Nat := 1

/-- Body of the synthesizer loop for one filtered line: the control point pushed to
`detectedLines`, or `none` when the iteration pushes nothing.  `transform` is
`transformImgCoord` of the remap transform (`none` when it returns `false`). -/
def synthesizeLine (m : FloatEnv) (needsRemap : Bool) (size_factor : ℚ)
    (transform : ℚ → ℚ → Option (ℚ × ℚ)) (width height : Int) (vl : VerticalLine) :
    Option ControlPoint :=
  let inBounds (cp : ControlPoint) : Option ControlPoint :=
    if cp.x1 ≥ 0 ∧ cp.x1 < (width : ℚ) ∧ cp.y1 ≥ 0 ∧ cp.y1 < (height : ℚ) ∧
        cp.x2 ≥ 0 ∧ cp.x2 < (width : ℚ) ∧ cp.y2 ≥ 0 ∧ cp.y2 < (height : ℚ) then some cp
    else none
  if !needsRemap then
    inBounds
      { image1Nr := 0, image2Nr := 0, mode := ControlPoint.X, error := 0
        x1 := m.mul (vl.m_start.x : ℚ) size_factor
        y1 := m.mul (vl.m_start.y : ℚ) size_factor
        x2 := m.mul (vl.m_end.x : ℚ) size_factor
        y2 := m.mul (vl.m_end.y : ℚ) size_factor }
  else
    match transform vl.m_start.x vl.m_start.y with
    | none => none
    | some (xs, ys) =>
      match transform vl.m_end.x vl.m_end.y with
      | none => none
      | some (xe, ye) =>
        inBounds
          { image1Nr := 0, image2Nr := 0, mode := ControlPoint.X, error := 0
            x1 := xs, y1 := ys, x2 := xe, y2 := ye }

/-- The synthesizer loop of `_getVerticalLines` (lines 443-478): `detectedLines`. -/
def synthesize (m : FloatEnv) (needsRemap : Bool) (size_factor : ℚ)
    (transform : ℚ → ℚ → Option (ℚ × ℚ)) (width height : Int)
    (filteredLines : List VerticalLine) : List ControlPoint :=
  filteredLines.foldl (fun detectedLines vl =>
    match synthesizeLine m needsRemap size_factor transform width height vl with
    | some cp => detectedLines ++ [cp]
    | none => detectedLines) []

/-- The bounds test of lines 473-474 on a control point. -/
def InImage (width height : Int) (cp : ControlPoint) : Prop :=
  0 ≤ cp.x1 ∧ cp.x1 < (width : ℚ) ∧ 0 ≤ cp.y1 ∧ cp.y1 < (height : ℚ) ∧
    0 ≤ cp.x2 ∧ cp.x2 < (width : ℚ) ∧ 0 ≤ cp.y2 ∧ cp.y2 < (height : ℚ)

/-- What the validator reads back after `PTools::optimize`: the control points of the
temporary panorama (with their errors) and the statistics `mean`, `var` of
`calcCtrlPntsErrorStats`. -/
structure OptResult where
  cps : List ControlPoint
  mean : ℚ
  var : ℚ

/-- Translation of `SortByError`. -/
def SortByError (cp1 cp2 : ControlPoint) : Prop := cp1.error < cp2.error

instance (a b : ControlPoint) : Decidable (SortByError a b) := by
  unfold SortByError; infer_instance

/-- The contract of `std::sort` with the comparison `SortByError`: the result is a
permutation of the input in which no later element compares less than an earlier one. -/
def IsStdSort (sort : List ControlPoint → List ControlPoint) : Prop :=
  ∀ l, (sort l).Perm l ∧ (sort l).Pairwise (fun a b => ¬ SortByError b a)

/-- An executable instance of `std::sort` with `SortByError`. -/
def stdSort (l : List ControlPoint) : List ControlPoint :=
  l.insertionSort (fun a b => a.error ≤ b.error)

/-- First filter stage (lines 517-530): the loop runs from the last index down to 0, erases
the points with `error > limit` and accumulates `maxError` (starting from 0) over the kept
ones.  Returns the remaining `detectedLines` and `maxError`. -/
def firstFilter (limit : ℚ) (detectedLines : List ControlPoint) : List ControlPoint × ℚ :=
  detectedLines.foldr (fun cp acc =>
    if cp.error > limit then acc else (cp :: acc.1, max cp.error acc.2)) ([], 0)

/-- The length computed in the merit loop (line 537). -/
def cpLength (m : FloatEnv) (cp : ControlPoint) : ℚ :=
  m.sqrt (m.add (sqr m (m.sub cp.x2 cp.x1)) (sqr m (m.sub cp.y2 cp.y1)))

/-- The figure of merit of line 539: `error/maxError + (1.0 - min(length,500.0)/500.0)`. -/
def merit (m : FloatEnv) (maxError : ℚ) (cp : ControlPoint) : ℚ :=
  m.add (m.div cp.error maxError) (m.sub 1 (m.div (min (cpLength m cp) 500) 500))

/-- The merit loop (lines 535-540): the merit is stored in the `error` field. -/
def setMerit (m : FloatEnv) (maxError : ℚ) (cp : ControlPoint) : ControlPoint :=
  { cp with error := merit m maxError cp }

/-- The copy pushed to `verticalLines` (lines 545-549 and 562-566). -/
def finalize (imgNr : Nat) (cp : ControlPoint) : ControlPoint :=
  { cp with image1Nr := imgNr, image2Nr := imgNr, error := 0 }

/-- The test of the one-candidate path (lines 559-560).  The differences are converted to
`int` by the `Diff2D` constructor.  For `diff = (0,0)` the source divides by zero and the
comparison with the resulting NaN is false. -/
def singleOk (m : FloatEnv) (roll : ℚ) (cp : ControlPoint) : Prop :=
  let diff : Point2D := ⟨toInt (m.sub cp.x2 cp.x1), toInt (m.sub cp.y2 cp.y1)⟩
  magnitude m diff ≠ 0 ∧ deviation m roll diff < 1 / 20

instance (m : FloatEnv) (roll : ℚ) (cp : ControlPoint) : Decidable (singleOk m roll cp) := by
  unfold singleOk; infer_instance

/-- The validator stage of `_getVerticalLines` (lines 482-569), from `detectedLines` to
`verticalLines`.  `optimize` stands for the optimizer run on the temporary panorama and
`sort` for `std::sort`. -/
def validate (m : FloatEnv) (sort : List ControlPoint → List ControlPoint)
    (optimize : List ControlPoint → OptResult) (roll : ℚ) (imgNr nrLines : Nat)
    (detectedLines : List ControlPoint) : List ControlPoint :=
  if detectedLines.length > 1 then
    let r := optimize detectedLines
    let limit := m.add r.mean (m.sqrt r.var)
    let f := firstFilter limit r.cps
    if f.1 ≠ [] ∧ f.2 > 0 then
      ((sort (f.1.map (setMerit m f.2))).take nrLines).map (finalize imgNr)
    else []
  else
    match detectedLines with
    | [cp] => if singleOk m roll cp then [finalize imgNr cp] else []
    | _ => []

/-- The part of `_getVerticalLines` after line detection (lines 432-571): filter, synthesize,
validate. -/
def getVerticalLinesFrom (m : FloatEnv) (sort : List ControlPoint → List ControlPoint)
    (optimize : List ControlPoint → OptResult) (needsRemap : Bool) (srcRoll size_factor : ℚ)
    (transform : ℚ → ℚ → Option (ℚ × ℚ)) (width height : Int) (imgNr nrLines : Nat)
    (foundLines : List SingleLine) : List ControlPoint :=
  let roll := if needsRemap then 0 else srcRoll
  let filteredLines := FilterLines m foundLines roll
  if filteredLines ≠ [] then
    validate m sort optimize roll imgNr nrLines
      (synthesize m needsRemap size_factor transform width height filteredLines)
  else []

/-! ## Reference quantities of the design and concrete inputs -/

/-- Mean of the x coordinates of a point list. -/
def meanX (pts : List Point2D) : ℚ := (pts.map (fun p => (p.x : ℚ))).sum / (pts.length : ℚ)

/-- Mean of the y coordinates of a point list. -/
def meanY (pts : List Point2D) : ℚ := (pts.map (fun p => (p.y : ℚ))).sum / (pts.length : ℚ)

/-- Mean of the products `x*y` of a point list. -/
def meanXY (pts : List Point2D) : ℚ :=
  (pts.map (fun p => (p.x : ℚ) * (p.y : ℚ))).sum / (pts.length : ℚ)

/-- Mean of the squares `x*x` of a point list. -/
def meanX2 (pts : List Point2D) : ℚ :=
  (pts.map (fun p => (p.x : ℚ) * (p.x : ℚ))).sum / (pts.length : ℚ)

/-- The x-variance of the design: mean of `x^2` minus the square of the mean of `x`. -/
def varX (pts : List Point2D) : ℚ := meanX2 pts - meanX pts * meanX pts

/-- Slope of the least-squares regression of y on x: `cov(x,y) / var(x)`. -/
def regSlope (pts : List Point2D) : ℚ := (meanXY pts - meanX pts * meanY pts) / varX pts

/-- Offset of the least-squares regression line: `mean y - slope * mean x`. -/
def regOffset (pts : List Point2D) : ℚ := meanY pts - regSlope pts * meanX pts

/-- A valid detected line of three points on the vertical `x`, from `y0` to `y1`. -/
def vertLine (x y0 y1 : Int) : SingleLine :=
  ⟨[⟨x, y0⟩, ⟨x, (y0 + y1) / 2⟩, ⟨x, y1⟩], LineStatus.valid_line⟩

/-- Three detected vertical lines: a short one at `x = 0`, a long one at `x = 140` and a
medium one at `x = 70`, 70 px from each of the others. -/
def exampleLines : List SingleLine := [vertLine 0 0 30, vertLine 140 0 100, vertLine 70 0 50]

/-- A detected vertical line of ten points at `x = 1`, from `(1, 0)` to `(1, 9)`. -/
def tenPointLine : SingleLine :=
  ⟨(List.range 10).map (fun i => (⟨1, (i : Int)⟩ : Point2D)), LineStatus.valid_line⟩

/-- A detected line of three points that is not vertical. -/
def slantedLine : SingleLine := ⟨[⟨0, 0⟩, ⟨1, 0⟩, ⟨2, 1⟩], LineStatus.valid_line⟩

/-- A steep detected line: two points at `x = 500` and one at `x = 501`, 1000 px high. -/
def steepLine : SingleLine := ⟨[⟨500, 0⟩, ⟨500, 500⟩, ⟨501, 1000⟩], LineStatus.valid_line⟩

/-- Three candidate control points with post-optimization errors 1, 5 and 2. -/
def exampleCandidates : List ControlPoint :=
  [⟨0, 0, 0, 0, 0, 10, ControlPoint.X, 1⟩, ⟨0, 5, 0, 0, 5, 10, ControlPoint.X, 5⟩,
   ⟨0, 9, 0, 0, 9, 10, ControlPoint.X, 2⟩]

/-- A stand-in optimizer outcome: the control points unchanged, mean 2 and variance 4. -/
def exampleOptimize (l : List ControlPoint) : OptResult := ⟨l, 2, 4⟩

/-! ## `GetControlPoints` -/

/-- The index `(int)(k * interval)` read by `GetControlPoints` for a line of `size` points and
`numberOfCtrlPoints` control points, with
`interval = (size - 1) / (1.0 * numberOfCtrlPoints)`.  (For `size = 0` the subtraction wraps
in `size_t`; the model is used for non-empty lines.) -/
def controlIndex (m : FloatEnv) (size numberOfCtrlPoints k : Nat) : Int :=
  toInt (m.mul (k : ℚ) (m.div ((size - 1 : Nat) : ℚ) (m.mul 1 (numberOfCtrlPoints : ℚ))))

/-- The element `line.line[i]` for an `int` index (a default outside the line, where the
source reads out of bounds). -/
def pointAt (line : SingleLine) (i : Int) : Point2D :=
  if 0 ≤ i then line.line.getD i.toNat default else default

/-- Translation of `GetControlPoints`: control point `k` joins the points at the indices
`(int)(k*interval)` and `(int)((k+1)*interval)`; its mode is `lineNr` and its error 0. -/
def GetControlPoints (m : FloatEnv) (line : SingleLine) (imgNr lineNr numberOfCtrlPoints : Nat) :
    List ControlPoint :=
  (List.range numberOfCtrlPoints).map (fun k =>
    let start := controlIndex m line.line.length numberOfCtrlPoints k
    let stop := controlIndex m line.line.length numberOfCtrlPoints (k + 1)
    { image1Nr := imgNr, x1 := ((pointAt line start).x : ℚ), y1 := ((pointAt line start).y : ℚ)
      image2Nr := imgNr, x2 := ((pointAt line stop).x : ℚ), y2 := ((pointAt line stop).y : ℚ)
      mode := lineNr, error := 0 })

/-! ## Remap path: limit of the vertical field of view -/

/-- Modelled from the spec: the helper `hugin_utils::roundi` of `hugin_math.h` (not among the
sources), rounding of a double to the nearest `int` (halves away from zero), as
`(int)(x - 0.5)` for negative `x` and `(int)(x + 0.5)` otherwise; values outside the `int`
range are not modelled. -/
def roundi (m : FloatEnv) (x : ℚ) : Int :=
  if x < 0 then toInt (m.sub x (1 / 2)) else toInt (m.add x (1 / 2))

/-- Lines 388-394 of `_getVerticalLines`: the output height after the test of the vertical
field of view, from the height set in line 387 and the value of `opts.getVFOV()`. -/
def limitHeight (m : FloatEnv) (height : Int) (vfov : ℚ) : Int :=
  if vfov > 100 then roundi m (m.div (m.mul (height : ℚ) 90) vfov) else height

/-! ## The environment converts small integers exactly -/

/-- A rounding that leaves the integers of the `int` range unchanged (as binary64 does). -/
def RoundsInts (m : FloatEnv) : Prop :=
  ∀ z : Int, -2147483648 ≤ z → z ≤ 2147483648 → m.round (z : ℚ) = (z : ℚ)

/-! ## The one-candidate test as the design states it -/

/-- The deviation of the design for a single candidate, computed from the untruncated
differences `dx = x2 - x1`, `dy = y2 - y1`: `|dx*cos(r) + dy*sin(r)| / sqrt(dx^2 + dy^2)`. -/
def designDeviation (m : FloatEnv) (roll : ℚ) (cp : ControlPoint) : ℚ :=
  |m.div (m.add (m.mul (m.sub cp.x2 cp.x1) (m.cos (m.DEG_TO_RAD roll)))
      (m.mul (m.sub cp.y2 cp.y1) (m.sin (m.DEG_TO_RAD roll))))
    (m.sqrt (m.add (m.mul (m.sub cp.x2 cp.x1) (m.sub cp.x2 cp.x1))
      (m.mul (m.sub cp.y2 cp.y1) (m.sub cp.y2 cp.y1))))|

/-! ## Further concrete inputs -/

/-- A detected vertical edge of 201 pixels at `x`, from `(x, y0)` to `(x, y0 + 200)`. -/
def edge200 (x y0 : Int) : SingleLine :=
  ⟨(List.range 201).map (fun i => (⟨x, y0 + (i : Int)⟩ : Point2D)), LineStatus.valid_line⟩

/-- A single candidate from `(0, 0)` to `(3.75, 65)`: the filtered line `(0,0)-(3,52)` scaled
by the size factor 1.25. -/
def slantedCandidate : ControlPoint := ⟨0, 0, 0, 0, 15 / 4, 65, ControlPoint.X, 0⟩

/-- Two candidates whose post-optimization error is 0. -/
def zeroErrorCandidates : List ControlPoint :=
  [⟨0, 10, 0, 0, 10, 100, ControlPoint.X, 0⟩, ⟨0, 200, 0, 0, 200, 100, ControlPoint.X, 0⟩]

/-- The optimizer outcome for errors that are all 0: mean 0 and variance 0. -/
def zeroErrorOptimize (l : List ControlPoint) : OptResult := ⟨l, 0, 0⟩

/-- A detected line of 14 points on the vertical `x = 5`. -/
def line14 : SingleLine :=
  ⟨(List.range 14).map (fun i => (⟨5, (i : Int)⟩ : Point2D)), LineStatus.valid_line⟩

/-- Four candidates whose post-optimization errors are 0, 0, 0 and 100. -/
def oneOutlierCandidates : List ControlPoint :=
  [⟨0, 10, 0, 0, 10, 100, ControlPoint.X, 0⟩, ⟨0, 200, 0, 0, 200, 100, ControlPoint.X, 0⟩,
   ⟨0, 400, 0, 0, 400, 100, ControlPoint.X, 0⟩, ⟨0, 600, 0, 0, 650, 100, ControlPoint.X, 100⟩]

/-- The optimizer outcome for `oneOutlierCandidates`: the control points unchanged, with the
mean 25 and the variance 1875 of the errors 0, 0, 0, 100. -/
def oneOutlierOptimize (l : List ControlPoint) : OptResult := ⟨l, 25, 1875⟩

/-- Two candidates whose post-optimization errors are 1 and 3. -/
def twoErrorCandidates : List ControlPoint :=
  [⟨0, 10, 0, 0, 10, 100, ControlPoint.X, 1⟩, ⟨0, 200, 0, 0, 200, 100, ControlPoint.X, 3⟩]

/-- The optimizer outcome for `twoErrorCandidates`: the control points unchanged, with the
mean 2 and the variance 1 of the errors 1 and 3. -/
def twoErrorOptimize (l : List ControlPoint) : OptResult := ⟨l, 2, 1⟩

/-! ## The merit of the design -/

/-- The length of the design for a control point: the Euclidean distance
`sqrt((x2-x1)^2 + (y2-y1)^2)` between its two endpoints. -/
def designLength (m : FloatEnv) (cp : ControlPoint) : ℚ :=
  m.sqrt (m.add (m.mul (m.sub cp.x2 cp.x1) (m.sub cp.x2 cp.x1))
    (m.mul (m.sub cp.y2 cp.y1) (m.sub cp.y2 cp.y1)))

/-- The merit of the design: `error/maxError + (1 - min(length,500)/500)` with `length` the
Euclidean distance between the endpoints. -/
def designMerit (m : FloatEnv) (maxError : ℚ) (cp : ControlPoint) : ℚ :=
  m.add (m.div cp.error maxError) (m.sub 1 (m.div (min (designLength m cp) 500) 500))

/-- The slope computed in the regression branch of `FitLine`:
`(s_xy - s_x*s_y) / (s_x2 - s_x*s_x)`. -/
def fitSlope (m : FloatEnv) (line : SingleLine) : ℚ :=
  m.div (m.sub (fitSums m line.line).s_xy
      (m.mul (fitSums m line.line).s_x (fitSums m line.line).s_y))
    (m.sub (fitSums m line.line).s_x2
      (m.mul (fitSums m line.line).s_x (fitSums m line.line).s_x))

/-- The offset computed in the regression branch of `FitLine`: `s_y - slope*s_x`. -/
def fitOffset (m : FloatEnv) (line : SingleLine) : ℚ :=
  m.sub (fitSums m line.line).s_y (m.mul (fitSlope m line) (fitSums m line.line).s_x)

/-- The ordinate of the point `p1 = (0, offset)` of `FitLine`, an `int`. -/
def anchorY0 (m : FloatEnv) (line : SingleLine) : Int := toInt (fitOffset m line)

/-- The ordinate of the point `p2 = (100, 100*slope + offset)` of `FitLine`, an `int`. -/
def anchorY100 (m : FloatEnv) (line : SingleLine) : Int :=
  toInt (m.add (m.mul 100 (fitSlope m line)) (fitOffset m line))

/-- The library `sqrt` is accurate at the argument `t`: the square of its result differs
from `t` by at most `t * 2^-51`, as it does for a correctly rounded square root. -/
def SqrtAccurateAt (m : FloatEnv) (t : ℚ) : Prop :=
  |m.sqrt t * m.sqrt t - t| ≤ t / 2 ^ 51

instance (m : FloatEnv) (t : ℚ) : Decidable (SqrtAccurateAt m t) := by
  unfold SqrtAccurateAt; infer_instance

end HuginLines

namespace HuginLines

/-! ## Auxiliary facts on conversions and rounding -/

theorem toInt_of_nonneg {q : ℚ} (h : 0 ≤ q) : toInt q = ⌊q⌋ := by
  unfold toInt; rw [if_pos h]

theorem toInt_sub_abs_lt_one (q : ℚ) : |((toInt q : Int) : ℚ) - q| < 1 := by
  unfold toInt
  split_ifs with h
  · rw [abs_lt]
    constructor
    · have := Int.lt_floor_add_one q; linarith
    · have := Int.floor_le q; linarith
  · rw [abs_lt]
    constructor
    · have := Int.le_ceil q; linarith
    · have := Int.ceil_lt_add_one q; linarith

theorem toInt_intCast (k : Int) : toInt (k : ℚ) = k := by
  unfold toInt
  split_ifs <;> simp

theorem wrapInt_of_fits {z : Int} (h : fitsInt z) : wrapInt z = z := by
  unfold fitsInt at h
  unfold wrapInt
  omega

theorem pow2_eq_zpow (k : Int) : pow2 k = (2 : ℚ) ^ k := by
  unfold pow2
  split_ifs with h
  · conv_rhs => rw [← Int.toNat_of_nonneg h]
    rw [zpow_natCast]
  · have h' : 0 ≤ -k := by omega
    have e : k = -((-k).toNat : Int) := by rw [Int.toNat_of_nonneg h']; ring
    conv_rhs => rw [e]
    rw [zpow_neg, zpow_natCast, one_div]

theorem pow2_pos (k : Int) : 0 < pow2 k := by
  rw [pow2_eq_zpow]; positivity

theorem pow2_sub_52 (e : Int) : pow2 (e - 52) = pow2 e / 2 ^ 52 := by
  rw [pow2_eq_zpow, pow2_eq_zpow, zpow_sub₀ (by norm_num : (2 : ℚ) ≠ 0)]
  norm_num

theorem roundHalfEven_abs_sub_le (s : ℚ) : |((roundHalfEven s : Int) : ℚ) - s| ≤ 1 / 2 := by
  have h1 := Int.floor_le s
  have h2 := Int.lt_floor_add_one s
  unfold roundHalfEven
  dsimp only
  rw [abs_le]
  split_ifs with a b c
  · constructor <;> linarith
  · push_cast; constructor <;> linarith
  · constructor <;> linarith
  · push_cast; constructor <;> linarith

/-- The binary64 rounding has relative error at most `2^-53`. -/
theorem roundDouble_accurate (q : ℚ) : |roundDouble q - q| ≤ |q| / 2 ^ 53 := by
  unfold roundDouble
  by_cases h0 : q = 0
  · simp [h0]
  rw [if_neg h0]
  dsimp only
  generalize binExponent |q| = e
  by_cases hg : pow2 e ≤ |q|
  · rw [if_pos hg]
    have hulp : 0 < pow2 (e - 52) := pow2_pos _
    have hr := roundHalfEven_abs_sub_le (|q| / pow2 (e - 52))
    generalize ((roundHalfEven (|q| / pow2 (e - 52)) : Int) : ℚ) = k at hr ⊢
    have key : abs (k * pow2 (e - 52) - abs q) ≤ abs q / 2 ^ 53 := by
      have e1 : k * pow2 (e - 52) - abs q = (k - abs q / pow2 (e - 52)) * pow2 (e - 52) := by
        field_simp
      rw [e1, abs_mul, abs_of_pos hulp]
      calc abs (k - abs q / pow2 (e - 52)) * pow2 (e - 52)
          ≤ 1 / 2 * pow2 (e - 52) := mul_le_mul_of_nonneg_right hr (le_of_lt hulp)
        _ = pow2 e / 2 ^ 53 := by rw [pow2_sub_52]; ring
        _ ≤ abs q / 2 ^ 53 := by
            apply div_le_div_of_nonneg_right hg; positivity
    by_cases hpos : 0 < q
    · rw [if_pos hpos]
      rw [abs_of_pos hpos] at key ⊢
      exact key
    · rw [if_neg hpos]
      have hneg : q < 0 := lt_of_le_of_ne (not_lt.1 hpos) h0
      rw [abs_of_neg hneg] at key ⊢
      have e2 : -(k * pow2 (e - 52)) - q = -(k * pow2 (e - 52) - -q) := by ring
      rw [e2, abs_neg]
      exact key
  · rw [if_neg hg]
    simp only [sub_self, abs_zero]
    positivity

theorem ieee_accurate : Accurate ieee := fun q => roundDouble_accurate q

theorem exact_exact : Exact exact := fun _ => rfl

theorem accurate_of_exact {m : FloatEnv} (h : Exact m) : Accurate m := by
  intro q
  rw [h q, sub_self, abs_zero]
  positivity

theorem round_bounds {m : FloatEnv} (hacc : Accurate m) {y : ℚ} (hy : 0 ≤ y) :
    y * (1 - 1 / 2 ^ 53) ≤ m.round y ∧ m.round y ≤ y * (1 + 1 / 2 ^ 53) := by
  have h := hacc y
  rw [abs_of_nonneg hy, abs_le] at h
  constructor <;> linarith [h.1, h.2]

/-! ## Image Resizer -/

theorem resize_side_bounds {m : FloatEnv} (hacc : Accurate m) {b s l : Int}
    (hs : 1 ≤ s) (hsl : s ≤ l) (hb : 1 ≤ b) (hb31 : b < 2147483648) :
    ⌊(1 / 2 : ℚ) + b * s / l⌋ - 1 ≤ toInt (m.add (1 / 2) (m.mul (m.div b l) s)) ∧
      toInt (m.add (1 / 2) (m.mul (m.div b l) s)) ≤ ⌊(1 / 2 : ℚ) + b * s / l⌋ + 1 ∧
      toInt (m.add (1 / 2) (m.mul (m.div b l) s)) ≤ b := by
  have hlq : (0 : ℚ) < l := by exact_mod_cast (by omega : (0 : Int) < l)
  have hsq : (0 : ℚ) ≤ s := by exact_mod_cast (by omega : (0 : Int) ≤ s)
  have hbq : (0 : ℚ) ≤ b := by exact_mod_cast (by omega : (0 : Int) ≤ b)
  have hb31q : (b : ℚ) ≤ 2147483648 := by exact_mod_cast (by omega : b ≤ 2147483648)
  have hslq : (s : ℚ) ≤ l := by exact_mod_cast hsl
  have hx0 : (0 : ℚ) ≤ b * s / l := by positivity
  have hxb : (b : ℚ) * s / l ≤ b := by
    rw [div_le_iff₀ hlq]; exact mul_le_mul_of_nonneg_left hslq hbq
  have hx : (b : ℚ) * s / l ≤ 2147483648 := le_trans hxb hb31q
  -- the three roundings
  have hbl : (0 : ℚ) ≤ b / l := by positivity
  obtain ⟨a1, a2⟩ := round_bounds hacc hbl
  have hsf0 : 0 ≤ m.round ((b : ℚ) / l) := le_trans (by positivity) a1
  have hp0 : 0 ≤ m.round ((b : ℚ) / l) * s := mul_nonneg hsf0 hsq
  obtain ⟨b1, b2⟩ := round_bounds hacc hp0
  have e : (b : ℚ) / l * s = b * s / l := by ring
  have c1 : (b : ℚ) * s / l * (1 - 1 / 2 ^ 53) ≤ m.round ((b : ℚ) / l) * s := by
    have := mul_le_mul_of_nonneg_right a1 hsq
    calc (b : ℚ) * s / l * (1 - 1 / 2 ^ 53) = (b : ℚ) / l * (1 - 1 / 2 ^ 53) * s := by ring
      _ ≤ m.round ((b : ℚ) / l) * s := this
  have c2 : m.round ((b : ℚ) / l) * s ≤ (b : ℚ) * s / l * (1 + 1 / 2 ^ 53) := by
    have := mul_le_mul_of_nonneg_right a2 hsq
    calc m.round ((b : ℚ) / l) * s ≤ (b : ℚ) / l * (1 + 1 / 2 ^ 53) * s := this
      _ = (b : ℚ) * s / l * (1 + 1 / 2 ^ 53) := by ring
  have d1 : (b : ℚ) * s / l * (1 - 1 / 2 ^ 53) * (1 - 1 / 2 ^ 53)
      ≤ m.round (m.round ((b : ℚ) / l) * s) :=
    le_trans (mul_le_mul_of_nonneg_right c1 (by norm_num)) b1
  have d2 : m.round (m.round ((b : ℚ) / l) * s)
      ≤ (b : ℚ) * s / l * (1 + 1 / 2 ^ 53) * (1 + 1 / 2 ^ 53) :=
    le_trans b2 (mul_le_mul_of_nonneg_right c2 (by norm_num))
  have hq0 : 0 ≤ m.round (m.round ((b : ℚ) / l) * s) :=
    le_trans (by positivity) d1
  have hy0 : (0 : ℚ) ≤ 1 / 2 + m.round (m.round ((b : ℚ) / l) * s) := by linarith
  obtain ⟨t1, t2⟩ := round_bounds hacc hy0
  have ht0 : 0 ≤ m.round (1 / 2 + m.round (m.round ((b : ℚ) / l) * s)) :=
    le_trans (by positivity) t1
  -- distance of the rounded sum from the exact one
  have up : m.round (1 / 2 + m.round (m.round ((b : ℚ) / l) * s))
      ≤ 1 / 2 + (b : ℚ) * s / l + 1 / 4 := by
    have h1 : (1 / 2 + m.round (m.round ((b : ℚ) / l) * s)) * (1 + 1 / 2 ^ 53)
        ≤ (1 / 2 + (b : ℚ) * s / l * (1 + 1 / 2 ^ 53) * (1 + 1 / 2 ^ 53))
          * (1 + 1 / 2 ^ 53) :=
      mul_le_mul_of_nonneg_right (by linarith) (by norm_num)
    have h2 : (1 / 2 + (b : ℚ) * s / l * (1 + 1 / 2 ^ 53) * (1 + 1 / 2 ^ 53))
          * (1 + 1 / 2 ^ 53)
        = 1 / 2 + (b : ℚ) * s / l + (1 / 2 ^ 54
          + (b : ℚ) * s / l * ((1 + 1 / 2 ^ 53) * (1 + 1 / 2 ^ 53) * (1 + 1 / 2 ^ 53) - 1)) := by
      ring
    have h3 : (b : ℚ) * s / l * ((1 + 1 / 2 ^ 53) * (1 + 1 / 2 ^ 53) * (1 + 1 / 2 ^ 53) - 1)
        ≤ 2147483648 * ((1 + 1 / 2 ^ 53) * (1 + 1 / 2 ^ 53) * (1 + 1 / 2 ^ 53) - 1) :=
      mul_le_mul_of_nonneg_right hx (by norm_num)
    have h4 : (1 : ℚ) / 2 ^ 54
        + 2147483648 * ((1 + 1 / 2 ^ 53) * (1 + 1 / 2 ^ 53) * (1 + 1 / 2 ^ 53) - 1) ≤ 1 / 4 := by
      norm_num
    linarith
  have lo : 1 / 2 + (b : ℚ) * s / l - 1 / 4
      ≤ m.round (1 / 2 + m.round (m.round ((b : ℚ) / l) * s)) := by
    have h1 : (1 / 2 + (b : ℚ) * s / l * (1 - 1 / 2 ^ 53) * (1 - 1 / 2 ^ 53))
          * (1 - 1 / 2 ^ 53)
        ≤ (1 / 2 + m.round (m.round ((b : ℚ) / l) * s)) * (1 - 1 / 2 ^ 53) :=
      mul_le_mul_of_nonneg_right (by linarith) (by norm_num)
    have h2 : (1 / 2 + (b : ℚ) * s / l * (1 - 1 / 2 ^ 53) * (1 - 1 / 2 ^ 53))
          * (1 - 1 / 2 ^ 53)
        = 1 / 2 + (b : ℚ) * s / l - (1 / 2 ^ 54
          + (b : ℚ) * s / l * (1 - (1 - 1 / 2 ^ 53) * (1 - 1 / 2 ^ 53) * (1 - 1 / 2 ^ 53))) := by
      ring
    have h3 : (b : ℚ) * s / l * (1 - (1 - 1 / 2 ^ 53) * (1 - 1 / 2 ^ 53) * (1 - 1 / 2 ^ 53))
        ≤ 2147483648 * (1 - (1 - 1 / 2 ^ 53) * (1 - 1 / 2 ^ 53) * (1 - 1 / 2 ^ 53)) :=
      mul_le_mul_of_nonneg_right hx (by norm_num)
    have h4 : (1 : ℚ) / 2 ^ 54
        + 2147483648 * (1 - (1 - 1 / 2 ^ 53) * (1 - 1 / 2 ^ 53) * (1 - 1 / 2 ^ 53)) ≤ 1 / 4 := by
      norm_num
    linarith
  have hto : toInt (m.add (1 / 2) (m.mul (m.div b l) s))
      = ⌊m.round (1 / 2 + m.round (m.round ((b : ℚ) / l) * s))⌋ := by
    unfold FloatEnv.add FloatEnv.mul FloatEnv.div
    exact toInt_of_nonneg ht0
  rw [hto]
  have hE1 := Int.floor_le ((1 / 2 : ℚ) + b * s / l)
  have hE2 := Int.lt_floor_add_one ((1 / 2 : ℚ) + b * s / l)
  refine ⟨?_, ?_, ?_⟩
  · exact Int.le_floor.2 (by push_cast; linarith)
  · exact Int.lt_add_one_iff.1 (Int.floor_lt.2 (by push_cast; linarith))
  · exact Int.lt_add_one_iff.1 (Int.floor_lt.2 (by push_cast; linarith))

theorem resize_factor_bound {m : FloatEnv} (hacc : Accurate m) {b l : Int}
    (hb : 1 ≤ b) (hl : 1 ≤ l) :
    |m.div 1 (m.div b l) - (l : ℚ) / b| ≤ (l : ℚ) / b / 2 ^ 51 := by
  have hlq : (0 : ℚ) < l := by exact_mod_cast (by omega : (0 : Int) < l)
  have hbq : (0 : ℚ) < b := by exact_mod_cast (by omega : (0 : Int) < b)
  have hbl : (0 : ℚ) < b / l := by positivity
  obtain ⟨a1, a2⟩ := round_bounds hacc (le_of_lt hbl)
  have hsf : 0 < m.round ((b : ℚ) / l) :=
    lt_of_lt_of_le (mul_pos hbl (by norm_num)) a1
  obtain ⟨f1, f2⟩ := round_bounds hacc (le_of_lt (one_div_pos.2 hsf))
  have hlb : (0 : ℚ) < l / b := by positivity
  -- bounds on the reciprocal of the rounded quotient
  have r1 : 1 / m.round ((b : ℚ) / l) ≤ (l : ℚ) / b / (1 - 1 / 2 ^ 53) := by
    rw [div_le_div_iff₀ hsf (by norm_num)]
    have : (l : ℚ) / b * ((b : ℚ) / l * (1 - 1 / 2 ^ 53)) ≤ (l : ℚ) / b * m.round ((b : ℚ) / l) :=
      mul_le_mul_of_nonneg_left a1 (le_of_lt hlb)
    have e : (l : ℚ) / b * ((b : ℚ) / l * (1 - 1 / 2 ^ 53)) = 1 * (1 - 1 / 2 ^ 53) := by
      field_simp
      ring
    linarith
  have r2 : (l : ℚ) / b / (1 + 1 / 2 ^ 53) ≤ 1 / m.round ((b : ℚ) / l) := by
    rw [div_le_div_iff₀ (by norm_num) hsf]
    have : (l : ℚ) / b * m.round ((b : ℚ) / l) ≤ (l : ℚ) / b * ((b : ℚ) / l * (1 + 1 / 2 ^ 53)) :=
      mul_le_mul_of_nonneg_left a2 (le_of_lt hlb)
    have e : (l : ℚ) / b * ((b : ℚ) / l * (1 + 1 / 2 ^ 53)) = 1 * (1 + 1 / 2 ^ 53) := by
      field_simp
      ring
    linarith
  unfold FloatEnv.div
  rw [abs_le]
  constructor
  · have h1 : (l : ℚ) / b / (1 + 1 / 2 ^ 53) * (1 - 1 / 2 ^ 53)
        ≤ 1 / m.round ((b : ℚ) / l) * (1 - 1 / 2 ^ 53) :=
      mul_le_mul_of_nonneg_right r2 (by norm_num)
    have h2 : (l : ℚ) / b / (1 + 1 / 2 ^ 53) * (1 - 1 / 2 ^ 53)
        = (l : ℚ) / b * ((1 - 1 / 2 ^ 53) / (1 + 1 / 2 ^ 53)) := by ring
    have h3 : (1 : ℚ) - 1 / 2 ^ 51 ≤ (1 - 1 / 2 ^ 53) / (1 + 1 / 2 ^ 53) := by norm_num
    have h4 := mul_le_mul_of_nonneg_left h3 (le_of_lt hlb)
    have h5 : (l : ℚ) / b * (1 - 1 / 2 ^ 51) = (l : ℚ) / b - (l : ℚ) / b / 2 ^ 51 := by ring
    linarith
  · have h1 : 1 / m.round ((b : ℚ) / l) * (1 + 1 / 2 ^ 53)
        ≤ (l : ℚ) / b / (1 - 1 / 2 ^ 53) * (1 + 1 / 2 ^ 53) :=
      mul_le_mul_of_nonneg_right r1 (by norm_num)
    have h2 : (l : ℚ) / b / (1 - 1 / 2 ^ 53) * (1 + 1 / 2 ^ 53)
        = (l : ℚ) / b * ((1 + 1 / 2 ^ 53) / (1 - 1 / 2 ^ 53)) := by ring
    have h3 : (1 + 1 / 2 ^ 53) / (1 - 1 / 2 ^ 53) ≤ (1 : ℚ) + 1 / 2 ^ 51 := by norm_num
    have h4 := mul_le_mul_of_nonneg_left h3 (le_of_lt hlb)
    have h5 : (l : ℚ) / b * (1 + 1 / 2 ^ 51) = (l : ℚ) / b + (l : ℚ) / b / 2 ^ 51 := by ring
    linarith

theorem resize_side_exact {m : FloatEnv} (hex : Exact m) {b s l : Int}
    (hs : 0 ≤ s) (hl : 0 < l) (hb : 0 ≤ b) :
    toInt (m.add (1 / 2) (m.mul (m.div b l) s)) = ⌊(1 / 2 : ℚ) + b * s / l⌋ := by
  have hlq : (0 : ℚ) < l := by exact_mod_cast hl
  have hsq : (0 : ℚ) ≤ s := by exact_mod_cast hs
  have hbq : (0 : ℚ) ≤ b := by exact_mod_cast hb
  have e : (b : ℚ) / l * s = b * s / l := by ring
  have h0 : (0 : ℚ) ≤ b * s / l := by positivity
  unfold FloatEnv.add FloatEnv.mul FloatEnv.div
  rw [hex, hex, hex, e, toInt_of_nonneg (by linarith)]

/-- C7: when both sides of the source are at most the bound, `resize_image` returns the
source unchanged (same size, same samples) and the factor `1.0/1.0`, which is exactly 1 for
every rounding that leaves 1 unchanged. -/
theorem resize_image_fits {P : Type} (m : FloatEnv) (hone : m.round 1 = 1)
    (resample : Image P → Int → Int → Int → Int → P)
    (src : Image P) (bound : Int) (hw : src.width ≤ bound) (hh : src.height ≤ bound) :
    (resize_image m resample src bound).1.width = src.width ∧
      (resize_image m resample src bound).1.height = src.height ∧
      (resize_image m resample src bound).1.data = src.data ∧
      (resize_image m resample src bound).2 = 1 := by
  unfold resize_image
  rw [if_neg (by omega)]
  refine ⟨rfl, rfl, rfl, ?_⟩
  show m.div 1 1 = 1
  unfold FloatEnv.div
  rw [div_one, hone]

theorem resize_image_fits_witness :
    (ieee.round 1 = 1 ∧ (3 : Int) ≤ 5 ∧ (2 : Int) ≤ 5) ∧
      (resize_image ieee (fun _ _ _ _ _ => 0) (⟨3, 2, fun x y => x + y⟩ : Image Int) 5).2 = 1 :=
  ⟨by decide!, (resize_image_fits ieee (by decide!) (fun _ _ _ _ _ => 0)
    (⟨3, 2, fun x y => x + y⟩ : Image Int) 5 (by decide) (by decide)).2.2.2⟩

/-- C8 (counterexample): a 3712 x 145 source with bound 1600 in binary64 arithmetic.  The
destination is 1600 x 62 although `floor(0.5 + 1600*145/3712) = floor(63) = 63`, and the
returned factor is the double `2.3200000000000003`, not `3712/1600 = 2.32`. -/
theorem resize_image_tie_rounds_down :
    (resize_image ieee (fun _ _ _ _ _ => 0) (⟨3712, 145, fun _ _ => 0⟩ : Image Nat) 1600).1.width
        = 1600 ∧
      (resize_image ieee (fun _ _ _ _ _ => 0)
        (⟨3712, 145, fun _ _ => 0⟩ : Image Nat) 1600).1.height = 62 ∧
      ⌊(1 / 2 : ℚ) + 1600 * 145 / 3712⌋ = 63 ∧
      (resize_image ieee (fun _ _ _ _ _ => 0) (⟨3712, 145, fun _ _ => 0⟩ : Image Nat) 1600).2
        = 326510972984361 / 140737488355328 ∧
      (resize_image ieee (fun _ _ _ _ _ => 0) (⟨3712, 145, fun _ _ => 0⟩ : Image Nat) 1600).2
        ≠ 3712 / 1600 := by
  decide!

/-- C8 (amended): when the larger side of the source exceeds the bound (all sizes within the
`int` range), the destination has its larger side equal to the bound, on the axis of the
source's larger side (the width on a tie), and no side above the bound; for every rounding
of relative error at most `2^-53` its other side differs by at most 1 from
`floor(0.5 + bound*min(w,h)/max(w,h))` and the returned factor differs from `max(w,h)/bound`
by at most the relative error `2^-51`; in exact arithmetic both are equal to these values. -/
theorem resize_image_shrinks {P : Type} (m : FloatEnv) (hacc : Accurate m)
    (resample : Image P → Int → Int → Int → Int → P)
    (src : Image P) (bound : Int) (hw : 1 ≤ src.width) (hh : 1 ≤ src.height)
    (hb : 1 ≤ bound) (hb31 : bound < 2147483648) (hbig : bound < max src.width src.height) :
    max (resize_image m resample src bound).1.width (resize_image m resample src bound).1.height
        = bound ∧
      (src.height ≤ src.width → (resize_image m resample src bound).1.width = bound) ∧
      (src.width < src.height → (resize_image m resample src bound).1.height = bound) ∧
      (resize_image m resample src bound).1.width ≤ bound ∧
      (resize_image m resample src bound).1.height ≤ bound ∧
      ⌊(1 / 2 : ℚ) + (bound : ℚ) * (min src.width src.height : Int)
            / (max src.width src.height : Int)⌋ - 1
        ≤ min (resize_image m resample src bound).1.width
            (resize_image m resample src bound).1.height ∧
      min (resize_image m resample src bound).1.width
          (resize_image m resample src bound).1.height
        ≤ ⌊(1 / 2 : ℚ) + (bound : ℚ) * (min src.width src.height : Int)
            / (max src.width src.height : Int)⌋ + 1 ∧
      |(resize_image m resample src bound).2
          - ((max src.width src.height : Int) : ℚ) / (bound : ℚ)|
        ≤ ((max src.width src.height : Int) : ℚ) / (bound : ℚ) / 2 ^ 51 ∧
      (Exact m →
        min (resize_image m resample src bound).1.width
            (resize_image m resample src bound).1.height
          = ⌊(1 / 2 : ℚ) + (bound : ℚ) * (min src.width src.height : Int)
              / (max src.width src.height : Int)⌋ ∧
        (resize_image m resample src bound).2
          = ((max src.width src.height : Int) : ℚ) / (bound : ℚ)) := by
  have hcond : src.width > bound ∨ src.height > bound := by
    rcases le_total src.width src.height with h | h
    · right; rwa [max_eq_right h] at hbig
    · left; rwa [max_eq_left h] at hbig
  unfold resize_image
  rw [if_pos hcond]
  by_cases hge : src.width ≥ src.height
  · rw [if_pos hge]
    obtain ⟨e1, e2, e3⟩ := resize_side_bounds hacc (b := bound) (s := src.height)
      (l := src.width) hh hge hb hb31
    have ef := resize_factor_bound hacc (b := bound) (l := src.width) hb hw
    simp only [max_eq_left hge, min_eq_right hge]
    refine ⟨max_eq_left e3, fun _ => trivial, fun h => absurd h (by omega), le_refl _, e3,
      ?_, ?_, ef, ?_⟩
    · rw [min_eq_right e3]; exact e1
    · rw [min_eq_right e3]; exact e2
    · intro hex
      refine ⟨?_, ?_⟩
      · rw [min_eq_right e3]
        exact resize_side_exact hex (by omega) (by omega) (by omega)
      · unfold FloatEnv.div
        rw [hex, hex, one_div_div]
  · rw [if_neg hge]
    have hlt : src.width < src.height := by omega
    obtain ⟨e1, e2, e3⟩ := resize_side_bounds hacc (b := bound) (s := src.width)
      (l := src.height) hw (by omega) hb hb31
    have ef := resize_factor_bound hacc (b := bound) (l := src.height) hb hh
    simp only [max_eq_right (le_of_lt hlt), min_eq_left (le_of_lt hlt)]
    refine ⟨max_eq_right e3, fun h => absurd h (by omega), fun _ => trivial, e3, le_refl _,
      ?_, ?_, ef, ?_⟩
    · rw [min_eq_left e3]; exact e1
    · rw [min_eq_left e3]; exact e2
    · intro hex
      refine ⟨?_, ?_⟩
      · rw [min_eq_left e3]
        exact resize_side_exact hex (by omega) (by omega) (by omega)
      · unfold FloatEnv.div
        rw [hex, hex, one_div_div]

theorem resize_image_shrinks_witness :
    (Accurate ieee ∧ (1 : Int) ≤ 3712 ∧ (1 : Int) ≤ 145 ∧ (1 : Int) ≤ 1600 ∧
      (1600 : Int) < 2147483648 ∧ (1600 : Int) < max 3712 145) ∧
      max (resize_image ieee (fun _ _ _ _ _ => 0)
          (⟨3712, 145, fun _ _ => 0⟩ : Image Nat) 1600).1.width
        (resize_image ieee (fun _ _ _ _ _ => 0)
          (⟨3712, 145, fun _ _ => 0⟩ : Image Nat) 1600).1.height = 1600 :=
  ⟨⟨ieee_accurate, by decide, by decide, by decide, by decide, by decide⟩,
   (resize_image_shrinks ieee ieee_accurate (fun _ _ _ _ _ => 0)
    (⟨3712, 145, fun _ _ => 0⟩ : Image Nat) 1600
    (by decide) (by decide) (by decide) (by decide) (by decide)).1⟩

/-! ## FilterLines: retained lines pass both tests -/

theorem scanLines_mem (m : FloatEnv) (vl : VerticalLine) (A : List VerticalLine) (db : Bool)
    (x : VerticalLine) (hx : x ∈ (scanLines m vl A db).1) : x = vl ∨ x ∈ A := by
  induction A generalizing db with
  | nil => simp [scanLines] at hx
  | cons o rest ih =>
    unfold scanLines at hx
    split_ifs at hx <;> simp only [List.mem_cons] at hx ⊢ <;>
      rcases hx with h | h <;> first
        | (left; exact h)
        | (right; left; exact h)
        | (rcases ih _ h with h2 | h2
           · left; exact h2
           · right; right; exact h2)

theorem filterStep_inv (m : FloatEnv) (roll : ℚ) (A : List VerticalLine) (it : SingleLine)
    (hA : ∀ x ∈ A, lengthOk m x ∧ verticalOk m roll x) :
    ∀ x ∈ filterStep m roll A it, lengthOk m x ∧ verticalOk m roll x := by
  intro x hx
  unfold filterStep at hx
  dsimp only at hx
  split_ifs at hx with h1 h2 h3 h4
  · rw [List.mem_append, List.mem_singleton] at hx
    rcases hx with h | h
    · rcases scanLines_mem m _ A true x h with e | e
      · rw [e]; exact ⟨h2, h3⟩
      · exact hA x e
    · rw [h]; exact ⟨h2, h3⟩
  · rcases scanLines_mem m _ A true x hx with e | e
    · rw [e]; exact ⟨h2, h3⟩
    · exact hA x e
  · exact hA x hx
  · exact hA x hx
  · exact hA x hx

theorem foldl_filterStep_inv (m : FloatEnv) (roll : ℚ) (lines : List SingleLine)
    (A : List VerticalLine) (hA : ∀ x ∈ A, lengthOk m x ∧ verticalOk m roll x) :
    ∀ x ∈ lines.foldl (filterStep m roll) A, lengthOk m x ∧ verticalOk m roll x := by
  induction lines generalizing A with
  | nil => simpa using hA
  | cons it rest ih =>
    rw [List.foldl_cons]
    exact ih _ (filterStep_inv m roll A it hA)

/-- C4: every line returned by `FilterLines` (appended or written by in-place replacement)
has length above 20 and deviates from the vertical, relative to the roll given in degrees,
by less than 0.1: `|(dx*cos(roll) + dy*sin(roll)) / length| < 0.1` with `(dx, dy)` its end
minus its start, as computed by the code. -/
theorem FilterLines_retained_ok (m : FloatEnv) (lines : List SingleLine) (roll : ℚ)
    (vl : VerticalLine) (hvl : vl ∈ FilterLines m lines roll) :
    magnitude m (vl.m_end.sub vl.m_start) > 20 ∧
      |m.div (m.add (m.mul ((vl.m_end.sub vl.m_start).x : ℚ) (m.cos (m.DEG_TO_RAD roll)))
          (m.mul ((vl.m_end.sub vl.m_start).y : ℚ) (m.sin (m.DEG_TO_RAD roll))))
        (magnitude m (vl.m_end.sub vl.m_start))| < 1 / 10 := by
  have h := foldl_filterStep_inv m roll lines [] (by simp) vl hvl
  exact ⟨h.1, h.2⟩

theorem FilterLines_retained_ok_witness :
    (⟨⟨70, 0⟩, ⟨70, 50⟩⟩ : VerticalLine) ∈ FilterLines ieee exampleLines 0 ∧
      magnitude ieee ((⟨⟨70, 0⟩, ⟨70, 50⟩⟩ : VerticalLine).m_end.sub
        (⟨⟨70, 0⟩, ⟨70, 50⟩⟩ : VerticalLine).m_start) > 20 :=
  ⟨by decide!,
   (FilterLines_retained_ok ieee exampleLines 0 ⟨⟨70, 0⟩, ⟨70, 50⟩⟩ (by decide!)).1⟩

/-! ## Synthesizer -/

theorem synthesize_foldl_eq (m : FloatEnv) (needsRemap : Bool) (size_factor : ℚ)
    (transform : ℚ → ℚ → Option (ℚ × ℚ)) (width height : Int)
    (ls : List VerticalLine) (acc : List ControlPoint) :
    ls.foldl (fun detectedLines vl =>
      match synthesizeLine m needsRemap size_factor transform width height vl with
      | some cp => detectedLines ++ [cp]
      | none => detectedLines) acc
    = acc ++ ls.filterMap (synthesizeLine m needsRemap size_factor transform width height) := by
  induction ls generalizing acc with
  | nil => simp
  | cons vl rest ih =>
    rw [List.foldl_cons, ih]
    cases h : synthesizeLine m needsRemap size_factor transform width height vl with
    | none => simp [List.filterMap_cons, h]
    | some cp => simp [List.filterMap_cons, h]

theorem synthesize_eq_filterMap (m : FloatEnv) (needsRemap : Bool) (size_factor : ℚ)
    (transform : ℚ → ℚ → Option (ℚ × ℚ)) (width height : Int) (ls : List VerticalLine) :
    synthesize m needsRemap size_factor transform width height ls
      = ls.filterMap (synthesizeLine m needsRemap size_factor transform width height) := by
  unfold synthesize
  rw [synthesize_foldl_eq]; simp

theorem synthesizeLine_some (m : FloatEnv) (needsRemap : Bool) (size_factor : ℚ)
    (transform : ℚ → ℚ → Option (ℚ × ℚ)) (width height : Int) (vl : VerticalLine)
    (cp : ControlPoint)
    (h : synthesizeLine m needsRemap size_factor transform width height vl = some cp) :
    InImage width height cp := by
  unfold InImage
  cases needsRemap with
  | false =>
    simp only [synthesizeLine, Bool.not_false, if_true, Option.ite_none_right_eq_some] at h
    obtain ⟨hb, hcp⟩ := h
    cases hcp
    exact hb
  | true =>
    rcases hs : transform vl.m_start.x vl.m_start.y with _ | ⟨xs, ys⟩
    · simp [synthesizeLine, hs] at h
    · rcases he : transform vl.m_end.x vl.m_end.y with _ | ⟨xe, ye⟩
      · simp [synthesizeLine, hs, he] at h
      · simp only [synthesizeLine, Bool.not_true, hs, he, Bool.false_eq_true, if_false,
          Option.ite_none_right_eq_some] at h
        obtain ⟨hb, hcp⟩ := h
        cases hcp
        exact hb

/-- C3: every control point the synthesizer loop appends lies inside the source image,
`0 <= x < width` and `0 <= y < height` for both endpoints; a filtered line that has no pair
of mapped endpoints inside these bounds (out of bounds after scaling, inverse transform
failed, or transformed out of bounds) contributes no candidate. -/
theorem synthesize_in_image (m : FloatEnv) (needsRemap : Bool) (size_factor : ℚ)
    (transform : ℚ → ℚ → Option (ℚ × ℚ)) (width height : Int) (ls : List VerticalLine) :
    (∀ cp ∈ synthesize m needsRemap size_factor transform width height ls,
      0 ≤ cp.x1 ∧ cp.x1 < (width : ℚ) ∧ 0 ≤ cp.y1 ∧ cp.y1 < (height : ℚ) ∧
      0 ≤ cp.x2 ∧ cp.x2 < (width : ℚ) ∧ 0 ≤ cp.y2 ∧ cp.y2 < (height : ℚ)) ∧
    (∀ (pre post : List VerticalLine) (vl : VerticalLine),
      (needsRemap = false →
        ¬ InImage width height
          ⟨0, m.mul (vl.m_start.x : ℚ) size_factor, m.mul (vl.m_start.y : ℚ) size_factor,
           0, m.mul (vl.m_end.x : ℚ) size_factor, m.mul (vl.m_end.y : ℚ) size_factor,
           ControlPoint.X, 0⟩) →
      (needsRemap = true → ∀ s e : ℚ × ℚ,
        transform vl.m_start.x vl.m_start.y = some s →
        transform vl.m_end.x vl.m_end.y = some e →
        ¬ InImage width height ⟨0, s.1, s.2, 0, e.1, e.2, ControlPoint.X, 0⟩) →
      synthesize m needsRemap size_factor transform width height (pre ++ vl :: post)
        = synthesize m needsRemap size_factor transform width height (pre ++ post)) := by
  constructor
  · intro cp hcp
    rw [synthesize_eq_filterMap, List.mem_filterMap] at hcp
    obtain ⟨vl, _, hvl⟩ := hcp
    exact synthesizeLine_some m _ _ _ _ _ vl cp hvl
  · intro pre post vl h1 h2
    have hnone : synthesizeLine m needsRemap size_factor transform width height vl = none := by
      cases needsRemap with
      | false =>
        have h := h1 rfl
        unfold InImage at h
        simp only [synthesizeLine, Bool.not_false, if_true]
        rw [if_neg h]
      | true =>
        rcases hs : transform vl.m_start.x vl.m_start.y with _ | ⟨xs, ys⟩
        · simp [synthesizeLine, hs]
        · rcases he : transform vl.m_end.x vl.m_end.y with _ | ⟨xe, ye⟩
          · simp [synthesizeLine, hs, he]
          · have h := h2 rfl (xs, ys) (xe, ye) hs he
            unfold InImage at h
            simp only [synthesizeLine, Bool.not_true, hs, he, Bool.false_eq_true, if_false]
            rw [if_neg h]
    simp only [synthesize_eq_filterMap, List.filterMap_append, List.filterMap_cons, hnone]

theorem synthesize_in_image_witness :
    (⟨0, 10, 0, 0, 10, 200, ControlPoint.X, 0⟩ : ControlPoint) ∈
        synthesize ieee false 1 (fun _ _ => none) 1000 1000 [⟨⟨10, 0⟩, ⟨10, 200⟩⟩] ∧
      ((0 : ℚ) ≤ 10 ∧ (10 : ℚ) < ((1000 : Int) : ℚ) ∧ (0 : ℚ) ≤ 0 ∧ (0 : ℚ) < ((1000 : Int) : ℚ) ∧
        (0 : ℚ) ≤ 10 ∧ (10 : ℚ) < ((1000 : Int) : ℚ) ∧ (0 : ℚ) ≤ 200 ∧
        (200 : ℚ) < ((1000 : Int) : ℚ)) :=
  ⟨by decide!,
   (synthesize_in_image ieee false 1 (fun _ _ => none) 1000 1000 [⟨⟨10, 0⟩, ⟨10, 200⟩⟩]).1
     ⟨0, 10, 0, 0, 10, 200, ControlPoint.X, 0⟩ (by decide!)⟩

/-! ## Validator: first filter stage -/

theorem firstFilter_nil (limit : ℚ) : firstFilter limit [] = ([], 0) := rfl

theorem firstFilter_cons (limit : ℚ) (cp : ControlPoint) (l : List ControlPoint) :
    firstFilter limit (cp :: l) =
      if cp.error > limit then firstFilter limit l
      else (cp :: (firstFilter limit l).1, max cp.error (firstFilter limit l).2) := rfl

theorem firstFilter_fst (limit : ℚ) (l : List ControlPoint) :
    (firstFilter limit l).1 = l.filter (fun cp => decide (cp.error ≤ limit)) := by
  induction l with
  | nil => rfl
  | cons cp rest ih =>
    rw [firstFilter_cons]
    by_cases h : cp.error > limit
    · rw [if_pos h, ih, List.filter_cons_of_neg]
      simpa using h
    · rw [if_neg h, List.filter_cons_of_pos]
      · simp [ih]
      · simpa using h

theorem firstFilter_snd_nonneg (limit : ℚ) (l : List ControlPoint) :
    0 ≤ (firstFilter limit l).2 := by
  induction l with
  | nil => simp [firstFilter_nil]
  | cons cp rest ih =>
    rw [firstFilter_cons]
    split_ifs
    · exact ih
    · exact le_max_of_le_right ih

theorem firstFilter_snd_ub (limit : ℚ) (l : List ControlPoint) :
    ∀ cp ∈ (firstFilter limit l).1, cp.error ≤ (firstFilter limit l).2 := by
  induction l with
  | nil => simp [firstFilter_nil]
  | cons c rest ih =>
    rw [firstFilter_cons]
    split_ifs
    · exact ih
    · intro cp hcp
      rcases List.mem_cons.1 hcp with h | h
      · rw [h]; exact le_max_left _ _
      · exact le_max_of_le_right (ih cp h)

theorem firstFilter_snd_of_nil (limit : ℚ) (l : List ControlPoint)
    (h : (firstFilter limit l).1 = []) : (firstFilter limit l).2 = 0 := by
  induction l with
  | nil => rfl
  | cons c rest ih =>
    rw [firstFilter_cons] at h ⊢
    split_ifs at h ⊢ with hc
    exact ih h

theorem firstFilter_snd_attained (limit : ℚ) (l : List ControlPoint)
    (hnn : ∀ cp ∈ l, 0 ≤ cp.error) (hne : (firstFilter limit l).1 ≠ []) :
    ∃ cp ∈ (firstFilter limit l).1, cp.error = (firstFilter limit l).2 := by
  induction l with
  | nil => exact absurd rfl hne
  | cons c rest ih =>
    have hnn' : ∀ cp ∈ rest, 0 ≤ cp.error := fun cp h => hnn cp (List.mem_cons_of_mem _ h)
    rw [firstFilter_cons] at hne ⊢
    split_ifs at hne ⊢ with hc
    · exact ih hnn' hne
    · rcases le_total c.error (firstFilter limit rest).2 with h | h
      · rw [max_eq_right h]
        by_cases hS : (firstFilter limit rest).1 = []
        · refine ⟨c, List.mem_cons_self _ _, ?_⟩
          have h0 := firstFilter_snd_of_nil limit rest hS
          have hc0 := hnn c (List.mem_cons_self _ _)
          rw [h0] at h ⊢
          exact le_antisymm h hc0
        · obtain ⟨cp, hcp, e⟩ := ih hnn' hS
          exact ⟨cp, List.mem_cons_of_mem _ hcp, e⟩
      · rw [max_eq_left h]
        exact ⟨c, List.mem_cons_self _ _, rfl⟩

/-! ## Validator: number of results and output error -/

theorem validate_error_zero (m : FloatEnv) (sort : List ControlPoint → List ControlPoint)
    (optimize : List ControlPoint → OptResult) (roll : ℚ) (imgNr nrLines : Nat)
    (detectedLines : List ControlPoint) :
    ∀ cp ∈ validate m sort optimize roll imgNr nrLines detectedLines, cp.error = 0 := by
  intro cp hcp
  unfold validate at hcp
  dsimp only at hcp
  split_ifs at hcp with h1 h2
  · rw [List.mem_map] at hcp
    obtain ⟨c, _, rfl⟩ := hcp
    rfl
  · simp at hcp
  · split at hcp
    · split_ifs at hcp
      · rw [List.mem_singleton] at hcp
        rw [hcp]; rfl
      · simp at hcp
    · simp at hcp

theorem validate_length_le (m : FloatEnv) (sort : List ControlPoint → List ControlPoint)
    (optimize : List ControlPoint → OptResult) (roll : ℚ) (imgNr nrLines : Nat)
    (detectedLines : List ControlPoint) (h : 1 ≤ nrLines ∨ detectedLines.length ≠ 1) :
    (validate m sort optimize roll imgNr nrLines detectedLines).length ≤ nrLines := by
  unfold validate
  dsimp only
  split_ifs with h1 h2
  · rw [List.length_map, List.length_take]
    exact min_le_left _ _
  · simp
  · split
    · rcases h with h | h
      · split_ifs
        · simpa using h
        · simp
      · simp at h
    · simp

/-- C2 (evaluation at the failing input): with exactly one candidate, a vertical segment,
and `nrLines = 0`, the validator returns that candidate: one control point, more than
`nrLines`.  The one-candidate path never compares against `nrLines`. -/
theorem validate_single_ignores_nrLines (sort : List ControlPoint → List ControlPoint)
    (optimize : List ControlPoint → OptResult) (imgNr : Nat) :
    validate ieee sort optimize 0 imgNr 0 [⟨0, 10, 0, 0, 10, 100, ControlPoint.X, 0⟩]
        = [⟨imgNr, 10, 0, imgNr, 10, 100, ControlPoint.X, 0⟩] ∧
      0 < (validate ieee sort optimize 0 imgNr 0
        [⟨0, 10, 0, 0, 10, 100, ControlPoint.X, 0⟩]).length := by
  have h : singleOk ieee 0 ⟨0, 10, 0, 0, 10, 100, ControlPoint.X, 0⟩ := by decide!
  simp [validate, h, finalize]

/-! ## Validator: merit ranking -/

theorem perm_map_inv {α β : Type} (f : α → β) {l₁ l₂ : List β} (h : l₁.Perm l₂) :
    ∀ S : List α, l₂ = S.map f → ∃ S' : List α, S'.Perm S ∧ l₁ = S'.map f := by
  induction h with
  | nil =>
    intro S hS
    exact ⟨S, List.Perm.refl _, hS⟩
  | cons x _ ih =>
    intro S hS
    cases S with
    | nil => simp at hS
    | cons s S0 =>
      simp only [List.map_cons, List.cons.injEq] at hS
      obtain ⟨S0', hp, e⟩ := ih S0 hS.2
      exact ⟨s :: S0', hp.cons s, by simp [hS.1, e]⟩
  | swap x y l =>
    intro S hS
    cases S with
    | nil => simp at hS
    | cons a S1 =>
      cases S1 with
      | nil => simp at hS
      | cons b S0 =>
        simp only [List.map_cons, List.cons.injEq] at hS
        exact ⟨b :: a :: S0, List.Perm.swap a b S0, by simp [hS.1, hS.2.1, hS.2.2]⟩
  | trans _ _ ih1 ih2 =>
    intro S hS
    obtain ⟨S2, hp2, e2⟩ := ih2 S hS
    obtain ⟨S1, hp1, e1⟩ := ih1 S2 e2
    exact ⟨S1, hp1.trans hp2, e1⟩

theorem stdSort_isStdSort : IsStdSort stdSort := by
  intro l
  refine ⟨List.perm_insertionSort _ l, ?_⟩
  haveI : IsTotal ControlPoint (fun a b => a.error ≤ b.error) := ⟨fun a b => le_total _ _⟩
  haveI : IsTrans ControlPoint (fun a b => a.error ≤ b.error) :=
    ⟨fun _ _ _ h1 h2 => le_trans h1 h2⟩
  have hs := List.sorted_insertionSort (fun a b : ControlPoint => a.error ≤ b.error) l
  exact hs.imp (fun h => not_lt.2 h)

theorem finalize_setMerit (m : FloatEnv) (M : ℚ) (imgNr : Nat) (cp : ControlPoint) :
    finalize imgNr (setMerit m M cp) = finalize imgNr cp := rfl

/-! ## FilterLines: one step against the accepted lines -/

/-- The entry left at the position of `otherLine` by the scan for the candidate `vl`. -/
theorem scanLines_fst (m : FloatEnv) (vl : VerticalLine) (A : List VerticalLine) (db : Bool) :
    (scanLines m vl A db).1
      = A.map (fun o => if isClose m vl o ∧ vl.GetLineLength m > o.GetLineLength m
          then vl else o) := by
  induction A generalizing db with
  | nil => rfl
  | cons o rest ih =>
    unfold scanLines
    by_cases h1 : vl.GetEstimatedDistance m o < 80
    · by_cases h2 : |m.sub (vl.GetAngle m) (o.GetAngle m)| < 1 / 20
      · by_cases h3 : vl.GetLineLength m > o.GetLineLength m
        · simp only [isClose, h1, h2, h3, ih, List.map_cons, and_self, if_true]
        · simp only [isClose, h1, h2, h3, ih, List.map_cons, and_self, if_true, and_false,
            if_false]
      · simp only [isClose, h1, h2, ih, List.map_cons, and_false, false_and, if_true, if_false]
    · simp only [isClose, h1, ih, List.map_cons, false_and, if_false]

theorem scanLines_snd (m : FloatEnv) (vl : VerticalLine) (A : List VerticalLine) (db : Bool) :
    (scanLines m vl A db).2 = (db && A.all (fun o => !decide (isClose m vl o))) := by
  induction A generalizing db with
  | nil => simp [scanLines]
  | cons o rest ih =>
    unfold scanLines
    by_cases h1 : vl.GetEstimatedDistance m o < 80
    · by_cases h2 : |m.sub (vl.GetAngle m) (o.GetAngle m)| < 1 / 20
      · by_cases h3 : vl.GetLineLength m > o.GetLineLength m
        · simp only [isClose, h1, h2, h3, ih, List.all_cons, and_self, if_true,
            decide_True, Bool.not_true, Bool.false_and, Bool.and_false]
        · simp only [isClose, h1, h2, h3, ih, List.all_cons, and_self, if_true, if_false,
            decide_True, Bool.not_true, Bool.false_and, Bool.and_false]
      · simp only [isClose, h1, h2, ih, List.all_cons, and_false, if_true, if_false,
          decide_False, Bool.not_false, Bool.true_and]
    · simp only [isClose, h1, ih, List.all_cons, false_and, if_false,
        decide_False, Bool.not_false, Bool.true_and]

theorem filterStep_of_pass (m : FloatEnv) (roll : ℚ) (A : List VerticalLine) (l : SingleLine)
    (hv : l.status = LineStatus.valid_line) (hn : l.line.length > 2)
    (hlen : lengthOk m (FitLine m l)) (hvert : verticalOk m roll (FitLine m l)) :
    filterStep m roll A l
      = if A.all (fun o => !decide (isClose m (FitLine m l) o)) then
          A.map (fun o => if isClose m (FitLine m l) o ∧
            (FitLine m l).GetLineLength m > o.GetLineLength m then FitLine m l else o)
            ++ [FitLine m l]
        else
          A.map (fun o => if isClose m (FitLine m l) o ∧
            (FitLine m l).GetLineLength m > o.GetLineLength m then FitLine m l else o) := by
  unfold filterStep
  rw [if_pos ⟨hv, hn⟩]
  dsimp only
  rw [if_pos hlen, if_pos hvert, scanLines_fst, scanLines_snd]
  simp

theorem FilterLines_append (m : FloatEnv) (roll : ℚ) (ls : List SingleLine) (l : SingleLine) :
    FilterLines m (ls ++ [l]) roll = filterStep m roll (FilterLines m ls roll) l := by
  unfold FilterLines
  rw [List.foldl_append]; rfl

/-- C1 (counterexample): for the three vertical lines at `x = 0` (length 30), `x = 140`
(length 100) and `x = 70` (length 50), in this order and with roll 0, `FilterLines` returns
two lines, at positions 0 and 1, whose estimated distance is below 80 and whose angles
differ by less than 0.05. -/
theorem FilterLines_keeps_close_pair :
    FilterLines ieee exampleLines 0 = [⟨⟨70, 0⟩, ⟨70, 50⟩⟩, ⟨⟨140, 0⟩, ⟨140, 100⟩⟩] ∧
      (⟨⟨70, 0⟩, ⟨70, 50⟩⟩ : VerticalLine).GetEstimatedDistance ieee
        ⟨⟨140, 0⟩, ⟨140, 100⟩⟩ < 80 ∧
      |ieee.sub ((⟨⟨70, 0⟩, ⟨70, 50⟩⟩ : VerticalLine).GetAngle ieee)
        ((⟨⟨140, 0⟩, ⟨140, 100⟩⟩ : VerticalLine).GetAngle ieee)| < 1 / 20 := by
  decide!

/-- C1 (amended): let `A` be the result of `FilterLines` for a list of RawLines and `c` the
fit of one further valid RawLine that passes the length and verticality tests.  In the
result for the extended list, `c` is appended exactly when no entry of `A` is close to it
(estimated distance below 80 and angle difference below 0.05); otherwise the number of
entries is unchanged; and every position that held an entry `e` close to `c` holds the
longer of the two afterwards (`c` when strictly longer, else `e`). -/
theorem FilterLines_extend_close (m : FloatEnv) (ls : List SingleLine) (roll : ℚ) (l : SingleLine)
    (hv : l.status = LineStatus.valid_line) (hn : l.line.length > 2)
    (hlen : lengthOk m (FitLine m l)) (hvert : verticalOk m roll (FitLine m l)) :
    ((∀ e ∈ FilterLines m ls roll, ¬ isClose m (FitLine m l) e) →
        FilterLines m (ls ++ [l]) roll = FilterLines m ls roll ++ [FitLine m l]) ∧
      ((∃ e ∈ FilterLines m ls roll, isClose m (FitLine m l) e) →
        (FilterLines m (ls ++ [l]) roll).length = (FilterLines m ls roll).length) ∧
      (∀ (i : Nat) (e : VerticalLine), (FilterLines m ls roll)[i]? = some e →
        isClose m (FitLine m l) e →
        (FilterLines m (ls ++ [l]) roll)[i]?
          = some (if (FitLine m l).GetLineLength m > e.GetLineLength m
              then FitLine m l else e)) := by
  rw [FilterLines_append, filterStep_of_pass m roll _ l hv hn hlen hvert]
  refine ⟨?_, ?_, ?_⟩
  · intro h
    have hall : (FilterLines m ls roll).all (fun o => !decide (isClose m (FitLine m l) o))
        = true := by
      rw [List.all_eq_true]
      intro o ho
      simpa using h o ho
    rw [if_pos hall]
    congr 1
    conv_rhs => rw [← List.map_id (FilterLines m ls roll)]
    apply List.map_congr_left
    intro o ho
    rw [if_neg (fun hc => h o ho hc.1)]
    rfl
  · rintro ⟨e, he, hc⟩
    have hall : ¬ (FilterLines m ls roll).all (fun o => !decide (isClose m (FitLine m l) o))
        = true := by
      rw [List.all_eq_true]
      intro h
      have := h e he
      simp [hc] at this
    rw [if_neg hall, List.length_map]
  · intro i e hi hc
    have hlt : i < (FilterLines m ls roll).length := by
      rcases Nat.lt_or_ge i (FilterLines m ls roll).length with h | h
      · exact h
      · rw [List.getElem?_eq_none h] at hi
        cases hi
    have hmap : ((FilterLines m ls roll).map (fun o => if isClose m (FitLine m l) o ∧
        (FitLine m l).GetLineLength m > o.GetLineLength m then FitLine m l else o))[i]?
        = some (if (FitLine m l).GetLineLength m > e.GetLineLength m
            then FitLine m l else e) := by
      rw [List.getElem?_map, hi]
      simp only [Option.map_some', hc, true_and]
    by_cases hall : (FilterLines m ls roll).all
        (fun o => !decide (isClose m (FitLine m l) o)) = true
    · rw [if_pos hall, List.getElem?_append_left (by rw [List.length_map]; exact hlt)]
      exact hmap
    · rw [if_neg hall]
      exact hmap

theorem FilterLines_extend_close_witness :
    ((vertLine 70 0 50).status = LineStatus.valid_line ∧ (vertLine 70 0 50).line.length > 2 ∧
      lengthOk ieee (FitLine ieee (vertLine 70 0 50)) ∧
      verticalOk ieee 0 (FitLine ieee (vertLine 70 0 50)) ∧
      ∃ e ∈ FilterLines ieee [vertLine 0 0 30, vertLine 140 0 100] 0,
        isClose ieee (FitLine ieee (vertLine 70 0 50)) e) ∧
    (FilterLines ieee ([vertLine 0 0 30, vertLine 140 0 100] ++ [vertLine 70 0 50]) 0).length
      = (FilterLines ieee [vertLine 0 0 30, vertLine 140 0 100] 0).length :=
  ⟨by decide!,
   (FilterLines_extend_close ieee [vertLine 0 0 30, vertLine 140 0 100] 0 (vertLine 70 0 50)
     (by decide!) (by decide!) (by decide!) (by decide!)).2.1 (by decide!)⟩

/-! ## FitLine: in exact arithmetic the running sums are the means -/

theorem fitSums_foldl (n : ℚ) (pts : List Point2D) (s0 : FitSums) :
    (pts.foldl (fun s p =>
      ({ s_x := s.s_x + (p.x : ℚ) / n
         s_y := s.s_y + (p.y : ℚ) / n
         s_xy := s.s_xy + (p.x : ℚ) * (p.y : ℚ) / n
         s_x2 := s.s_x2 + (p.x : ℚ) * (p.x : ℚ) / n } : FitSums)) s0)
    = { s_x := s0.s_x + (pts.map (fun p => (p.x : ℚ))).sum / n
        s_y := s0.s_y + (pts.map (fun p => (p.y : ℚ))).sum / n
        s_xy := s0.s_xy + (pts.map (fun p => (p.x : ℚ) * (p.y : ℚ))).sum / n
        s_x2 := s0.s_x2 + (pts.map (fun p => (p.x : ℚ) * (p.x : ℚ))).sum / n } := by
  induction pts generalizing s0 with
  | nil => simp
  | cons p rest ih =>
    rw [List.foldl_cons, ih]
    simp only [List.map_cons, List.sum_cons, add_div, add_assoc]

theorem fitSums_eq_means (m : FloatEnv) (hex : Exact m) (pts : List Point2D) :
    fitSums m pts = ⟨meanX pts, meanY pts, meanXY pts, meanX2 pts⟩ := by
  have hr : ∀ q, m.round q = q := hex
  unfold fitSums
  simp only [FloatEnv.add, FloatEnv.div, FloatEnv.mul, hr]
  rw [fitSums_foldl]
  simp [meanX, meanY, meanXY, meanX2]

theorem getD_zero_eq_head (pts : List Point2D) (hne : pts ≠ []) :
    pts.getD 0 default = pts.head hne := by
  cases pts with
  | nil => exact absurd rfl hne
  | cons p rest => rfl

theorem getD_last_eq_getLast (pts : List Point2D) (hne : pts ≠ []) :
    pts.getD (pts.length - 1) default = pts.getLast hne := by
  have hlt : pts.length - 1 < pts.length := by
    have := List.length_pos.2 hne
    omega
  rw [List.getD_eq_getElem _ _ hlt, List.getLast_eq_getElem]

theorem FitLine_of_small_variance (m : FloatEnv) (hex : Exact m) (line : SingleLine)
    (hvar : |varX line.line| < 1 / 100000) :
    FitLine m line
      = ⟨⟨toInt (meanX line.line), (line.line.getD 0 default).y⟩,
         ⟨toInt (meanX line.line), (line.line.getD (line.line.length - 1) default).y⟩⟩ := by
  have hr : ∀ q, m.round q = q := hex
  unfold FitLine
  simp only [fitSums_eq_means m hex, FloatEnv.sub, FloatEnv.mul, hr]
  unfold varX at hvar
  rw [if_pos hvar]

theorem FitLine_of_large_variance (m : FloatEnv) (hex : Exact m) (line : SingleLine)
    (hvar : ¬ |varX line.line| < 1 / 100000) :
    FitLine m line
      = ⟨(GetFootpoint m (line.line.getD 0 default)
            ⟨0, toInt (regOffset line.line)⟩
            ⟨100, toInt (100 * regSlope line.line + regOffset line.line)⟩).1,
         (GetFootpoint m (line.line.getD (line.line.length - 1) default)
            ⟨0, toInt (regOffset line.line)⟩
            ⟨100, toInt (100 * regSlope line.line + regOffset line.line)⟩).1⟩ := by
  have hr : ∀ q, m.round q = q := hex
  unfold FitLine
  simp only [fitSums_eq_means m hex, FloatEnv.sub, FloatEnv.mul, FloatEnv.div, FloatEnv.add, hr]
  unfold varX at hvar
  rw [if_neg hvar]
  rfl

/-! ## FitLine: the vertical special case -/

theorem FitLine_of_test_pass (m : FloatEnv) (line : SingleLine)
    (htest : |m.sub (fitSums m line.line).s_x2
      (m.mul (fitSums m line.line).s_x (fitSums m line.line).s_x)| < 1 / 100000) :
    FitLine m line
      = ⟨⟨toInt (fitSums m line.line).s_x, (line.line.getD 0 default).y⟩,
         ⟨toInt (fitSums m line.line).s_x,
          (line.line.getD (line.line.length - 1) default).y⟩⟩ := by
  unfold FitLine
  dsimp only
  rw [if_pos htest]

/-! ## FitLine: the regression case -/

/-- C6 (counterexample): for the points (0,0), (1,0), (2,1) the x-variance is 2/3, the
regression line is `y = x/2 - 1/6`, and `FitLine` returns the segment from (0,0) to (2,0):
the returned start point is not on the regression line (nor is the end point). -/
theorem FitLine_endpoints_off_regression :
    ¬ |varX slantedLine.line| < 1 / 100000 ∧
      regSlope slantedLine.line = 1 / 2 ∧ regOffset slantedLine.line = -(1 / 6) ∧
      FitLine ieee slantedLine = ⟨⟨0, 0⟩, ⟨2, 0⟩⟩ ∧
      FitLine exact slantedLine = ⟨⟨0, 0⟩, ⟨2, 0⟩⟩ ∧
      (((FitLine ieee slantedLine).m_start.y : Int) : ℚ)
        ≠ regSlope slantedLine.line * (((FitLine ieee slantedLine).m_start.x : Int) : ℚ)
          + regOffset slantedLine.line ∧
      (((FitLine ieee slantedLine).m_end.y : Int) : ℚ)
        ≠ regSlope slantedLine.line * (((FitLine ieee slantedLine).m_end.x : Int) : ℚ)
          + regOffset slantedLine.line := by
  decide!

/-- For the steep line (500,0), (500,500), (501,1000) the regression has slope 750 and offset
-374750, and the numerator of `u` that `GetFootpoint` computes in `int` for the first point is
28106300000, outside the 32-bit range. -/
theorem steepLine_numerator_overflows :
    regSlope steepLine.line = 750 ∧ regOffset steepLine.line = -374750 ∧
      ¬ fitsInt ((500 : Int) * 100 + (0 - toInt (regOffset steepLine.line))
        * (toInt (100 * regSlope steepLine.line + regOffset steepLine.line)
          - toInt (regOffset steepLine.line))) := by
  decide!


/-! ## FilterLines: one step on an arbitrary accepted list -/

theorem all_not_close_iff (m : FloatEnv) (c : VerticalLine) (A : List VerticalLine) :
    A.all (fun o => !decide (isClose m c o)) = true ↔ ∀ e ∈ A, ¬ isClose m c e := by
  rw [List.all_eq_true]
  constructor
  · intro h e he
    simpa using h e he
  · intro h e he
    simpa using h e he

theorem map_replace_of_not_close (m : FloatEnv) (c : VerticalLine) (A : List VerticalLine)
    (h : ∀ e ∈ A, ¬ isClose m c e) :
    A.map (fun o => if isClose m c o ∧ c.GetLineLength m > o.GetLineLength m then c else o)
      = A := by
  conv_rhs => rw [← List.map_id A]
  apply List.map_congr_left
  intro o ho
  rw [if_neg (fun hc => h o ho hc.1)]
  rfl

/-- C14: one step of `FilterLines` for a candidate `c` that passed the length and
verticality tests, on an arbitrary accepted list `A`.  The scan visits every entry: each
entry close to `c` (estimated distance below 80 and angle difference below 0.05) and
strictly shorter than `c` is overwritten by `c`, every other entry stays; `c` is appended at
the end exactly when no entry is close to it, so the length grows by 1 in that case and is
unchanged otherwise. -/
theorem filterStep_scans_all (m : FloatEnv) (roll : ℚ) (A : List VerticalLine) (l : SingleLine)
    (hv : l.status = LineStatus.valid_line) (hn : l.line.length > 2)
    (hlen : lengthOk m (FitLine m l)) (hvert : verticalOk m roll (FitLine m l)) :
    (∀ (i : Nat) (e : VerticalLine), A[i]? = some e →
        (filterStep m roll A l)[i]?
          = some (if isClose m (FitLine m l) e ∧
              (FitLine m l).GetLineLength m > e.GetLineLength m then FitLine m l else e)) ∧
      ((∀ e ∈ A, ¬ isClose m (FitLine m l) e) →
        filterStep m roll A l = A ++ [FitLine m l] ∧
        (filterStep m roll A l).length = A.length + 1) ∧
      ((∃ e ∈ A, isClose m (FitLine m l) e) →
        filterStep m roll A l
          = A.map (fun o => if isClose m (FitLine m l) o ∧
              (FitLine m l).GetLineLength m > o.GetLineLength m then FitLine m l else o) ∧
        (filterStep m roll A l).length = A.length) := by
  rw [filterStep_of_pass m roll A l hv hn hlen hvert]
  refine ⟨?_, ?_, ?_⟩
  · intro i e hi
    have hlt : i < A.length := by
      rcases Nat.lt_or_ge i A.length with h | h
      · exact h
      · rw [List.getElem?_eq_none h] at hi
        cases hi
    have hmap : (A.map (fun o => if isClose m (FitLine m l) o ∧
        (FitLine m l).GetLineLength m > o.GetLineLength m then FitLine m l else o))[i]?
        = some (if isClose m (FitLine m l) e ∧
            (FitLine m l).GetLineLength m > e.GetLineLength m then FitLine m l else e) := by
      rw [List.getElem?_map, hi]
      rfl
    by_cases hall : A.all (fun o => !decide (isClose m (FitLine m l) o)) = true
    · rw [if_pos hall, List.getElem?_append_left (by rw [List.length_map]; exact hlt)]
      exact hmap
    · rw [if_neg hall]
      exact hmap
  · intro h
    rw [if_pos ((all_not_close_iff m _ A).2 h), map_replace_of_not_close m _ A h]
    exact ⟨rfl, by simp⟩
  · intro h
    have hall : ¬ A.all (fun o => !decide (isClose m (FitLine m l) o)) = true := by
      rw [all_not_close_iff]
      obtain ⟨e, he, hc⟩ := h
      exact fun hno => hno e he hc
    rw [if_neg hall]
    exact ⟨rfl, by rw [List.length_map]⟩

theorem filterStep_scans_all_witness :
    ((vertLine 70 0 100).status = LineStatus.valid_line ∧ (vertLine 70 0 100).line.length > 2 ∧
      lengthOk ieee (FitLine ieee (vertLine 70 0 100)) ∧
      verticalOk ieee 0 (FitLine ieee (vertLine 70 0 100)) ∧
      ∃ e ∈ ([⟨⟨0, 0⟩, ⟨0, 30⟩⟩, ⟨⟨140, 0⟩, ⟨140, 30⟩⟩] : List VerticalLine),
        isClose ieee (FitLine ieee (vertLine 70 0 100)) e) ∧
    (filterStep ieee 0 [⟨⟨0, 0⟩, ⟨0, 30⟩⟩, ⟨⟨140, 0⟩, ⟨140, 30⟩⟩] (vertLine 70 0 100)).length
      = ([⟨⟨0, 0⟩, ⟨0, 30⟩⟩, ⟨⟨140, 0⟩, ⟨140, 30⟩⟩] : List VerticalLine).length :=
  ⟨by decide!,
   ((filterStep_scans_all ieee 0 [⟨⟨0, 0⟩, ⟨0, 30⟩⟩, ⟨⟨140, 0⟩, ⟨140, 30⟩⟩] (vertLine 70 0 100)
     (by decide!) (by decide!) (by decide!) (by decide!)).2.2 (by decide!)).2⟩


/-! ## FilterLines: a pair of close lines -/

theorem GetEstimatedDistance_comm (m : FloatEnv) (a b : VerticalLine) :
    a.GetEstimatedDistance m b = b.GetEstimatedDistance m a := by
  unfold VerticalLine.GetEstimatedDistance
  simp only [min_comm, min_left_comm, min_assoc]

theorem FilterLines_pair (m : FloatEnv) (roll : ℚ) (a b : SingleLine)
    (hva : a.status = LineStatus.valid_line) (hna : a.line.length > 2)
    (hvb : b.status = LineStatus.valid_line) (hnb : b.line.length > 2)
    (hla : lengthOk m (FitLine m a)) (hta : verticalOk m roll (FitLine m a))
    (hlb : lengthOk m (FitLine m b)) (htb : verticalOk m roll (FitLine m b))
    (hc : isClose m (FitLine m b) (FitLine m a)) :
    FilterLines m [a, b] roll
      = [if (FitLine m b).GetLineLength m > (FitLine m a).GetLineLength m
          then FitLine m b else FitLine m a] := by
  have h1 : FilterLines m [a, b] roll
      = filterStep m roll (filterStep m roll [] a) b := rfl
  have h2 : filterStep m roll [] a = [FitLine m a] := by
    rw [filterStep_of_pass m roll [] a hva hna hla hta]
    rfl
  rw [h1, h2, filterStep_of_pass m roll [FitLine m a] b hvb hnb hlb htb]
  have hall : ¬ ([FitLine m a].all (fun o => !decide (isClose m (FitLine m b) o)) = true) := by
    simp [hc]
  rw [if_neg hall]
  simp only [List.map_cons, List.map_nil, hc, true_and]

/-- C12 (counterexample): the vertical lines at `x = 0` from `y = 0` to `y = 100` and at
`x = 30` from `y = 100` to `y = 0` both pass the length and verticality tests, are parallel
and 30 px apart (estimated distance 30), but point in opposite directions: their angles are
`pi/2` and `-pi/2`, and `FilterLines` returns two lines for either input order. -/
theorem FilterLines_keeps_opposite_pair :
    FitLine ieee (vertLine 0 0 100) = ⟨⟨0, 0⟩, ⟨0, 100⟩⟩ ∧
      FitLine ieee (vertLine 30 100 0) = ⟨⟨30, 100⟩, ⟨30, 0⟩⟩ ∧
      lengthOk ieee (FitLine ieee (vertLine 0 0 100)) ∧
      verticalOk ieee 0 (FitLine ieee (vertLine 0 0 100)) ∧
      lengthOk ieee (FitLine ieee (vertLine 30 100 0)) ∧
      verticalOk ieee 0 (FitLine ieee (vertLine 30 100 0)) ∧
      (FitLine ieee (vertLine 0 0 100)).GetEstimatedDistance ieee
        (FitLine ieee (vertLine 30 100 0)) = 30 ∧
      FilterLines ieee [vertLine 0 0 100, vertLine 30 100 0] 0
        = [⟨⟨0, 0⟩, ⟨0, 100⟩⟩, ⟨⟨30, 100⟩, ⟨30, 0⟩⟩] ∧
      FilterLines ieee [vertLine 30 100 0, vertLine 0 0 100] 0
        = [⟨⟨30, 100⟩, ⟨30, 0⟩⟩, ⟨⟨0, 0⟩, ⟨0, 100⟩⟩] := by
  decide!

/-- C12 (amended): for every pair of valid RawLines (each with more than 2 points) whose
fitted lines `fa`, `fb` both pass the length and verticality tests, have the same direction
(their angles as computed by `GetAngle` differ by less than 0.05) and have estimated distance
30, `FilterLines` applied to the two lines returns exactly one line in either input order:
the longer of the two fitted lines, and on equal lengths the fit of the first input line. -/
theorem FilterLines_pair_collapses (m : FloatEnv) (roll : ℚ) (a b : SingleLine)
    (hva : a.status = LineStatus.valid_line) (hna : a.line.length > 2)
    (hvb : b.status = LineStatus.valid_line) (hnb : b.line.length > 2)
    (hla : lengthOk m (FitLine m a)) (hta : verticalOk m roll (FitLine m a))
    (hlb : lengthOk m (FitLine m b)) (htb : verticalOk m roll (FitLine m b))
    (hd : (FitLine m a).GetEstimatedDistance m (FitLine m b) = 30)
    (hab : |m.sub ((FitLine m a).GetAngle m) ((FitLine m b).GetAngle m)| < 1 / 20)
    (hba : |m.sub ((FitLine m b).GetAngle m) ((FitLine m a).GetAngle m)| < 1 / 20) :
    ((FitLine m b).GetLineLength m > (FitLine m a).GetLineLength m →
        FilterLines m [a, b] roll = [FitLine m b] ∧
        FilterLines m [b, a] roll = [FitLine m b]) ∧
      ((FitLine m a).GetLineLength m > (FitLine m b).GetLineLength m →
        FilterLines m [a, b] roll = [FitLine m a] ∧
        FilterLines m [b, a] roll = [FitLine m a]) ∧
      ((FitLine m a).GetLineLength m = (FitLine m b).GetLineLength m →
        FilterLines m [a, b] roll = [FitLine m a] ∧
        FilterLines m [b, a] roll = [FitLine m b]) := by
  have hcab : isClose m (FitLine m a) (FitLine m b) := ⟨by rw [hd]; norm_num, hab⟩
  have hcba : isClose m (FitLine m b) (FitLine m a) :=
    ⟨by rw [GetEstimatedDistance_comm, hd]; norm_num, hba⟩
  have e1 := FilterLines_pair m roll a b hva hna hvb hnb hla hta hlb htb hcba
  have e2 := FilterLines_pair m roll b a hvb hnb hva hna hlb htb hla hta hcab
  refine ⟨?_, ?_, ?_⟩
  · intro h
    rw [e1, e2, if_pos h, if_neg (not_lt.2 (le_of_lt h))]
    exact ⟨rfl, rfl⟩
  · intro h
    rw [e1, e2, if_pos h, if_neg (not_lt.2 (le_of_lt h))]
    exact ⟨rfl, rfl⟩
  · intro h
    rw [e1, e2, if_neg (not_lt.2 (le_of_eq h.symm)), if_neg (not_lt.2 (le_of_eq h))]
    exact ⟨rfl, rfl⟩

theorem FilterLines_pair_collapses_witness :
    ((vertLine 0 0 100).status = LineStatus.valid_line ∧ (vertLine 0 0 100).line.length > 2 ∧
      (vertLine 30 0 50).status = LineStatus.valid_line ∧ (vertLine 30 0 50).line.length > 2 ∧
      lengthOk ieee (FitLine ieee (vertLine 0 0 100)) ∧
      verticalOk ieee 0 (FitLine ieee (vertLine 0 0 100)) ∧
      lengthOk ieee (FitLine ieee (vertLine 30 0 50)) ∧
      verticalOk ieee 0 (FitLine ieee (vertLine 30 0 50)) ∧
      (FitLine ieee (vertLine 0 0 100)).GetEstimatedDistance ieee
        (FitLine ieee (vertLine 30 0 50)) = 30 ∧
      |ieee.sub ((FitLine ieee (vertLine 0 0 100)).GetAngle ieee)
        ((FitLine ieee (vertLine 30 0 50)).GetAngle ieee)| < 1 / 20 ∧
      |ieee.sub ((FitLine ieee (vertLine 30 0 50)).GetAngle ieee)
        ((FitLine ieee (vertLine 0 0 100)).GetAngle ieee)| < 1 / 20 ∧
      (FitLine ieee (vertLine 0 0 100)).GetLineLength ieee
        > (FitLine ieee (vertLine 30 0 50)).GetLineLength ieee) ∧
    (FilterLines ieee [vertLine 0 0 100, vertLine 30 0 50] 0
        = [FitLine ieee (vertLine 0 0 100)] ∧
      FilterLines ieee [vertLine 30 0 50, vertLine 0 0 100] 0
        = [FitLine ieee (vertLine 0 0 100)]) :=
  ⟨by decide!,
   (FilterLines_pair_collapses ieee 0 (vertLine 0 0 100) (vertLine 30 0 50)
     (by decide!) (by decide!) (by decide!) (by decide!) (by decide!) (by decide!)
     (by decide!) (by decide!) (by decide!) (by decide!) (by decide!)).2.1 (by decide!)⟩



/-! ## Validator: the one-candidate path -/

theorem validate_singleton (m : FloatEnv) (sort : List ControlPoint → List ControlPoint)
    (optimize : List ControlPoint → OptResult) (roll : ℚ) (imgNr nrLines : Nat)
    (cp : ControlPoint) :
    validate m sort optimize roll imgNr nrLines [cp]
      = if singleOk m roll cp then [finalize imgNr cp] else [] := by
  unfold validate
  rw [if_neg (by simp)]

/-- C11 (counterexample): for the single candidate from `(0, 0)` to `(3.75, 65)` and roll 0
the quotient of the design, computed from `dx = 3.75` and `dy = 65`, is above 0.05, but the
validator returns the candidate: the code truncates the differences to `int` (`dx = 3`)
before the test. -/
theorem validate_single_truncates_diff :
    designDeviation ieee 0 slantedCandidate ≥ 1 / 20 ∧
      validate ieee stdSort exampleOptimize 0 7 5 [slantedCandidate]
        = [⟨7, 0, 0, 7, 15 / 4, 65, ControlPoint.X, 0⟩] := by
  decide!

/-- C11 (amended): when the synthesizer yields exactly one candidate `cp`, the result of
`_getVerticalLines` is that control point (same coordinates, both image numbers `imgNr`,
error 0) if, with `dx` and `dy` the differences `x2 - x1` and `y2 - y1` truncated to `int`,
`sqrt(dx*dx + dy*dy)` is not zero and `|(dx*cos(roll) + dy*sin(roll)) / sqrt(dx*dx + dy*dy)|`
is below 0.05, and is empty otherwise; the result does not depend on the optimizer, the
sort or `nrLines`. -/
theorem getVerticalLines_single_candidate (m : FloatEnv)
    (sort : List ControlPoint → List ControlPoint) (optimize : List ControlPoint → OptResult)
    (needsRemap : Bool) (srcRoll size_factor : ℚ) (transform : ℚ → ℚ → Option (ℚ × ℚ))
    (width height : Int) (imgNr nrLines : Nat) (foundLines : List SingleLine)
    (cp : ControlPoint)
    (h : synthesize m needsRemap size_factor transform width height
      (FilterLines m foundLines (if needsRemap then 0 else srcRoll)) = [cp]) :
    getVerticalLinesFrom m sort optimize needsRemap srcRoll size_factor transform width height
        imgNr nrLines foundLines
      = (if magnitude m ⟨toInt (m.sub cp.x2 cp.x1), toInt (m.sub cp.y2 cp.y1)⟩ ≠ 0 ∧
            deviation m (if needsRemap then 0 else srcRoll)
              ⟨toInt (m.sub cp.x2 cp.x1), toInt (m.sub cp.y2 cp.y1)⟩ < 1 / 20
          then [⟨imgNr, cp.x1, cp.y1, imgNr, cp.x2, cp.y2, cp.mode, 0⟩] else []) ∧
      ∀ (sort2 : List ControlPoint → List ControlPoint)
        (optimize2 : List ControlPoint → OptResult) (nrLines2 : Nat),
        getVerticalLinesFrom m sort2 optimize2 needsRemap srcRoll size_factor transform width
            height imgNr nrLines2 foundLines
          = getVerticalLinesFrom m sort optimize needsRemap srcRoll size_factor transform width
            height imgNr nrLines foundLines := by
  have hne : FilterLines m foundLines (if needsRemap then 0 else srcRoll) ≠ [] := by
    intro h0
    rw [h0] at h
    exact absurd h (by simp [synthesize])
  have key : ∀ (s : List ControlPoint → List ControlPoint) (o : List ControlPoint → OptResult)
      (n : Nat), getVerticalLinesFrom m s o needsRemap srcRoll size_factor transform width
        height imgNr n foundLines
      = if singleOk m (if needsRemap then 0 else srcRoll) cp then [finalize imgNr cp]
        else [] := by
    intro s o n
    unfold getVerticalLinesFrom
    dsimp only
    rw [if_pos hne, h, validate_singleton]
  refine ⟨?_, ?_⟩
  · rw [key]
    rfl
  · intro s o n
    rw [key, key]

theorem getVerticalLines_single_candidate_witness :
    synthesize ieee false 1 (fun _ _ => none) 1000 1000
        (FilterLines ieee [vertLine 10 0 100] (if false then 0 else 0))
        = [⟨0, 10, 0, 0, 10, 100, ControlPoint.X, 0⟩] ∧
      getVerticalLinesFrom ieee stdSort exampleOptimize false 0 1 (fun _ _ => none) 1000 1000
        7 5 [vertLine 10 0 100] = [⟨7, 10, 0, 7, 10, 100, ControlPoint.X, 0⟩] :=
  ⟨by decide!,
   ((getVerticalLines_single_candidate ieee stdSort exampleOptimize false 0 1
      (fun _ _ => none) 1000 1000 7 5 [vertLine 10 0 100]
      ⟨0, 10, 0, 0, 10, 100, ControlPoint.X, 0⟩ (by decide!)).1).trans (by decide!)⟩

/-! ## Remap path: the limit of the vertical field of view -/

/-- C15 (failing input): for a fitted canvas of height 1000 with a vertical field of view of
120 degrees the code sets the height to `roundi(1000 * 90.0 / 120) = 750`, whereas the
rescaling to 100 degrees, `round(1000 * 100 / 120)`, is 833; at 100 degrees the height is
unchanged. -/
theorem limitHeight_scales_to_90 :
    limitHeight ieee 1000 120 = 750 ∧
      roundi ieee (ieee.div (ieee.mul 1000 100) 120) = 833 ∧
      limitHeight ieee 1000 100 = 1000 := by
  decide!



/-! ## Validator: the guard after the first filter stage -/

theorem exists_error_le_mean (cps : List ControlPoint) (hne : cps ≠ []) :
    ∃ cp ∈ cps, cp.error ≤ (cps.map (fun c => c.error)).sum / (cps.length : ℚ) := by
  by_contra hcon
  push_neg at hcon
  have hlen : (0 : ℚ) < (cps.length : ℚ) := by
    have := List.length_pos.2 hne
    exact_mod_cast this
  have h1 : (cps.map (fun _ => (cps.map (fun c => c.error)).sum / (cps.length : ℚ))).sum
      < (cps.map (fun c => c.error)).sum :=
    List.sum_lt_sum_of_ne_nil hne _ _ hcon
  have h2 : ∀ (c : ℚ) (l : List ControlPoint), (l.map (fun _ => c)).sum = (l.length : ℚ) * c := by
    intro c l
    induction l with
    | nil => simp
    | cons a t ih => rw [List.map_cons, List.sum_cons, ih, List.length_cons]; push_cast; ring
  rw [h2, mul_div_cancel₀ _ (ne_of_gt hlen)] at h1
  exact lt_irrefl _ h1

theorem firstFilter_snd_pos_iff (limit : ℚ) (l : List ControlPoint)
    (hnn : ∀ cp ∈ l, 0 ≤ cp.error) :
    0 < (firstFilter limit l).2 ↔ ∃ cp ∈ (firstFilter limit l).1, 0 < cp.error := by
  constructor
  · intro hpos
    have hne : (firstFilter limit l).1 ≠ [] := by
      intro h0
      rw [firstFilter_snd_of_nil limit l h0] at hpos
      exact lt_irrefl _ hpos
    obtain ⟨cp, hcp, he⟩ := firstFilter_snd_attained limit l hnn hne
    exact ⟨cp, hcp, by rw [he]; exact hpos⟩
  · rintro ⟨cp, hcp, hpos⟩
    exact lt_of_lt_of_le hpos (firstFilter_snd_ub limit l cp hcp)

/-- C16 (counterexample): two candidates whose post-optimization errors are both 0 (mean 0,
variance 0) survive the first filter stage, but the maximum survivor error is 0, the guard
is false and the validator returns nothing for `nrLines = 5`.  The same happens for the
errors 0, 0, 0, 100 (mean 25, variance 1875): the only positive error is removed. -/
theorem validate_guard_false_on_zero_errors :
    (firstFilter (ieee.add 0 (ieee.sqrt 0)) zeroErrorCandidates).1 = zeroErrorCandidates ∧
      (firstFilter (ieee.add 0 (ieee.sqrt 0)) zeroErrorCandidates).2 = 0 ∧
      validate ieee stdSort zeroErrorOptimize 0 7 5 zeroErrorCandidates = [] ∧
      (firstFilter (ieee.add 25 (ieee.sqrt 1875)) oneOutlierCandidates).1
        = oneOutlierCandidates.take 3 ∧
      (firstFilter (ieee.add 25 (ieee.sqrt 1875)) oneOutlierCandidates).2 = 0 ∧
      validate ieee stdSort oneOutlierOptimize 0 7 5 oneOutlierCandidates = [] := by
  decide!

/-- C16 (amended): in the regime of two or more candidates, when the post-optimization
errors are non-negative, `mean` is their arithmetic mean and adding the square root of the
variance does not lower it (`mean <= mean + sqrt(var)` as computed), the survivor list of
the first filter stage is non-empty and the maximum survivor error is at least 0; it is
strictly positive exactly when some survivor has a positive error.  In that case the
validator outputs at least one control point when `nrLines >= 1`; when every survivor has
error 0 the guard is false and the validator outputs nothing. -/
theorem validate_guard (m : FloatEnv) (sort : List ControlPoint → List ControlPoint)
    (optimize : List ControlPoint → OptResult) (roll : ℚ) (imgNr nrLines : Nat)
    (detectedLines : List ControlPoint) (hsort : IsStdSort sort)
    (hlen : detectedLines.length > 1) (hne : (optimize detectedLines).cps ≠ [])
    (hnn : ∀ cp ∈ (optimize detectedLines).cps, 0 ≤ cp.error)
    (hmean : (optimize detectedLines).mean
      = ((optimize detectedLines).cps.map (fun c => c.error)).sum
          / ((optimize detectedLines).cps.length : ℚ))
    (hlim : (optimize detectedLines).mean
      ≤ m.add (optimize detectedLines).mean (m.sqrt (optimize detectedLines).var)) :
    (firstFilter (m.add (optimize detectedLines).mean (m.sqrt (optimize detectedLines).var))
        (optimize detectedLines).cps).1 ≠ [] ∧
      0 ≤ (firstFilter (m.add (optimize detectedLines).mean
        (m.sqrt (optimize detectedLines).var)) (optimize detectedLines).cps).2 ∧
      (0 < (firstFilter (m.add (optimize detectedLines).mean
          (m.sqrt (optimize detectedLines).var)) (optimize detectedLines).cps).2 ↔
        ∃ cp ∈ (firstFilter (m.add (optimize detectedLines).mean
          (m.sqrt (optimize detectedLines).var)) (optimize detectedLines).cps).1,
          0 < cp.error) ∧
      ((∃ cp ∈ (firstFilter (m.add (optimize detectedLines).mean
          (m.sqrt (optimize detectedLines).var)) (optimize detectedLines).cps).1,
          0 < cp.error) → 1 ≤ nrLines →
        validate m sort optimize roll imgNr nrLines detectedLines ≠ []) ∧
      ((∀ cp ∈ (firstFilter (m.add (optimize detectedLines).mean
          (m.sqrt (optimize detectedLines).var)) (optimize detectedLines).cps).1,
          cp.error = 0) →
        validate m sort optimize roll imgNr nrLines detectedLines = []) := by
  generalize hr : optimize detectedLines = r at *
  generalize hL : m.add r.mean (m.sqrt r.var) = limit at *
  have hsurv : (firstFilter limit r.cps).1 ≠ [] := by
    obtain ⟨cp, hcp, hle⟩ := exists_error_le_mean r.cps hne
    rw [← hmean] at hle
    rw [firstFilter_fst]
    intro h0
    have hmem : cp ∈ r.cps.filter (fun cp => decide (cp.error ≤ limit)) :=
      List.mem_filter.2 ⟨hcp, by simpa using le_trans hle hlim⟩
    rw [h0] at hmem
    exact absurd hmem (List.not_mem_nil _)
  have hiff := firstFilter_snd_pos_iff limit r.cps hnn
  refine ⟨hsurv, firstFilter_snd_nonneg _ _, hiff, ?_, ?_⟩
  · intro hex hn
    have hpos := hiff.2 hex
    unfold validate
    dsimp only
    rw [if_pos hlen, hr, hL, if_pos ⟨hsurv, hpos⟩]
    intro h0
    have hl := congrArg List.length h0
    rw [List.length_map, List.length_take, (hsort _).1.length_eq, List.length_map,
      List.length_nil] at hl
    have hpl : 0 < (firstFilter limit r.cps).1.length := List.length_pos.2 hsurv
    have : 0 < min nrLines (firstFilter limit r.cps).1.length := lt_min hn hpl
    omega
  · intro hz
    have hnp : ¬ (0 < (firstFilter limit r.cps).2) := by
      rw [hiff]
      rintro ⟨cp, hcp, hp⟩
      rw [hz cp hcp] at hp
      exact lt_irrefl _ hp
    unfold validate
    dsimp only
    rw [if_pos hlen, hr, hL, if_neg (fun h => hnp h.2)]

theorem validate_guard_witness :
    (twoErrorCandidates.length > 1 ∧ (twoErrorOptimize twoErrorCandidates).cps ≠ [] ∧
      (∃ cp ∈ (firstFilter (ieee.add (twoErrorOptimize twoErrorCandidates).mean
          (ieee.sqrt (twoErrorOptimize twoErrorCandidates).var))
          (twoErrorOptimize twoErrorCandidates).cps).1, 0 < cp.error)) ∧
      validate ieee stdSort twoErrorOptimize 0 7 5 twoErrorCandidates ≠ [] :=
  ⟨by decide!,
   (validate_guard ieee stdSort twoErrorOptimize 0 7 5 twoErrorCandidates stdSort_isStdSort
      (by decide!) (by decide!) (by decide!) (by decide!) (by decide!)).2.2.2.1
      (by decide!) (by decide!)⟩



/-! ## `GetControlPoints` -/

theorem interval_product_bounds {m : FloatEnv} (hacc : Accurate m) (a n k : ℚ)
    (ha : 0 ≤ a) (hn : 0 < n) (hk : 0 ≤ k) :
    k * (a / n) * (1 - 3 / 2 ^ 53) ≤ m.mul k (m.div a (m.mul 1 n)) ∧
      m.mul k (m.div a (m.mul 1 n)) ≤ k * (a / n) * (1 + 5 / 2 ^ 53) := by
  unfold FloatEnv.mul FloatEnv.div
  rw [one_mul]
  obtain ⟨e, he⟩ : ∃ e : ℚ, e = 1 / 2 ^ 53 := ⟨_, rfl⟩
  have he0 : 0 < e := by rw [he]; positivity
  have he1 : e < 1 / 1000 := by rw [he]; norm_num
  have hx : 0 ≤ a / n := div_nonneg ha (le_of_lt hn)
  have hxn : a / n * n = a := div_mul_cancel₀ a (ne_of_gt hn)
  obtain ⟨hN1, hN2⟩ := round_bounds hacc (le_of_lt hn)
  rw [← he] at hN1 hN2
  have hNpos : 0 < m.round n := lt_of_lt_of_le (mul_pos hn (by linarith)) hN1
  have hq1 : 0 ≤ a / m.round n := div_nonneg ha (le_of_lt hNpos)
  have hql : a / n * (1 - e) ≤ a / m.round n := by
    rw [le_div_iff₀ hNpos]
    calc a / n * (1 - e) * m.round n ≤ a / n * (1 - e) * (n * (1 + e)) :=
          mul_le_mul_of_nonneg_left hN2 (mul_nonneg hx (by linarith))
      _ = a / n * n * (1 - e ^ 2) := by ring
      _ = a * (1 - e ^ 2) := by rw [hxn]
      _ ≤ a := by nlinarith [mul_nonneg ha (sq_nonneg e)]
  have hqu : a / m.round n ≤ a / n * (1 + 2 * e) := by
    rw [div_le_iff₀ hNpos]
    have he2 : 0 ≤ e - 2 * e ^ 2 := by nlinarith
    calc a ≤ a * (1 + e - 2 * e ^ 2) := by nlinarith [mul_nonneg ha he2]
      _ = a / n * n * (1 + e - 2 * e ^ 2) := by rw [hxn]
      _ = a / n * (1 + 2 * e) * (n * (1 - e)) := by ring
      _ ≤ a / n * (1 + 2 * e) * m.round n :=
          mul_le_mul_of_nonneg_left hN1 (mul_nonneg hx (by linarith))
  obtain ⟨hI1, hI2⟩ := round_bounds hacc hq1
  rw [← he] at hI1 hI2
  have hI0 : 0 ≤ m.round (a / m.round n) :=
    le_trans (mul_nonneg hq1 (by linarith)) hI1
  have hIl : a / n * ((1 - e) * (1 - e)) ≤ m.round (a / m.round n) := by
    calc a / n * ((1 - e) * (1 - e)) = a / n * (1 - e) * (1 - e) := by ring
      _ ≤ a / m.round n * (1 - e) := mul_le_mul_of_nonneg_right hql (by linarith)
      _ ≤ _ := hI1
  have hIu : m.round (a / m.round n) ≤ a / n * ((1 + 2 * e) * (1 + e)) := by
    calc m.round (a / m.round n) ≤ a / m.round n * (1 + e) := hI2
      _ ≤ a / n * (1 + 2 * e) * (1 + e) := mul_le_mul_of_nonneg_right hqu (by linarith)
      _ = _ := by ring
  obtain ⟨ht1, ht2⟩ := round_bounds hacc (mul_nonneg hk hI0)
  rw [← he] at ht1 ht2
  have hkx : 0 ≤ k * (a / n) := mul_nonneg hk hx
  have e3 : (3 : ℚ) / 2 ^ 53 = 3 * e := by rw [he]; ring
  have e5 : (5 : ℚ) / 2 ^ 53 = 5 * e := by rw [he]; ring
  rw [e3, e5]
  constructor
  · calc k * (a / n) * (1 - 3 * e) ≤ k * (a / n) * ((1 - e) * (1 - e) * (1 - e)) := by
          apply mul_le_mul_of_nonneg_left _ hkx
          nlinarith [sq_nonneg e, mul_pos he0 (sq_pos_of_pos he0)]
      _ = k * (a / n * ((1 - e) * (1 - e))) * (1 - e) := by ring
      _ ≤ k * m.round (a / m.round n) * (1 - e) :=
          mul_le_mul_of_nonneg_right (mul_le_mul_of_nonneg_left hIl hk) (by linarith)
      _ ≤ _ := ht1
  · calc m.round (k * m.round (a / m.round n))
        ≤ k * m.round (a / m.round n) * (1 + e) := ht2
      _ ≤ k * (a / n * ((1 + 2 * e) * (1 + e))) * (1 + e) :=
          mul_le_mul_of_nonneg_right (mul_le_mul_of_nonneg_left hIu hk) (by linarith)
      _ = k * (a / n) * ((1 + 2 * e) * (1 + e) * (1 + e)) := by ring
      _ ≤ k * (a / n) * (1 + 5 * e) := by
          apply mul_le_mul_of_nonneg_left _ hkx
          nlinarith [sq_nonneg e, mul_pos he0 (sq_pos_of_pos he0), mul_pos he0 he0]

theorem controlIndex_bounds {m : FloatEnv} (hacc : Accurate m) (size n k : Nat)
    (hs : 1 ≤ size) (hs31 : size ≤ 2147483648) (hn : 1 ≤ n) (hk : k ≤ n) :
    0 ≤ controlIndex m size n k ∧ controlIndex m size n k ≤ ((size - 1 : Nat) : Int) ∧
      ⌊(k : ℚ) * ((size - 1 : Nat) : ℚ) / (n : ℚ)⌋ - 1 ≤ controlIndex m size n k ∧
      controlIndex m size n k ≤ ⌊(k : ℚ) * ((size - 1 : Nat) : ℚ) / (n : ℚ)⌋ + 1 := by
  have hnq : (0 : ℚ) < (n : ℚ) := by exact_mod_cast hn
  have haq : (0 : ℚ) ≤ ((size - 1 : Nat) : ℚ) := Nat.cast_nonneg _
  have hkq : (0 : ℚ) ≤ (k : ℚ) := Nat.cast_nonneg _
  have ha31 : ((size - 1 : Nat) : ℚ) < 2147483648 := by
    have : size - 1 < 2147483648 := by omega
    exact_mod_cast this
  obtain ⟨hl, hu⟩ := interval_product_bounds hacc _ _ _ haq hnq hkq
  have hx0 : 0 ≤ (k : ℚ) * (((size - 1 : Nat) : ℚ) / (n : ℚ)) :=
    mul_nonneg hkq (div_nonneg haq (le_of_lt hnq))
  have hxa : (k : ℚ) * (((size - 1 : Nat) : ℚ) / (n : ℚ)) ≤ ((size - 1 : Nat) : ℚ) := by
    rw [← mul_div_assoc, div_le_iff₀ hnq, mul_comm]
    exact mul_le_mul_of_nonneg_left (by exact_mod_cast hk) haq
  have ht0 : 0 ≤ m.mul (k : ℚ) (m.div ((size - 1 : Nat) : ℚ) (m.mul 1 (n : ℚ))) :=
    le_trans (mul_nonneg hx0 (by norm_num)) hl
  have hl1 : (k : ℚ) * (((size - 1 : Nat) : ℚ) / (n : ℚ)) - 1
      < m.mul (k : ℚ) (m.div ((size - 1 : Nat) : ℚ) (m.mul 1 (n : ℚ))) := by
    refine lt_of_lt_of_le ?_ hl
    nlinarith [hx0, hxa, ha31]
  have hu1 : m.mul (k : ℚ) (m.div ((size - 1 : Nat) : ℚ) (m.mul 1 (n : ℚ)))
      < (k : ℚ) * (((size - 1 : Nat) : ℚ) / (n : ℚ)) + 1 := by
    refine lt_of_le_of_lt hu ?_
    nlinarith [hx0, hxa, ha31]
  unfold controlIndex
  rw [toInt_of_nonneg ht0, mul_div_assoc]
  refine ⟨Int.floor_nonneg.2 ht0, ?_, ?_, ?_⟩
  · have : ⌊m.mul (k : ℚ) (m.div ((size - 1 : Nat) : ℚ) (m.mul 1 (n : ℚ)))⌋
        < ((size - 1 : Nat) : Int) + 1 := by
      rw [Int.floor_lt]
      push_cast
      linarith
    omega
  · rw [Int.le_floor]
    push_cast
    have := Int.floor_le ((k : ℚ) * (((size - 1 : Nat) : ℚ) / (n : ℚ)))
    linarith
  · have : ⌊m.mul (k : ℚ) (m.div ((size - 1 : Nat) : ℚ) (m.mul 1 (n : ℚ)))⌋
        < ⌊(k : ℚ) * (((size - 1 : Nat) : ℚ) / (n : ℚ))⌋ + 1 + 1 := by
      rw [Int.floor_lt]
      push_cast
      have := Int.lt_floor_add_one ((k : ℚ) * (((size - 1 : Nat) : ℚ) / (n : ℚ)))
      linarith
    omega

theorem controlIndex_zero {m : FloatEnv} (hacc : Accurate m) (size n : Nat) :
    controlIndex m size n 0 = 0 := by
  unfold controlIndex FloatEnv.mul
  have h := hacc (((0 : Nat) : ℚ) * m.div ((size - 1 : Nat) : ℚ) (m.round (1 * (n : ℚ))))
  rw [Nat.cast_zero, zero_mul, sub_zero, abs_zero, zero_div] at h
  have h0 : m.round 0 = 0 := abs_eq_zero.1 (le_antisymm h (abs_nonneg _))
  rw [Nat.cast_zero, zero_mul, h0]
  exact toInt_intCast 0

theorem controlIndex_last {m : FloatEnv} (hacc : Accurate m) (size n : Nat)
    (hs : 1 ≤ size) (hs31 : size ≤ 2147483648) (hn : 1 ≤ n) :
    ((size - 1 : Nat) : Int) - 1 ≤ controlIndex m size n n := by
  have h := (controlIndex_bounds hacc size n n hs hs31 hn (le_refl n)).2.2.1
  have hnq : ((n : Nat) : ℚ) ≠ 0 := by
    have : (0 : ℚ) < (n : ℚ) := by exact_mod_cast hn
    exact ne_of_gt this
  have hx : (n : ℚ) * ((size - 1 : Nat) : ℚ) / (n : ℚ) = (((size - 1 : Nat) : Int) : ℚ) := by
    rw [mul_comm, mul_div_assoc, div_self hnq, mul_one]
    push_cast
    rfl
  rw [hx, Int.floor_intCast] at h
  exact h

theorem controlIndex_exact {m : FloatEnv} (hE : Exact m) (size n k : Nat) :
    controlIndex m size n k = ⌊(k : ℚ) * ((size - 1 : Nat) : ℚ) / (n : ℚ)⌋ := by
  unfold controlIndex FloatEnv.mul FloatEnv.div
  rw [hE, hE, hE, one_mul, mul_div_assoc]
  exact toInt_of_nonneg (mul_nonneg (Nat.cast_nonneg _)
    (div_nonneg (Nat.cast_nonneg _) (Nat.cast_nonneg _)))

theorem GetControlPoints_getElem (m : FloatEnv) (line : SingleLine)
    (imgNr lineNr n k : Nat) (hk : k < n) :
    (GetControlPoints m line imgNr lineNr n)[k]?
      = some ⟨imgNr, ((pointAt line (controlIndex m line.line.length n k)).x : ℚ),
          ((pointAt line (controlIndex m line.line.length n k)).y : ℚ), imgNr,
          ((pointAt line (controlIndex m line.line.length n (k + 1))).x : ℚ),
          ((pointAt line (controlIndex m line.line.length n (k + 1))).y : ℚ), lineNr, 0⟩ := by
  unfold GetControlPoints
  rw [List.getElem?_map, List.getElem?_range hk]
  rfl



theorem controlIndex_floor {m : FloatEnv} (hacc : Accurate m) (size n k : Nat)
    (hn : 1 ≤ n) (hsmall : k * (size - 1) < 2 ^ 50) :
    controlIndex m size n k ≤ ⌊(k : ℚ) * ((size - 1 : Nat) : ℚ) / (n : ℚ)⌋ ∧
      (¬ n ∣ k * (size - 1) →
        controlIndex m size n k = ⌊(k : ℚ) * ((size - 1 : Nat) : ℚ) / (n : ℚ)⌋) := by
  have hnq : (0 : ℚ) < (n : ℚ) := by exact_mod_cast hn
  have haq : (0 : ℚ) ≤ ((size - 1 : Nat) : ℚ) := Nat.cast_nonneg _
  have hkq : (0 : ℚ) ≤ (k : ℚ) := Nat.cast_nonneg _
  obtain ⟨hl, hu⟩ := interval_product_bounds hacc _ _ _ haq hnq hkq
  have hx0 : 0 ≤ (k : ℚ) * (((size - 1 : Nat) : ℚ) / (n : ℚ)) :=
    mul_nonneg hkq (div_nonneg haq (le_of_lt hnq))
  have ht0 : 0 ≤ m.mul (k : ℚ) (m.div ((size - 1 : Nat) : ℚ) (m.mul 1 (n : ℚ))) :=
    le_trans (mul_nonneg hx0 (by norm_num)) hl
  have hP : (n : ℚ) * ((k : ℚ) * (((size - 1 : Nat) : ℚ) / (n : ℚ)))
      = ((k * (size - 1) : Nat) : ℚ) := by
    rw [Nat.cast_mul]
    field_simp
  have hP50 : ((k * (size - 1) : Nat) : ℚ) < 2 ^ 50 := by exact_mod_cast hsmall
  have hP0 : (0 : ℚ) ≤ ((k * (size - 1) : Nat) : ℚ) := Nat.cast_nonneg _
  have hfl := Int.floor_le ((k : ℚ) * (((size - 1 : Nat) : ℚ) / (n : ℚ)))
  have hfu := Int.lt_floor_add_one ((k : ℚ) * (((size - 1 : Nat) : ℚ) / (n : ℚ)))
  unfold controlIndex
  rw [toInt_of_nonneg ht0, mul_div_assoc]
  generalize hF : ⌊(k : ℚ) * (((size - 1 : Nat) : ℚ) / (n : ℚ))⌋ = F at *
  generalize hT : m.mul (k : ℚ) (m.div ((size - 1 : Nat) : ℚ) (m.mul 1 (n : ℚ))) = t at *
  generalize hX : (k : ℚ) * (((size - 1 : Nat) : ℚ) / (n : ℚ)) = x at *
  have hup : ⌊t⌋ ≤ F := by
    have h1 : ((k * (size - 1) : Nat) : ℚ) < (n : ℚ) * ((F : ℚ) + 1) := by
      rw [← hP]
      exact mul_lt_mul_of_pos_left hfu hnq
    have h2 : ((k * (size - 1) : Nat) : Int) < (n : Int) * (F + 1) := by exact_mod_cast h1
    have h3 : ((k * (size - 1) : Nat) : Int) + 1 ≤ (n : Int) * (F + 1) := h2
    have h4 : ((k * (size - 1) : Nat) : ℚ) + 1 ≤ (n : ℚ) * ((F : ℚ) + 1) := by exact_mod_cast h3
    have h5 : (n : ℚ) * t ≤ ((k * (size - 1) : Nat) : ℚ) * (1 + 5 / 2 ^ 53) := by
      rw [← hP, mul_assoc]
      exact mul_le_mul_of_nonneg_left hu (le_of_lt hnq)
    have h6 : (n : ℚ) * t < (n : ℚ) * ((F : ℚ) + 1) := by
      refine lt_of_lt_of_le (lt_of_le_of_lt h5 ?_) h4
      linarith
    have h7 : t < (F : ℚ) + 1 := lt_of_mul_lt_mul_left h6 (le_of_lt hnq)
    have h8 : ⌊t⌋ < F + 1 := by
      rw [Int.floor_lt]
      push_cast
      exact h7
    omega
  refine ⟨hup, fun hnd => le_antisymm hup ?_⟩
  have h1 : (n : ℚ) * (F : ℚ) ≤ ((k * (size - 1) : Nat) : ℚ) := by
    rw [← hP]
    exact mul_le_mul_of_nonneg_left hfl (le_of_lt hnq)
  have h2 : (n : Int) * F ≤ ((k * (size - 1) : Nat) : Int) := by exact_mod_cast h1
  have h3 : (n : Int) * F ≠ ((k * (size - 1) : Nat) : Int) := by
    intro heq
    apply hnd
    have : (n : Int) ∣ ((k * (size - 1) : Nat) : Int) := ⟨F, heq.symm⟩
    exact Int.natCast_dvd_natCast.1 this
  have h4 : (n : Int) * F + 1 ≤ ((k * (size - 1) : Nat) : Int) := by omega
  have h5 : (n : ℚ) * (F : ℚ) + 1 ≤ ((k * (size - 1) : Nat) : ℚ) := by exact_mod_cast h4
  have h6 : ((k * (size - 1) : Nat) : ℚ) * (1 - 3 / 2 ^ 53) ≤ (n : ℚ) * t := by
    rw [← hP, mul_assoc]
    exact mul_le_mul_of_nonneg_left hl (le_of_lt hnq)
  have h7 : (n : ℚ) * (F : ℚ) < (n : ℚ) * t := by
    refine lt_of_lt_of_le ?_ h6
    linarith
  have h8 : (F : ℚ) < t := lt_of_mul_lt_mul_left h7 (le_of_lt hnq)
  rw [Int.le_floor]
  exact le_of_lt h8

/-- C17 (counterexample): for a line of 14 points and 23 control points, binary64 arithmetic
gives `interval = 13/23` rounded and `23 * interval` just below 13, so the stop index of the
last control point is 12: the last control point ends at `(5, 12)`, not at the last point
`(5, 13)` of the line. -/
theorem GetControlPoints_last_misses_end :
    controlIndex ieee 14 23 23 = 12 ∧
      (GetControlPoints ieee line14 7 1 23)[22]? = some ⟨7, 5, 12, 7, 5, 12, 1, 0⟩ ∧
      line14.line.getLast? = some ⟨5, 13⟩ := by
  decide!



/-- C17 (amended): for every SingleLine with `size >= 1` points (at most `2^31`) and every
`n >= 1`, under binary64-accurate rounding, `GetControlPoints` returns exactly `n` control
points; control point `k` runs from the point at index `i(k)` to the point at index
`i(k+1)`, where `i(k) = (int)(k * interval)`, so each control point ends where the next
starts; every index `i(k)`, `k <= n`, lies in `[0, size-1]` and differs from
`floor(k*(size-1)/n)` by at most 1; when `k*(size-1) < 2^50` it is `floor(k*(size-1)/n)`,
or possibly one less when `n` divides `k*(size-1)`; `i(0) = 0`, so the first control point
starts at the first point, and `i(n)` is `size-1` or `size-2`.  In exact arithmetic
`i(k) = floor(k*(size-1)/n)` and the last control point ends at the last point. -/
theorem GetControlPoints_indices (m : FloatEnv) (hacc : Accurate m) (line : SingleLine)
    (imgNr lineNr n : Nat) (hs : 1 ≤ line.line.length)
    (hs31 : line.line.length ≤ 2147483648) (hn : 1 ≤ n) :
    (GetControlPoints m line imgNr lineNr n).length = n ∧
      (∀ k < n, (GetControlPoints m line imgNr lineNr n)[k]?
        = some ⟨imgNr, ((pointAt line (controlIndex m line.line.length n k)).x : ℚ),
            ((pointAt line (controlIndex m line.line.length n k)).y : ℚ), imgNr,
            ((pointAt line (controlIndex m line.line.length n (k + 1))).x : ℚ),
            ((pointAt line (controlIndex m line.line.length n (k + 1))).y : ℚ), lineNr, 0⟩) ∧
      (∀ (k : Nat) (c d : ControlPoint),
        (GetControlPoints m line imgNr lineNr n)[k]? = some c →
        (GetControlPoints m line imgNr lineNr n)[k + 1]? = some d →
        c.x2 = d.x1 ∧ c.y2 = d.y1) ∧
      (∀ k ≤ n, 0 ≤ controlIndex m line.line.length n k ∧
        controlIndex m line.line.length n k ≤ ((line.line.length - 1 : Nat) : Int) ∧
        ⌊(k : ℚ) * ((line.line.length - 1 : Nat) : ℚ) / (n : ℚ)⌋ - 1
          ≤ controlIndex m line.line.length n k ∧
        controlIndex m line.line.length n k
          ≤ ⌊(k : ℚ) * ((line.line.length - 1 : Nat) : ℚ) / (n : ℚ)⌋ + 1) ∧
      (∀ k ≤ n, k * (line.line.length - 1) < 2 ^ 50 →
        controlIndex m line.line.length n k
          ≤ ⌊(k : ℚ) * ((line.line.length - 1 : Nat) : ℚ) / (n : ℚ)⌋ ∧
        (¬ n ∣ k * (line.line.length - 1) →
          controlIndex m line.line.length n k
            = ⌊(k : ℚ) * ((line.line.length - 1 : Nat) : ℚ) / (n : ℚ)⌋)) ∧
      controlIndex m line.line.length n 0 = 0 ∧
      (∀ c, (GetControlPoints m line imgNr lineNr n)[0]? = some c →
        c.x1 = ((line.line.getD 0 default).x : ℚ) ∧
        c.y1 = ((line.line.getD 0 default).y : ℚ)) ∧
      (controlIndex m line.line.length n n = ((line.line.length - 1 : Nat) : Int) ∨
        controlIndex m line.line.length n n = ((line.line.length - 1 : Nat) : Int) - 1) ∧
      (Exact m →
        (∀ k, controlIndex m line.line.length n k
          = ⌊(k : ℚ) * ((line.line.length - 1 : Nat) : ℚ) / (n : ℚ)⌋) ∧
        controlIndex m line.line.length n n = ((line.line.length - 1 : Nat) : Int) ∧
        ∀ c, (GetControlPoints m line imgNr lineNr n)[n - 1]? = some c →
          c.x2 = ((line.line.getD (line.line.length - 1) default).x : ℚ) ∧
          c.y2 = ((line.line.getD (line.line.length - 1) default).y : ℚ)) := by
  have hnq : ((n : Nat) : ℚ) ≠ 0 := by
    have : (0 : ℚ) < (n : ℚ) := by exact_mod_cast hn
    exact ne_of_gt this
  refine ⟨by simp [GetControlPoints], fun k hk => GetControlPoints_getElem m line _ _ n k hk,
    ?_, fun k hk => controlIndex_bounds hacc _ n k hs hs31 hn hk,
    fun k _ hsm => controlIndex_floor hacc _ n k hn hsm, controlIndex_zero hacc _ n, ?_, ?_, ?_⟩
  · intro k c d hc hd
    have hk1 : k + 1 < n := by
      have h := List.getElem?_eq_some_iff.1 hd
      obtain ⟨hlt, _⟩ := h
      simpa [GetControlPoints] using hlt
    rw [GetControlPoints_getElem m line _ _ n k (by omega)] at hc
    rw [GetControlPoints_getElem m line _ _ n (k + 1) hk1] at hd
    cases hc
    cases hd
    exact ⟨rfl, rfl⟩
  · intro c hc
    rw [GetControlPoints_getElem m line _ _ n 0 (by omega), controlIndex_zero hacc] at hc
    cases hc
    exact ⟨rfl, rfl⟩
  · have h1 := (controlIndex_bounds hacc _ n n hs hs31 hn (le_refl n)).2.1
    have h2 := controlIndex_last hacc _ n hs hs31 hn
    omega
  · intro hE
    have hlast : controlIndex m line.line.length n n = ((line.line.length - 1 : Nat) : Int) := by
      rw [controlIndex_exact hE, mul_comm, mul_div_assoc, div_self hnq, mul_one]
      exact Int.floor_natCast _
    refine ⟨fun k => controlIndex_exact hE _ n k, hlast, ?_⟩
    intro c hc
    rw [GetControlPoints_getElem m line _ _ n (n - 1) (by omega)] at hc
    have hn1 : n - 1 + 1 = n := by omega
    rw [hn1, hlast] at hc
    cases hc
    simp [pointAt]

theorem GetControlPoints_indices_witness :
    (1 ≤ line14.line.length ∧ line14.line.length ≤ 2147483648) ∧
      (GetControlPoints ieee line14 7 1 3).length = 3 :=
  ⟨by decide,
   (GetControlPoints_indices ieee ieee_accurate line14 7 1 3 (by decide) (by decide)
      (by decide)).1⟩



/-! ## The pipeline on an isolated vertical edge -/

theorem roundsInts_zero {m : FloatEnv} (h : RoundsInts m) : m.round 0 = 0 := by
  have := h 0 (by norm_num) (by norm_num)
  simpa using this

theorem roundsInts_of_exact {m : FloatEnv} (h : Exact m) : RoundsInts m :=
  fun _ _ _ => h _

theorem sub_vertical (t y0 : Int) :
    (⟨t, y0 + 200⟩ : Point2D).sub ⟨t, y0⟩ = ⟨0, 200⟩ := by
  unfold Point2D.sub
  have h1 : t - t = 0 := sub_self t
  have h2 : y0 + 200 - y0 = 200 := by omega
  simp only [h1, h2]
  rfl

theorem magnitude_vertical (m : FloatEnv) (hsqrt : m.sqrt 40000 = 200) :
    magnitude m ⟨0, 200⟩ = 200 := by
  unfold magnitude
  have h : wrapInt ((0 : Int) * 0 + 200 * 200) = 40000 := by decide
  rw [h]
  norm_num
  exact hsqrt

theorem deviation_vertical (m : FloatEnv) (hround : RoundsInts m)
    (hsin : m.sin (m.DEG_TO_RAD 0) = 0) (hsqrt : m.sqrt 40000 = 200) :
    deviation m 0 ⟨0, 200⟩ = 0 := by
  unfold deviation
  rw [magnitude_vertical m hsqrt, hsin]
  unfold FloatEnv.div FloatEnv.add FloatEnv.mul
  simp only [Int.cast_zero, zero_mul, mul_zero, roundsInts_zero hround, add_zero, zero_div,
    abs_zero]

theorem pipeline_of_vertical_fit (m : FloatEnv) (hround : RoundsInts m)
    (hsin : m.sin (m.DEG_TO_RAD 0) = 0) (hsqrt : m.sqrt 40000 = 200)
    (sort : List ControlPoint → List ControlPoint) (optimize : List ControlPoint → OptResult)
    (transform : ℚ → ℚ → Option (ℚ × ℚ)) (imgNr nrLines : Nat) (line : SingleLine)
    (t y0 : Int) (hv : line.status = LineStatus.valid_line) (hn : line.line.length > 2)
    (hfit : FitLine m line = ⟨⟨t, y0⟩, ⟨t, y0 + 200⟩⟩)
    (ht0 : 0 ≤ t) (ht1 : t < 1000) (hy0 : 0 ≤ y0) (hy1 : y0 + 200 < 1000) :
    getVerticalLinesFrom m sort optimize false 0 1 transform 1000 1000 imgNr nrLines [line]
      = [⟨imgNr, (t : ℚ), (y0 : ℚ), imgNr, (t : ℚ), ((y0 + 200 : Int) : ℚ),
          ControlPoint.X, 0⟩] := by
  have hlenOk : lengthOk m (FitLine m line) := by
    unfold lengthOk
    rw [hfit]
    show magnitude m ((⟨t, y0 + 200⟩ : Point2D).sub ⟨t, y0⟩) > 20
    rw [sub_vertical, magnitude_vertical m hsqrt]
    norm_num
  have hvertOk : verticalOk m 0 (FitLine m line) := by
    unfold verticalOk
    rw [hfit]
    show deviation m 0 ((⟨t, y0 + 200⟩ : Point2D).sub ⟨t, y0⟩) < 1 / 10
    rw [sub_vertical, deviation_vertical m hround hsin hsqrt]
    norm_num
  have hfl : FilterLines m [line] 0 = [⟨⟨t, y0⟩, ⟨t, y0 + 200⟩⟩] := by
    have h1 : FilterLines m [line] 0 = filterStep m 0 [] line := rfl
    rw [h1, filterStep_of_pass m 0 [] line hv hn hlenOk hvertOk, hfit]
    rfl
  have hrt : m.round (t : ℚ) = (t : ℚ) := hround t (by omega) (by omega)
  have hry0 : m.round (y0 : ℚ) = (y0 : ℚ) := hround y0 (by omega) (by omega)
  have hry1 : m.round ((y0 + 200 : Int) : ℚ) = ((y0 + 200 : Int) : ℚ) :=
    hround (y0 + 200) (by omega) (by omega)
  have htq0 : (0 : ℚ) ≤ (t : ℚ) := by exact_mod_cast ht0
  have htq1 : (t : ℚ) < ((1000 : Int) : ℚ) := by exact_mod_cast ht1
  have hyq0 : (0 : ℚ) ≤ (y0 : ℚ) := by exact_mod_cast hy0
  have hyq1 : (y0 : ℚ) < ((1000 : Int) : ℚ) := by
    have : y0 < 1000 := by omega
    exact_mod_cast this
  have hyq2 : (0 : ℚ) ≤ ((y0 + 200 : Int) : ℚ) := by
    have : 0 ≤ y0 + 200 := by omega
    exact_mod_cast this
  have hyq3 : ((y0 + 200 : Int) : ℚ) < ((1000 : Int) : ℚ) := by exact_mod_cast hy1
  have hsyn : synthesize m false 1 transform 1000 1000 [⟨⟨t, y0⟩, ⟨t, y0 + 200⟩⟩]
      = [⟨0, (t : ℚ), (y0 : ℚ), 0, (t : ℚ), ((y0 + 200 : Int) : ℚ), ControlPoint.X, 0⟩] := by
    rw [synthesize_eq_filterMap]
    simp only [List.filterMap_cons, List.filterMap_nil, synthesizeLine, Bool.not_false,
      if_true, FloatEnv.mul, mul_one, hrt, hry0, hry1]
    rw [if_pos ⟨htq0, htq1, hyq0, hyq1, htq0, htq1, hyq2, hyq3⟩]
  have hsingle : singleOk m 0
      ⟨0, (t : ℚ), (y0 : ℚ), 0, (t : ℚ), ((y0 + 200 : Int) : ℚ), ControlPoint.X, 0⟩ := by
    unfold singleOk FloatEnv.sub
    have e1 : (t : ℚ) - (t : ℚ) = ((0 : Int) : ℚ) := by simp
    have e2 : ((y0 + 200 : Int) : ℚ) - (y0 : ℚ) = ((200 : Int) : ℚ) := by push_cast; ring
    have r200 : m.round ((200 : Int) : ℚ) = ((200 : Int) : ℚ) :=
      hround 200 (by norm_num) (by norm_num)
    have r0 : m.round ((0 : Int) : ℚ) = ((0 : Int) : ℚ) := hround 0 (by norm_num) (by norm_num)
    dsimp only
    rw [e1, e2, r0, r200, toInt_intCast, toInt_intCast, magnitude_vertical m hsqrt,
      deviation_vertical m hround hsin hsqrt]
    norm_num
  unfold getVerticalLinesFrom
  dsimp only
  have hroll : (if false = true then (0 : ℚ) else 0) = 0 := by simp
  rw [hroll, hfl, if_pos (by simp), hsyn, validate_singleton, if_pos hsingle]
  rfl



/-! ## Accumulated sums of `FitLine` on points sharing one x -/

theorem pow_one_add_le (e : ℚ) (he : 0 ≤ e) (N : Nat) (h : 2 * (N : ℚ) * e ≤ 1) :
    (1 + e) ^ N ≤ 1 + 2 * (N : ℚ) * e := by
  induction N with
  | zero => simp
  | succ k ih =>
    have hk : 2 * (k : ℚ) * e ≤ 1 := by
      push_cast at h
      nlinarith
    have h1 := ih hk
    have h2 : (1 + e) ^ (k + 1) ≤ (1 + 2 * (k : ℚ) * e) * (1 + e) := by
      rw [pow_succ]
      exact mul_le_mul_of_nonneg_right h1 (by linarith)
    push_cast
    nlinarith [mul_nonneg he he]

theorem pow_one_sub_ge (e : ℚ) (he0 : 0 ≤ e) (he1 : e ≤ 1) (N : Nat) :
    1 - (N : ℚ) * e ≤ (1 - e) ^ N := by
  induction N with
  | zero => simp
  | succ k ih =>
    have hp : 0 ≤ (1 - e) ^ k := pow_nonneg (by linarith) k
    have hp1 : (1 - e) ^ k ≤ 1 := pow_le_one₀ (by linarith) (by linarith)
    rw [pow_succ]
    push_cast
    nlinarith [mul_nonneg he0 hp, mul_nonneg he0 (sub_nonneg.2 hp1)]

theorem foldl_round_add_bounds {m : FloatEnv} (hacc : Accurate m) (c : ℚ) (hc : 0 ≤ c)
    (l : List Point2D) (s0 : ℚ) (k : Nat)
    (h0 : (k : ℚ) * c * (1 - 1 / 2 ^ 53) ^ k ≤ s0)
    (h1 : s0 ≤ (k : ℚ) * c * (1 + 1 / 2 ^ 53) ^ k) :
    ((k + l.length : Nat) : ℚ) * c * (1 - 1 / 2 ^ 53) ^ (k + l.length)
        ≤ l.foldl (fun s _ => m.round (s + c)) s0 ∧
      l.foldl (fun s _ => m.round (s + c)) s0
        ≤ ((k + l.length : Nat) : ℚ) * c * (1 + 1 / 2 ^ 53) ^ (k + l.length) := by
  induction l generalizing s0 k with
  | nil => exact ⟨h0, h1⟩
  | cons p rest ih =>
    rw [List.foldl_cons, List.length_cons]
    have hk1 : k + (rest.length + 1) = (k + 1) + rest.length := by omega
    rw [hk1]
    obtain ⟨e, he⟩ : ∃ e : ℚ, e = 1 / 2 ^ 53 := ⟨_, rfl⟩
    have he0 : 0 < e := by rw [he]; positivity
    have he1 : e < 1 / 1000 := by rw [he]; norm_num
    rw [← he] at h0 h1
    have hlo : 0 ≤ (1 - e) ^ k := pow_nonneg (by linarith) k
    have hlo1 : (1 - e) ^ k ≤ 1 := pow_le_one₀ (by linarith) (by linarith)
    have hhi1 : 1 ≤ (1 + e) ^ k := one_le_pow₀ (by linarith)
    have hkq : (0 : ℚ) ≤ (k : ℚ) := Nat.cast_nonneg k
    have hs0 : 0 ≤ s0 := le_trans (mul_nonneg (mul_nonneg hkq hc) hlo) h0
    obtain ⟨hr1, hr2⟩ := round_bounds hacc (add_nonneg hs0 hc)
    rw [← he] at hr1 hr2
    apply ih
    · rw [← he]
      calc ((k + 1 : Nat) : ℚ) * c * (1 - e) ^ (k + 1)
          = ((k : ℚ) * c * (1 - e) ^ k + c * (1 - e) ^ k) * (1 - e) := by
            push_cast; rw [pow_succ]; ring
        _ ≤ (s0 + c) * (1 - e) := by
            apply mul_le_mul_of_nonneg_right _ (by linarith)
            have : c * (1 - e) ^ k ≤ c := by
              calc c * (1 - e) ^ k ≤ c * 1 := mul_le_mul_of_nonneg_left hlo1 hc
                _ = c := mul_one c
            linarith
        _ ≤ _ := hr1
    · rw [← he]
      calc m.round (s0 + c) ≤ (s0 + c) * (1 + e) := hr2
        _ ≤ ((k : ℚ) * c * (1 + e) ^ k + c * (1 + e) ^ k) * (1 + e) := by
            apply mul_le_mul_of_nonneg_right _ (by linarith)
            have : c ≤ c * (1 + e) ^ k := by
              calc c = c * 1 := (mul_one c).symm
                _ ≤ c * (1 + e) ^ k := mul_le_mul_of_nonneg_left hhi1 hc
            linarith
        _ = ((k + 1 : Nat) : ℚ) * c * (1 + e) ^ (k + 1) := by
            push_cast; rw [pow_succ]; ring

theorem fitSums_foldl_const_x (m : FloatEnv) (n : ℚ) (x : Int) (pts : List Point2D)
    (hx : ∀ p ∈ pts, p.x = x) (s0 : FitSums) :
    (pts.foldl (fun s p =>
        ({ s_x := m.add s.s_x (m.div (p.x : ℚ) n)
           s_y := m.add s.s_y (m.div (p.y : ℚ) n)
           s_xy := m.add s.s_xy (m.div (m.mul (p.x : ℚ) (p.y : ℚ)) n)
           s_x2 := m.add s.s_x2 (m.div (m.mul (p.x : ℚ) (p.x : ℚ)) n) } : FitSums)) s0).s_x
        = pts.foldl (fun s _ => m.round (s + m.div (x : ℚ) n)) s0.s_x ∧
      (pts.foldl (fun s p =>
        ({ s_x := m.add s.s_x (m.div (p.x : ℚ) n)
           s_y := m.add s.s_y (m.div (p.y : ℚ) n)
           s_xy := m.add s.s_xy (m.div (m.mul (p.x : ℚ) (p.y : ℚ)) n)
           s_x2 := m.add s.s_x2 (m.div (m.mul (p.x : ℚ) (p.x : ℚ)) n) } : FitSums)) s0).s_x2
        = pts.foldl (fun s _ => m.round (s + m.div (m.mul (x : ℚ) (x : ℚ)) n)) s0.s_x2 := by
  induction pts generalizing s0 with
  | nil => exact ⟨rfl, rfl⟩
  | cons p rest ih =>
    have hp : p.x = x := hx p (List.mem_cons_self _ _)
    have hrest : ∀ q ∈ rest, q.x = x := fun q hq => hx q (List.mem_cons_of_mem _ hq)
    rw [List.foldl_cons, List.foldl_cons, List.foldl_cons]
    obtain ⟨h1, h2⟩ := ih hrest
      { s_x := m.add s0.s_x (m.div (p.x : ℚ) n)
        s_y := m.add s0.s_y (m.div (p.y : ℚ) n)
        s_xy := m.add s0.s_xy (m.div (m.mul (p.x : ℚ) (p.y : ℚ)) n)
        s_x2 := m.add s0.s_x2 (m.div (m.mul (p.x : ℚ) (p.x : ℚ)) n) }
    rw [h1, h2, hp]
    exact ⟨rfl, rfl⟩



theorem foldl_round_const_bounds {m : FloatEnv} (hacc : Accurate m) (v c : ℚ) (hv : 0 ≤ v)
    (pts : List Point2D) (hne : 1 ≤ pts.length) (hlen : pts.length ≤ 10000)
    (hclo : v / (pts.length : ℚ) * ((1 - 1 / 2 ^ 53) * (1 - 1 / 2 ^ 53)) ≤ c)
    (hchi : c ≤ v / (pts.length : ℚ) * ((1 + 1 / 2 ^ 53) * (1 + 1 / 2 ^ 53))) :
    v * (1 - 20004 / 2 ^ 53) ≤ pts.foldl (fun s _ => m.round (s + c)) 0 ∧
      pts.foldl (fun s _ => m.round (s + c)) 0 ≤ v * (1 + 20004 / 2 ^ 53) := by
  obtain ⟨e, he⟩ : ∃ e : ℚ, e = 1 / 2 ^ 53 := ⟨_, rfl⟩
  have he0 : 0 < e := by rw [he]; positivity
  have he1 : e < 1 / 100000000 := by rw [he]; norm_num
  have hd : (20004 : ℚ) / 2 ^ 53 = 20004 * e := by rw [he]; ring
  have hnq : (0 : ℚ) < (pts.length : ℚ) := by exact_mod_cast hne
  have hnq2 : (pts.length : ℚ) ≤ 10000 := by exact_mod_cast hlen
  have hvn : 0 ≤ v / (pts.length : ℚ) := div_nonneg hv (le_of_lt hnq)
  have hvn2 : (pts.length : ℚ) * (v / (pts.length : ℚ)) = v := mul_div_cancel₀ v (ne_of_gt hnq)
  have hc : 0 ≤ c := by
    refine le_trans (mul_nonneg hvn (mul_nonneg ?_ ?_)) hclo <;> rw [← he] <;> linarith
  have hb := foldl_round_add_bounds hacc c hc pts 0 0 (by simp) (by simp)
  rw [Nat.zero_add, ← he] at hb
  rw [← he] at hclo hchi
  rw [hd]
  obtain ⟨hb1, hb2⟩ := hb
  have hplo : 0 ≤ (1 - e) ^ pts.length := pow_nonneg (by linarith) _
  have hphi : 0 ≤ (1 + e) ^ pts.length := pow_nonneg (by linarith) _
  constructor
  · have hp := pow_one_sub_ge e (le_of_lt he0) (by linarith) (pts.length + 2)
    push_cast at hp
    calc v * (1 - 20004 * e) ≤ v * (1 - e) ^ (pts.length + 2) := by
          apply mul_le_mul_of_nonneg_left _ hv
          refine le_trans ?_ hp
          nlinarith
      _ = (pts.length : ℚ) * (v / (pts.length : ℚ) * ((1 - e) * (1 - e)))
            * (1 - e) ^ pts.length := by
          rw [pow_add]
          nth_rewrite 1 [← hvn2]
          ring
      _ ≤ (pts.length : ℚ) * c * (1 - e) ^ pts.length :=
          mul_le_mul_of_nonneg_right (mul_le_mul_of_nonneg_left hclo (le_of_lt hnq)) hplo
      _ ≤ _ := hb1
  · have hp := pow_one_add_le e (le_of_lt he0) (pts.length + 2) (by push_cast; nlinarith)
    push_cast at hp
    calc pts.foldl (fun s _ => m.round (s + c)) 0
        ≤ (pts.length : ℚ) * c * (1 + e) ^ pts.length := hb2
      _ ≤ (pts.length : ℚ) * (v / (pts.length : ℚ) * ((1 + e) * (1 + e)))
            * (1 + e) ^ pts.length :=
          mul_le_mul_of_nonneg_right (mul_le_mul_of_nonneg_left hchi (le_of_lt hnq)) hphi
      _ = v * (1 + e) ^ (pts.length + 2) := by
          have h : (pts.length : ℚ) * (v / (pts.length : ℚ) * ((1 + e) * (1 + e)))
                * (1 + e) ^ pts.length
              = (pts.length : ℚ) * (v / (pts.length : ℚ)) * ((1 + e) * (1 + e))
                * (1 + e) ^ pts.length := by ring
          rw [h, hvn2, pow_add]
          ring
      _ ≤ v * (1 + 20004 * e) := by
          apply mul_le_mul_of_nonneg_left _ hv
          refine le_trans hp ?_
          nlinarith

theorem fitSums_const_x_bounds {m : FloatEnv} (hacc : Accurate m) (pts : List Point2D)
    (x : Int) (hx : ∀ p ∈ pts, p.x = x) (hx0 : 0 ≤ x) (hne : 1 ≤ pts.length)
    (hlen : pts.length ≤ 10000) :
    ((x : ℚ) * (1 - 20004 / 2 ^ 53) ≤ (fitSums m pts).s_x ∧
      (fitSums m pts).s_x ≤ (x : ℚ) * (1 + 20004 / 2 ^ 53)) ∧
    ((x : ℚ) * (x : ℚ) * (1 - 20004 / 2 ^ 53) ≤ (fitSums m pts).s_x2 ∧
      (fitSums m pts).s_x2 ≤ (x : ℚ) * (x : ℚ) * (1 + 20004 / 2 ^ 53)) := by
  have hxq : (0 : ℚ) ≤ (x : ℚ) := by exact_mod_cast hx0
  have hxx : (0 : ℚ) ≤ (x : ℚ) * (x : ℚ) := mul_nonneg hxq hxq
  have hnq : (0 : ℚ) < (pts.length : ℚ) := by exact_mod_cast hne
  obtain ⟨h1, h2⟩ := fitSums_foldl_const_x m (pts.length : ℚ) x pts hx ⟨0, 0, 0, 0⟩
  unfold fitSums
  dsimp only at h1 h2 ⊢
  rw [h1, h2]
  have e1 : (1 : ℚ) - 1 / 2 ^ 53 ≤ 1 := by norm_num
  have e2 : (0 : ℚ) ≤ 1 - 1 / 2 ^ 53 := by norm_num
  have e3 : (1 : ℚ) ≤ 1 + 1 / 2 ^ 53 := by norm_num
  constructor
  · apply foldl_round_const_bounds hacc (x : ℚ) _ hxq pts hne hlen
    · obtain ⟨hr, _⟩ := round_bounds hacc (div_nonneg hxq (le_of_lt hnq))
      refine le_trans ?_ hr
      apply mul_le_mul_of_nonneg_left _ (div_nonneg hxq (le_of_lt hnq))
      calc (1 - 1 / 2 ^ 53) * (1 - 1 / 2 ^ 53) ≤ 1 * (1 - 1 / 2 ^ 53) :=
            mul_le_mul_of_nonneg_right e1 e2
        _ = _ := one_mul _
    · obtain ⟨_, hr⟩ := round_bounds hacc (div_nonneg hxq (le_of_lt hnq))
      refine le_trans hr ?_
      apply mul_le_mul_of_nonneg_left _ (div_nonneg hxq (le_of_lt hnq))
      calc (1 + 1 / 2 ^ 53) = 1 * (1 + 1 / 2 ^ 53) := (one_mul _).symm
        _ ≤ (1 + 1 / 2 ^ 53) * (1 + 1 / 2 ^ 53) :=
            mul_le_mul_of_nonneg_right e3 (by linarith)
  · obtain ⟨hm1, hm2⟩ := round_bounds hacc hxx
    have hm0 : 0 ≤ m.round ((x : ℚ) * (x : ℚ)) := le_trans (mul_nonneg hxx e2) hm1
    obtain ⟨hr1, hr2⟩ := round_bounds hacc (div_nonneg hm0 (le_of_lt hnq))
    apply foldl_round_const_bounds hacc ((x : ℚ) * (x : ℚ)) _ hxx pts hne hlen
    · unfold FloatEnv.div FloatEnv.mul
      refine le_trans ?_ hr1
      calc (x : ℚ) * (x : ℚ) / (pts.length : ℚ) * ((1 - 1 / 2 ^ 53) * (1 - 1 / 2 ^ 53))
          = (x : ℚ) * (x : ℚ) * (1 - 1 / 2 ^ 53) / (pts.length : ℚ) * (1 - 1 / 2 ^ 53) := by
            ring
        _ ≤ m.round ((x : ℚ) * (x : ℚ)) / (pts.length : ℚ) * (1 - 1 / 2 ^ 53) :=
            mul_le_mul_of_nonneg_right (div_le_div_of_nonneg_right hm1 (le_of_lt hnq)) e2
    · unfold FloatEnv.div FloatEnv.mul
      refine le_trans hr2 ?_
      calc m.round ((x : ℚ) * (x : ℚ)) / (pts.length : ℚ) * (1 + 1 / 2 ^ 53)
          ≤ (x : ℚ) * (x : ℚ) * (1 + 1 / 2 ^ 53) / (pts.length : ℚ) * (1 + 1 / 2 ^ 53) :=
            mul_le_mul_of_nonneg_right (div_le_div_of_nonneg_right hm2 (le_of_lt hnq))
              (by linarith)
        _ = _ := by ring



theorem variance_test_of_bounds {m : FloatEnv} (hacc : Accurate m) (X s s2 : ℚ)
    (hX0 : 0 ≤ X) (hX1 : X ≤ 999)
    (hs : X * (1 - 20004 / 2 ^ 53) ≤ s ∧ s ≤ X * (1 + 20004 / 2 ^ 53))
    (hs2 : X * X * (1 - 20004 / 2 ^ 53) ≤ s2 ∧ s2 ≤ X * X * (1 + 20004 / 2 ^ 53)) :
    |m.sub s2 (m.mul s s)| < 1 / 100000 := by
  obtain ⟨hslo, hshi⟩ := hs
  obtain ⟨h2lo, h2hi⟩ := hs2
  have hlo0 : 0 ≤ X * (1 - 20004 / 2 ^ 53) := mul_nonneg hX0 (by norm_num)
  have hs0 : 0 ≤ s := le_trans hlo0 hslo
  have hsslo : X * (1 - 20004 / 2 ^ 53) * (X * (1 - 20004 / 2 ^ 53)) ≤ s * s :=
    mul_le_mul hslo hslo hlo0 hs0
  have hsshi : s * s ≤ X * (1 + 20004 / 2 ^ 53) * (X * (1 + 20004 / 2 ^ 53)) :=
    mul_le_mul hshi hshi hs0 (le_trans hs0 hshi)
  obtain ⟨hp1, hp2⟩ := round_bounds hacc (mul_nonneg hs0 hs0)
  have hY0 : 0 ≤ X * X := mul_nonneg hX0 hX0
  have hY1 : X * X ≤ 998001 := by nlinarith
  have hplo : X * X * ((1 - 20004 / 2 ^ 53) * (1 - 20004 / 2 ^ 53) * (1 - 1 / 2 ^ 53))
      ≤ m.round (s * s) := by
    refine le_trans ?_ hp1
    calc X * X * ((1 - 20004 / 2 ^ 53) * (1 - 20004 / 2 ^ 53) * (1 - 1 / 2 ^ 53))
        = X * (1 - 20004 / 2 ^ 53) * (X * (1 - 20004 / 2 ^ 53)) * (1 - 1 / 2 ^ 53) := by ring
      _ ≤ s * s * (1 - 1 / 2 ^ 53) := mul_le_mul_of_nonneg_right hsslo (by norm_num)
  have hphi : m.round (s * s)
      ≤ X * X * ((1 + 20004 / 2 ^ 53) * (1 + 20004 / 2 ^ 53) * (1 + 1 / 2 ^ 53)) := by
    refine le_trans hp2 ?_
    calc s * s * (1 + 1 / 2 ^ 53)
        ≤ X * (1 + 20004 / 2 ^ 53) * (X * (1 + 20004 / 2 ^ 53)) * (1 + 1 / 2 ^ 53) :=
          mul_le_mul_of_nonneg_right hsshi (by norm_num)
      _ = _ := by ring
  have hd : |s2 - m.round (s * s)| ≤ X * X * (80020 / 2 ^ 53) := by
    rw [abs_le]
    have k1 : (1 + 20004 / 2 ^ 53 : ℚ) * (1 + 20004 / 2 ^ 53) * (1 + 1 / 2 ^ 53)
        - (1 - 20004 / 2 ^ 53) ≤ 80020 / 2 ^ 53 := by norm_num
    have k2 : (1 + 20004 / 2 ^ 53 : ℚ)
        - (1 - 20004 / 2 ^ 53) * (1 - 20004 / 2 ^ 53) * (1 - 1 / 2 ^ 53)
        ≤ 80020 / 2 ^ 53 := by norm_num
    have m1 := mul_le_mul_of_nonneg_left k1 hY0
    have m2 := mul_le_mul_of_nonneg_left k2 hY0
    constructor
    · linarith
    · linarith
  have hr := hacc (s2 - m.round (s * s))
  have hr2 : |m.round (s2 - m.round (s * s))|
      ≤ |s2 - m.round (s * s)| + |s2 - m.round (s * s)| / 2 ^ 53 := by
    have h3 := abs_sub_abs_le_abs_sub (m.round (s2 - m.round (s * s))) (s2 - m.round (s * s))
    linarith
  unfold FloatEnv.sub FloatEnv.mul
  have hd2 : |s2 - m.round (s * s)| ≤ 998001 * (80020 / 2 ^ 53) :=
    le_trans hd (mul_le_mul_of_nonneg_right hY1 (by norm_num))
  have hfin : (998001 : ℚ) * (80020 / 2 ^ 53) + 998001 * (80020 / 2 ^ 53) / 2 ^ 53
      < 1 / 100000 := by norm_num
  have hd3 : |s2 - m.round (s * s)| / 2 ^ 53 ≤ 998001 * (80020 / 2 ^ 53) / 2 ^ 53 :=
    div_le_div_of_nonneg_right hd2 (by norm_num)
  linarith

theorem toInt_of_bounds (x : Int) (s : ℚ) (hx0 : 0 ≤ x) (hx1 : x < 1000)
    (hs : (x : ℚ) * (1 - 20004 / 2 ^ 53) ≤ s ∧ s ≤ (x : ℚ) * (1 + 20004 / 2 ^ 53)) :
    0 ≤ toInt s ∧ (toInt s = x ∨ toInt s = x - 1) := by
  obtain ⟨hslo, hshi⟩ := hs
  have hX0 : (0 : ℚ) ≤ (x : ℚ) := by exact_mod_cast hx0
  have hX1 : (x : ℚ) ≤ 999 := by
    have : x ≤ 999 := by omega
    exact_mod_cast this
  have hs0 : 0 ≤ s := le_trans (mul_nonneg hX0 (by norm_num)) hslo
  rw [toInt_of_nonneg hs0]
  have h1 : ⌊s⌋ < x + 1 := by
    rw [Int.floor_lt]
    push_cast
    nlinarith
  have h2 : x - 1 ≤ ⌊s⌋ := by
    rw [Int.le_floor]
    push_cast
    nlinarith
  refine ⟨Int.floor_nonneg.2 hs0, ?_⟩
  omega



/-! ## The binary64 rounding leaves the integers of the `int` range unchanged -/

theorem ilog2_pow_le (fuel n : Nat) (hn : 1 ≤ n) : 2 ^ ilog2 fuel n ≤ n := by
  induction fuel generalizing n with
  | zero => simpa [ilog2] using hn
  | succ f ih =>
    unfold ilog2
    split_ifs with h
    · simpa using hn
    · have h2 : 1 ≤ n / 2 := by omega
      have := ih (n / 2) h2
      rw [pow_succ]
      omega

theorem roundHalfEven_intCast (z : Int) : roundHalfEven (z : ℚ) = z := by
  unfold roundHalfEven
  simp

theorem roundDouble_natCast (N : Nat) (h1 : 1 ≤ N) (h2 : N ≤ 2147483648) :
    roundDouble (N : ℚ) = (N : ℚ) := by
  have hNq : (0 : ℚ) < (N : ℚ) := by exact_mod_cast h1
  have hk := ilog2_pow_le 4096 N h1
  have hk31 : ilog2 4096 N ≤ 31 := by
    by_contra hcon
    push_neg at hcon
    have : 2 ^ 32 ≤ 2 ^ ilog2 4096 N := Nat.pow_le_pow_right (by norm_num) hcon
    omega
  have h11 : ilog2 4096 1 = 0 := by
    unfold ilog2
    simp
  have hexp : binExponent (N : ℚ) = (ilog2 4096 N : Int) := by
    unfold binExponent
    simp only [Rat.num_natCast, Rat.den_natCast, Int.toNat_ofNat, h11, Nat.cast_zero, sub_zero]
    rw [if_pos]
    rw [pow2_eq_zpow, zpow_natCast]
    exact_mod_cast hk
  unfold roundDouble
  rw [if_neg (ne_of_gt hNq)]
  simp only [abs_of_pos hNq, hexp]
  have htest : pow2 (ilog2 4096 N : Int) ≤ (N : ℚ) := by
    rw [pow2_eq_zpow, zpow_natCast]
    exact_mod_cast hk
  rw [if_pos htest, if_pos hNq, pow2_eq_zpow]
  have hulp : (2 : ℚ) ^ ((ilog2 4096 N : Int) - 52)
      = 1 / (2 : ℚ) ^ (52 - ilog2 4096 N) := by
    have : ((ilog2 4096 N : Int) - 52) = -((52 - ilog2 4096 N : Nat) : Int) := by omega
    rw [this, zpow_neg, zpow_natCast, one_div]
  rw [hulp]
  have hq : (N : ℚ) / (1 / (2 : ℚ) ^ (52 - ilog2 4096 N))
      = (((N * 2 ^ (52 - ilog2 4096 N) : Nat) : Int) : ℚ) := by
    push_cast
    field_simp
  rw [hq, roundHalfEven_intCast]
  push_cast
  field_simp

theorem roundDouble_neg (q : ℚ) : roundDouble (-q) = -roundDouble q := by
  unfold roundDouble
  by_cases h0 : q = 0
  · simp [h0]
  · have h0n : -q ≠ 0 := neg_ne_zero.2 h0
    rw [if_neg h0, if_neg h0n]
    simp only [abs_neg]
    by_cases ht : pow2 (binExponent |q|) ≤ |q|
    · rw [if_pos ht, if_pos ht]
      rcases lt_or_gt_of_ne h0 with hneg | hpos
      · rw [if_pos (by linarith : 0 < -q), if_neg (by linarith : ¬ 0 < q)]
        ring
      · rw [if_neg (by linarith : ¬ 0 < -q), if_pos hpos]
    · rw [if_neg ht, if_neg ht]

theorem ieee_roundsInts : RoundsInts ieee := by
  intro z hz1 hz2
  show roundDouble (z : ℚ) = (z : ℚ)
  rcases lt_trichotomy z 0 with hneg | hzero | hpos
  · have h := roundDouble_natCast (-z).toNat (by omega) (by omega)
    have hc : (((-z).toNat : Nat) : ℚ) = -(z : ℚ) := by
      have : (((-z).toNat : Nat) : Int) = -z := Int.toNat_of_nonneg (by omega)
      have h2 : ((((-z).toNat : Nat) : Int) : ℚ) = ((-z : Int) : ℚ) := by rw [this]
      push_cast at h2
      exact h2
    rw [hc, roundDouble_neg] at h
    linarith
  · rw [hzero]
    simp [roundDouble]
  · have h := roundDouble_natCast z.toNat (by omega) (by omega)
    have hc : ((z.toNat : Nat) : ℚ) = (z : ℚ) := by
      have : ((z.toNat : Nat) : Int) = z := Int.toNat_of_nonneg (by omega)
      have h2 : (((z.toNat : Nat) : Int) : ℚ) = (z : ℚ) := by rw [this]
      push_cast at h2
      exact h2
    rw [hc] at h
    exact h



/-! ## A vertical edge of 200 px in a 1000 x 1000 image -/

theorem sum_map_of_const (pts : List Point2D) (f : Point2D → ℚ) (c : ℚ)
    (h : ∀ p ∈ pts, f p = c) : (pts.map f).sum = (pts.length : ℚ) * c := by
  induction pts with
  | nil => simp
  | cons a t ih =>
    rw [List.map_cons, List.sum_cons, ih (fun p hp => h p (List.mem_cons_of_mem _ hp)),
      h a (List.mem_cons_self _ _), List.length_cons]
    push_cast
    ring

theorem FitLine_const_x_exact (m : FloatEnv) (hex : Exact m) (line : SingleLine) (x : Int)
    (hx : ∀ p ∈ line.line, p.x = x) (hne : line.line ≠ []) :
    FitLine m line
      = ⟨⟨x, (line.line.head hne).y⟩, ⟨x, (line.line.getLast hne).y⟩⟩ := by
  have hlen : ((line.line.length : Nat) : ℚ) ≠ 0 := by
    have := List.length_pos.2 hne
    have h : (0 : ℚ) < (line.line.length : ℚ) := by exact_mod_cast this
    exact ne_of_gt h
  have hmx : meanX line.line = (x : ℚ) := by
    unfold meanX
    rw [sum_map_of_const line.line _ (x : ℚ) (fun p hp => by rw [hx p hp])]
    field_simp
  have hmx2 : meanX2 line.line = (x : ℚ) * (x : ℚ) := by
    unfold meanX2
    rw [sum_map_of_const line.line _ ((x : ℚ) * (x : ℚ)) (fun p hp => by rw [hx p hp])]
    field_simp
  have hvar : |varX line.line| < 1 / 100000 := by
    unfold varX
    rw [hmx, hmx2, sub_self, abs_zero]
    norm_num
  rw [FitLine_of_small_variance m hex line hvar, hmx, toInt_intCast,
    getD_zero_eq_head _ hne, getD_last_eq_getLast _ hne]

/-- C13 (counterexample): for the 1000 x 1000 image with roll 0 and the single detected line of
201 points from `(1, 100)` to `(1, 300)`, all at `x = 1`, binary64 arithmetic accumulates the
mean x to a value just below 1 and the returned control point has `x1 = x2 = 0`, not 1. -/
theorem getVerticalLines_edge_at_one_gives_zero :
    (fitSums ieee (edge200 1 100).line).s_x = 9007199254740963 / 9007199254740992 ∧
      getVerticalLinesFrom ieee stdSort exampleOptimize false 0 1 (fun _ _ => none) 1000 1000
        7 1 [edge200 1 100] = [⟨7, 0, 100, 7, 0, 300, ControlPoint.X, 0⟩] := by
  decide!



/-- C13 (amended): for the 1000 x 1000 image with roll 0, no remapping and size factor 1, and a
single valid detected line of at least 3 points that all share one `x` (`0 <= x < 1000`),
running from `(x, y0)` to `(x, y0 + 200)` inside the image, the stages from `FilterLines` to
the end of `_getVerticalLines` return, for every `nrLines`, exactly one control point, from
`(t, y0)` to `(t, y0 + 200)`, where `t` is the accumulated mean x truncated to `int`: for
binary64-accurate arithmetic and at most 10000 points `t` is `x` or `x - 1`; in exact
arithmetic `t = x`.  (The rounding leaves `int` values unchanged, `sin(DEG_TO_RAD(0)) = 0`
and `sqrt(40000) = 200`.) -/
theorem getVerticalLines_vertical_edge (m : FloatEnv) (hround : RoundsInts m)
    (hsin : m.sin (m.DEG_TO_RAD 0) = 0) (hsqrt : m.sqrt 40000 = 200)
    (sort : List ControlPoint → List ControlPoint) (optimize : List ControlPoint → OptResult)
    (transform : ℚ → ℚ → Option (ℚ × ℚ)) (imgNr nrLines : Nat) (line : SingleLine)
    (x y0 : Int) (hv : line.status = LineStatus.valid_line) (hn : 3 ≤ line.line.length)
    (hne : line.line ≠ []) (hx : ∀ p ∈ line.line, p.x = x)
    (hfirst : (line.line.head hne).y = y0) (hlast : (line.line.getLast hne).y = y0 + 200)
    (hx0 : 0 ≤ x) (hx1 : x < 1000) (hy0 : 0 ≤ y0) (hy1 : y0 + 200 < 1000) :
    (Accurate m → line.line.length ≤ 10000 →
      (toInt (fitSums m line.line).s_x = x ∨ toInt (fitSums m line.line).s_x = x - 1) ∧
      getVerticalLinesFrom m sort optimize false 0 1 transform 1000 1000 imgNr nrLines [line]
        = [⟨imgNr, ((toInt (fitSums m line.line).s_x : Int) : ℚ), (y0 : ℚ), imgNr,
            ((toInt (fitSums m line.line).s_x : Int) : ℚ), ((y0 + 200 : Int) : ℚ),
            ControlPoint.X, 0⟩]) ∧
      (Exact m →
        getVerticalLinesFrom m sort optimize false 0 1 transform 1000 1000 imgNr nrLines
            [line]
          = [⟨imgNr, (x : ℚ), (y0 : ℚ), imgNr, (x : ℚ), ((y0 + 200 : Int) : ℚ),
              ControlPoint.X, 0⟩]) := by
  constructor
  · intro hacc hlen
    have hb := fitSums_const_x_bounds hacc line.line x hx hx0 (by omega) hlen
    have hX0 : (0 : ℚ) ≤ (x : ℚ) := by exact_mod_cast hx0
    have hX1 : (x : ℚ) ≤ 999 := by
      have : x ≤ 999 := by omega
      exact_mod_cast this
    have htest := variance_test_of_bounds hacc (x : ℚ) _ _ hX0 hX1 hb.1 hb.2
    obtain ⟨ht0, htx⟩ := toInt_of_bounds x _ hx0 hx1 hb.1
    have hfit := FitLine_of_test_pass m line htest
    rw [getD_zero_eq_head _ hne, getD_last_eq_getLast _ hne, hfirst, hlast] at hfit
    refine ⟨htx, ?_⟩
    exact pipeline_of_vertical_fit m hround hsin hsqrt sort optimize transform imgNr nrLines
      line _ y0 hv (by omega) hfit ht0 (by omega) hy0 hy1
  · intro hex
    have hfit := FitLine_const_x_exact m hex line x hx hne
    rw [hfirst, hlast] at hfit
    exact pipeline_of_vertical_fit m hround hsin hsqrt sort optimize transform imgNr nrLines
      line x y0 hv (by omega) hfit hx0 hx1 hy0 hy1

theorem getVerticalLines_vertical_edge_witness :
    (RoundsInts ieee ∧ ieee.sin (ieee.DEG_TO_RAD 0) = 0 ∧ ieee.sqrt 40000 = 200 ∧
      3 ≤ (edge200 500 100).line.length ∧ (∀ p ∈ (edge200 500 100).line, p.x = 500) ∧
      Accurate ieee ∧ (edge200 500 100).line.length ≤ 10000) ∧
    ((toInt (fitSums ieee (edge200 500 100).line).s_x = 500 ∨
        toInt (fitSums ieee (edge200 500 100).line).s_x = 500 - 1) ∧
      getVerticalLinesFrom ieee stdSort exampleOptimize false 0 1 (fun _ _ => none) 1000 1000
          7 1 [edge200 500 100]
        = [⟨7, ((toInt (fitSums ieee (edge200 500 100).line).s_x : Int) : ℚ), ((100 : Int) : ℚ),
            7, ((toInt (fitSums ieee (edge200 500 100).line).s_x : Int) : ℚ),
            ((100 + 200 : Int) : ℚ), ControlPoint.X, 0⟩]) :=
  ⟨⟨ieee_roundsInts, by decide!, by decide!, by decide!, by decide!, ieee_accurate,
      by decide!⟩,
   (getVerticalLines_vertical_edge ieee ieee_roundsInts (by decide!) (by decide!) stdSort
      exampleOptimize (fun _ _ => none) 7 1 (edge200 500 100) 500 100 (by decide!)
      (by decide!) (by decide!) (by decide!) (by decide!) (by decide!) (by decide!)
      (by decide!) (by decide!) (by decide!)).1 ieee_accurate (by decide!)⟩



/-! ## Validator: the first filter stage inside `validate` -/

theorem merit_eq_designMerit (m : FloatEnv) (M : ℚ) (cp : ControlPoint) :
    merit m M cp = designMerit m M cp := rfl

/-- C10: in the regime of two or more candidates, when survivors `S` remain and
`maxError = M > 0`, the returned list consists of `min(nrLines, |S|)` of the survivors (with
image numbers set and error zeroed), taken in order of non-decreasing merit
`error/M + (1 - min(length,500)/500)`, `length` being the Euclidean distance between the two
endpoints of the control point, and every survivor left out has a merit at least that of
every survivor returned. -/
theorem validate_merit_selection (m : FloatEnv) (sort : List ControlPoint → List ControlPoint)
    (optimize : List ControlPoint → OptResult) (roll : ℚ) (imgNr nrLines : Nat)
    (detectedLines : List ControlPoint) (S : List ControlPoint) (M : ℚ)
    (hsort : IsStdSort sort) (hlen : detectedLines.length > 1)
    (hf : firstFilter (m.add (optimize detectedLines).mean (m.sqrt (optimize detectedLines).var))
      (optimize detectedLines).cps = (S, M))
    (hS : S ≠ []) (hM : M > 0) :
    ∃ sel rest : List ControlPoint,
      (sel ++ rest).Perm S ∧
      validate m sort optimize roll imgNr nrLines detectedLines = sel.map (finalize imgNr) ∧
      sel.length = min nrLines S.length ∧
      sel.Pairwise (fun a b =>
        m.add (m.div a.error M) (m.sub 1 (m.div (min (m.sqrt
            (m.add (m.mul (m.sub a.x2 a.x1) (m.sub a.x2 a.x1))
              (m.mul (m.sub a.y2 a.y1) (m.sub a.y2 a.y1)))) 500) 500))
          ≤ m.add (m.div b.error M) (m.sub 1 (m.div (min (m.sqrt
            (m.add (m.mul (m.sub b.x2 b.x1) (m.sub b.x2 b.x1))
              (m.mul (m.sub b.y2 b.y1) (m.sub b.y2 b.y1)))) 500) 500))) ∧
      (∀ a ∈ sel, ∀ b ∈ rest, designMerit m M a ≤ designMerit m M b) ∧
      (∀ cp, designMerit m M cp
        = m.add (m.div cp.error M) (m.sub 1 (m.div (min (m.sqrt
            (m.add (m.mul (m.sub cp.x2 cp.x1) (m.sub cp.x2 cp.x1))
              (m.mul (m.sub cp.y2 cp.y1) (m.sub cp.y2 cp.y1)))) 500) 500))) := by
  obtain ⟨hperm, hsorted⟩ := hsort (S.map (setMerit m M))
  obtain ⟨S', hp, e⟩ := perm_map_inv (setMerit m M) hperm S rfl
  have hpw : S'.Pairwise (fun a b => designMerit m M a ≤ designMerit m M b) := by
    rw [e, List.pairwise_map] at hsorted
    exact hsorted.imp (fun h => by
      have h2 := not_lt.1 h
      simpa only [setMerit, merit_eq_designMerit] using h2)
  refine ⟨S'.take nrLines, S'.drop nrLines, ?_, ?_, ?_, ?_, ?_, fun _ => rfl⟩
  · rw [List.take_append_drop]; exact hp
  · unfold validate
    rw [if_pos hlen]
    simp only [hf]
    rw [if_pos ⟨hS, hM⟩, e, ← List.map_take, List.map_map]
    rfl
  · rw [List.length_take, hp.length_eq]
  · exact hpw.sublist (List.take_sublist _ _)
  · intro a ha b hb
    have h := (List.take_append_drop nrLines S') ▸ hpw
    exact (List.pairwise_append.1 h).2.2 a ha b hb

theorem validate_merit_selection_witness :
    (IsStdSort stdSort ∧ exampleCandidates.length > 1 ∧
      firstFilter (ieee.add (exampleOptimize exampleCandidates).mean
          (ieee.sqrt (exampleOptimize exampleCandidates).var))
        (exampleOptimize exampleCandidates).cps
        = ([⟨0, 0, 0, 0, 0, 10, ControlPoint.X, 1⟩, ⟨0, 9, 0, 0, 9, 10, ControlPoint.X, 2⟩], 2)) ∧
    ∃ sel rest : List ControlPoint,
      (sel ++ rest).Perm
        [⟨0, 0, 0, 0, 0, 10, ControlPoint.X, 1⟩, ⟨0, 9, 0, 0, 9, 10, ControlPoint.X, 2⟩] ∧
      validate ieee stdSort exampleOptimize 0 7 1 exampleCandidates
        = sel.map (finalize 7) ∧
      sel.length = 1 ∧
      ∀ a ∈ sel, ∀ b ∈ rest, designMerit ieee 2 a ≤ designMerit ieee 2 b :=
  (fun h => ⟨⟨stdSort_isStdSort, by decide!, by decide!⟩,
    h.elim (fun sel h2 => h2.elim (fun rest h3 =>
      ⟨sel, rest, h3.1, h3.2.1, h3.2.2.1, h3.2.2.2.2.1⟩))⟩)
   (validate_merit_selection ieee stdSort exampleOptimize 0 7 1 exampleCandidates
     [⟨0, 0, 0, 0, 0, 10, ControlPoint.X, 1⟩, ⟨0, 9, 0, 0, 9, 10, ControlPoint.X, 2⟩] 2
     stdSort_isStdSort (by decide!) (by decide!) (by decide!) (by decide!))


/-! ## Accumulated sums of `FitLine`: general error bounds -/

theorem fitSums_foldl_terms (m : FloatEnv) (n : ℚ) (pts : List Point2D) (s0 : FitSums) :
    (pts.foldl (fun s p =>
        ({ s_x := m.add s.s_x (m.div (p.x : ℚ) n)
           s_y := m.add s.s_y (m.div (p.y : ℚ) n)
           s_xy := m.add s.s_xy (m.div (m.mul (p.x : ℚ) (p.y : ℚ)) n)
           s_x2 := m.add s.s_x2 (m.div (m.mul (p.x : ℚ) (p.x : ℚ)) n) } : FitSums)) s0).s_x
        = (pts.map (fun p => m.div (p.x : ℚ) n)).foldl (fun s t => m.round (s + t)) s0.s_x ∧
      (pts.foldl (fun s p =>
        ({ s_x := m.add s.s_x (m.div (p.x : ℚ) n)
           s_y := m.add s.s_y (m.div (p.y : ℚ) n)
           s_xy := m.add s.s_xy (m.div (m.mul (p.x : ℚ) (p.y : ℚ)) n)
           s_x2 := m.add s.s_x2 (m.div (m.mul (p.x : ℚ) (p.x : ℚ)) n) } : FitSums)) s0).s_x2
        = (pts.map (fun p => m.div (m.mul (p.x : ℚ) (p.x : ℚ)) n)).foldl
            (fun s t => m.round (s + t)) s0.s_x2 := by
  induction pts generalizing s0 with
  | nil => exact ⟨rfl, rfl⟩
  | cons p rest ih =>
    rw [List.foldl_cons, List.map_cons, List.map_cons, List.foldl_cons, List.foldl_cons]
    obtain ⟨h1, h2⟩ := ih
      { s_x := m.add s0.s_x (m.div (p.x : ℚ) n)
        s_y := m.add s0.s_y (m.div (p.y : ℚ) n)
        s_xy := m.add s0.s_xy (m.div (m.mul (p.x : ℚ) (p.y : ℚ)) n)
        s_x2 := m.add s0.s_x2 (m.div (m.mul (p.x : ℚ) (p.x : ℚ)) n) }
    rw [h1, h2]
    exact ⟨rfl, rfl⟩

theorem foldl_round_sum_bounds {m : FloatEnv} (hacc : Accurate m) (ts : List ℚ)
    (hts : ∀ t ∈ ts, 0 ≤ t) (s0 A : ℚ) (k : Nat) (hA : 0 ≤ A)
    (h0 : A * (1 - 1 / 2 ^ 53) ^ k ≤ s0) (h1 : s0 ≤ A * (1 + 1 / 2 ^ 53) ^ k) :
    (A + ts.sum) * (1 - 1 / 2 ^ 53) ^ (k + ts.length)
        ≤ ts.foldl (fun s t => m.round (s + t)) s0 ∧
      ts.foldl (fun s t => m.round (s + t)) s0
        ≤ (A + ts.sum) * (1 + 1 / 2 ^ 53) ^ (k + ts.length) := by
  induction ts generalizing s0 A k with
  | nil =>
    simp only [List.sum_nil, add_zero, List.length_nil, List.foldl_nil]
    exact ⟨h0, h1⟩
  | cons t rest ih =>
    rw [List.foldl_cons, List.length_cons, List.sum_cons]
    have hk1 : k + (rest.length + 1) = (k + 1) + rest.length := by omega
    have hs1 : A + (t + rest.sum) = (A + t) + rest.sum := by ring
    rw [hk1, hs1]
    have ht : 0 ≤ t := hts t (List.mem_cons_self _ _)
    have hrest : ∀ u ∈ rest, 0 ≤ u := fun u hu => hts u (List.mem_cons_of_mem _ hu)
    obtain ⟨e, he⟩ : ∃ e : ℚ, e = 1 / 2 ^ 53 := ⟨_, rfl⟩
    have he0 : 0 < e := by rw [he]; positivity
    have he1 : e < 1 / 1000 := by rw [he]; norm_num
    rw [← he] at h0 h1
    have hlo : 0 ≤ (1 - e) ^ k := pow_nonneg (by linarith) k
    have hlo1 : (1 - e) ^ k ≤ 1 := pow_le_one₀ (by linarith) (by linarith)
    have hhi1 : 1 ≤ (1 + e) ^ k := one_le_pow₀ (by linarith)
    have hs0 : 0 ≤ s0 := le_trans (mul_nonneg hA hlo) h0
    obtain ⟨hr1, hr2⟩ := round_bounds hacc (add_nonneg hs0 ht)
    rw [← he] at hr1 hr2
    apply ih hrest _ _ _ (add_nonneg hA ht)
    · rw [← he]
      calc (A + t) * (1 - e) ^ (k + 1)
          = (A * (1 - e) ^ k + t * (1 - e) ^ k) * (1 - e) := by rw [pow_succ]; ring
        _ ≤ (s0 + t) * (1 - e) := by
            apply mul_le_mul_of_nonneg_right _ (by linarith)
            have : t * (1 - e) ^ k ≤ t := by
              calc t * (1 - e) ^ k ≤ t * 1 := mul_le_mul_of_nonneg_left hlo1 ht
                _ = t := mul_one t
            linarith
        _ ≤ _ := hr1
    · rw [← he]
      calc m.round (s0 + t) ≤ (s0 + t) * (1 + e) := hr2
        _ ≤ (A * (1 + e) ^ k + t * (1 + e) ^ k) * (1 + e) := by
            apply mul_le_mul_of_nonneg_right _ (by linarith)
            have : t ≤ t * (1 + e) ^ k := by
              calc t = t * 1 := (mul_one t).symm
                _ ≤ t * (1 + e) ^ k := mul_le_mul_of_nonneg_left hhi1 ht
            linarith
        _ = (A + t) * (1 + e) ^ (k + 1) := by rw [pow_succ]; ring

theorem foldl_round_list_bounds {m : FloatEnv} (hacc : Accurate m) (ts : List ℚ) (v : ℚ)
    (hv : 0 ≤ v) (hts : ∀ t ∈ ts, 0 ≤ t) (hlen : ts.length ≤ 4000)
    (hlo : v * ((1 - 1 / 2 ^ 53) * (1 - 1 / 2 ^ 53)) ≤ ts.sum)
    (hhi : ts.sum ≤ v * ((1 + 1 / 2 ^ 53) * (1 + 1 / 2 ^ 53))) :
    v * (1 - 8004 / 2 ^ 53) ≤ ts.foldl (fun s t => m.round (s + t)) 0 ∧
      ts.foldl (fun s t => m.round (s + t)) 0 ≤ v * (1 + 8004 / 2 ^ 53) := by
  obtain ⟨hb1, hb2⟩ := foldl_round_sum_bounds hacc ts hts 0 0 0 (le_refl 0)
    (by simp) (by simp)
  rw [Nat.zero_add, zero_add] at hb1 hb2
  obtain ⟨e, he⟩ : ∃ e : ℚ, e = 1 / 2 ^ 53 := ⟨_, rfl⟩
  have he0 : 0 < e := by rw [he]; positivity
  have he1 : e < 1 / 100000000 := by rw [he]; norm_num
  have hd : (8004 : ℚ) / 2 ^ 53 = 8004 * e := by rw [he]; ring
  rw [← he] at hb1 hb2 hlo hhi
  rw [hd]
  have hnq : (ts.length : ℚ) ≤ 4000 := by exact_mod_cast hlen
  have hn0 : (0 : ℚ) ≤ (ts.length : ℚ) := Nat.cast_nonneg _
  have hplo : 0 ≤ (1 - e) ^ ts.length := pow_nonneg (by linarith) _
  have hphi : 0 ≤ (1 + e) ^ ts.length := pow_nonneg (by linarith) _
  constructor
  · have hp := pow_one_sub_ge e (le_of_lt he0) (by linarith) (ts.length + 2)
    push_cast at hp
    calc v * (1 - 8004 * e) ≤ v * (1 - e) ^ (ts.length + 2) := by
          apply mul_le_mul_of_nonneg_left _ hv
          refine le_trans ?_ hp
          nlinarith
      _ = v * ((1 - e) * (1 - e)) * (1 - e) ^ ts.length := by rw [pow_add]; ring
      _ ≤ ts.sum * (1 - e) ^ ts.length := mul_le_mul_of_nonneg_right hlo hplo
      _ ≤ _ := hb1
  · have hp := pow_one_add_le e (le_of_lt he0) (ts.length + 2) (by push_cast; nlinarith)
    push_cast at hp
    calc ts.foldl (fun s t => m.round (s + t)) 0 ≤ ts.sum * (1 + e) ^ ts.length := hb2
      _ ≤ v * ((1 + e) * (1 + e)) * (1 + e) ^ ts.length :=
          mul_le_mul_of_nonneg_right hhi hphi
      _ = v * (1 + e) ^ (ts.length + 2) := by rw [pow_add]; ring
      _ ≤ v * (1 + 8004 * e) := by
          apply mul_le_mul_of_nonneg_left _ hv
          refine le_trans hp ?_
          nlinarith

theorem sum_map_mul_const (pts : List Point2D) (f : Point2D → ℚ) (c : ℚ) :
    (pts.map (fun p => f p * c)).sum = (pts.map f).sum * c := by
  induction pts with
  | nil => simp
  | cons a t ih => rw [List.map_cons, List.sum_cons, ih, List.map_cons, List.sum_cons]; ring

theorem sum_map_le_of_le (pts : List Point2D) (f g : Point2D → ℚ)
    (h : ∀ p ∈ pts, f p ≤ g p) : (pts.map f).sum ≤ (pts.map g).sum := by
  induction pts with
  | nil => simp
  | cons a t ih =>
    rw [List.map_cons, List.sum_cons, List.map_cons, List.sum_cons]
    exact add_le_add (h a (List.mem_cons_self _ _))
      (ih (fun p hp => h p (List.mem_cons_of_mem _ hp)))


theorem meanX_nonneg_le (pts : List Point2D) (hne : 1 ≤ pts.length)
    (hx0 : ∀ p ∈ pts, 0 ≤ p.x) (hx1 : ∀ p ∈ pts, p.x < 1600) :
    (0 ≤ meanX pts ∧ meanX pts ≤ 1599) ∧ (0 ≤ meanX2 pts ∧ meanX2 pts ≤ 1599 * 1599) := by
  have hnq : (0 : ℚ) < (pts.length : ℚ) := by exact_mod_cast hne
  have hq0 : ∀ p ∈ pts, (0 : ℚ) ≤ (p.x : ℚ) := fun p hp => by exact_mod_cast hx0 p hp
  have hq1 : ∀ p ∈ pts, (p.x : ℚ) ≤ 1599 := fun p hp => by
    have : p.x ≤ 1599 := by have := hx1 p hp; omega
    exact_mod_cast this
  have hc : ∀ c : ℚ, (pts.map (fun _ => c)).sum = (pts.length : ℚ) * c :=
    fun c => sum_map_of_const pts _ c (fun _ _ => rfl)
  unfold meanX meanX2
  refine ⟨⟨?_, ?_⟩, ?_, ?_⟩
  · apply div_nonneg _ (le_of_lt hnq)
    have := sum_map_le_of_le pts (fun _ => 0) (fun p => (p.x : ℚ)) hq0
    rw [hc, mul_zero] at this
    exact this
  · rw [div_le_iff₀ hnq]
    have := sum_map_le_of_le pts (fun p => (p.x : ℚ)) (fun _ => 1599) hq1
    rw [hc] at this
    linarith
  · apply div_nonneg _ (le_of_lt hnq)
    have := sum_map_le_of_le pts (fun _ => 0) (fun p => (p.x : ℚ) * (p.x : ℚ))
      (fun p hp => mul_nonneg (hq0 p hp) (hq0 p hp))
    rw [hc, mul_zero] at this
    exact this
  · rw [div_le_iff₀ hnq]
    have := sum_map_le_of_le pts (fun p => (p.x : ℚ) * (p.x : ℚ)) (fun _ => 1599 * 1599)
      (fun p hp => mul_le_mul (hq1 p hp) (hq1 p hp) (hq0 p hp) (by norm_num))
    rw [hc] at this
    linarith

theorem fitSums_bounds {m : FloatEnv} (hacc : Accurate m) (pts : List Point2D)
    (hx0 : ∀ p ∈ pts, 0 ≤ p.x) (hne : 1 ≤ pts.length) (hlen : pts.length ≤ 4000) :
    (meanX pts * (1 - 8004 / 2 ^ 53) ≤ (fitSums m pts).s_x ∧
      (fitSums m pts).s_x ≤ meanX pts * (1 + 8004 / 2 ^ 53)) ∧
    (meanX2 pts * (1 - 8004 / 2 ^ 53) ≤ (fitSums m pts).s_x2 ∧
      (fitSums m pts).s_x2 ≤ meanX2 pts * (1 + 8004 / 2 ^ 53)) := by
  have hnq : (0 : ℚ) < (pts.length : ℚ) := by exact_mod_cast hne
  have hq0 : ∀ p ∈ pts, (0 : ℚ) ≤ (p.x : ℚ) := fun p hp => by exact_mod_cast hx0 p hp
  have hqq0 : ∀ p ∈ pts, (0 : ℚ) ≤ (p.x : ℚ) * (p.x : ℚ) :=
    fun p hp => mul_nonneg (hq0 p hp) (hq0 p hp)
  have e1 : (1 : ℚ) - 1 / 2 ^ 53 ≤ 1 := by norm_num
  have e2 : (0 : ℚ) ≤ 1 - 1 / 2 ^ 53 := by norm_num
  have e3 : (1 : ℚ) ≤ 1 + 1 / 2 ^ 53 := by norm_num
  have e4 : (0 : ℚ) ≤ 1 + 1 / 2 ^ 53 := by norm_num
  have hsq1 : (1 - 1 / 2 ^ 53 : ℚ) * (1 - 1 / 2 ^ 53) ≤ 1 - 1 / 2 ^ 53 := by norm_num
  have hsq2 : (1 + 1 / 2 ^ 53 : ℚ) ≤ (1 + 1 / 2 ^ 53) * (1 + 1 / 2 ^ 53) := by norm_num
  obtain ⟨h1, h2⟩ := fitSums_foldl_terms m (pts.length : ℚ) pts ⟨0, 0, 0, 0⟩
  have hmean : 0 ≤ meanX pts := by
    unfold meanX
    apply div_nonneg _ (le_of_lt hnq)
    have := sum_map_le_of_le pts (fun _ => 0) (fun p => (p.x : ℚ)) hq0
    rw [sum_map_of_const pts _ 0 (fun _ _ => rfl), mul_zero] at this
    exact this
  have hmean2 : 0 ≤ meanX2 pts := by
    unfold meanX2
    apply div_nonneg _ (le_of_lt hnq)
    have := sum_map_le_of_le pts (fun _ => 0) (fun p => (p.x : ℚ) * (p.x : ℚ)) hqq0
    rw [sum_map_of_const pts _ 0 (fun _ _ => rfl), mul_zero] at this
    exact this
  have hmx : ∀ c : ℚ, (pts.map (fun p => (p.x : ℚ) / (pts.length : ℚ) * c)).sum
      = meanX pts * c := by
    intro c
    unfold meanX
    rw [sum_map_mul_const pts (fun p => (p.x : ℚ) / (pts.length : ℚ)) c]
    have : (pts.map (fun p => (p.x : ℚ) / (pts.length : ℚ))).sum
        = (pts.map (fun p => (p.x : ℚ))).sum / (pts.length : ℚ) := by
      simp only [div_eq_mul_inv]
      exact sum_map_mul_const pts (fun p => (p.x : ℚ)) _
    rw [this]
  have hmx2 : ∀ c : ℚ,
      (pts.map (fun p => (p.x : ℚ) * (p.x : ℚ) / (pts.length : ℚ) * c)).sum
      = meanX2 pts * c := by
    intro c
    unfold meanX2
    rw [sum_map_mul_const pts (fun p => (p.x : ℚ) * (p.x : ℚ) / (pts.length : ℚ)) c]
    have : (pts.map (fun p => (p.x : ℚ) * (p.x : ℚ) / (pts.length : ℚ))).sum
        = (pts.map (fun p => (p.x : ℚ) * (p.x : ℚ))).sum / (pts.length : ℚ) := by
      simp only [div_eq_mul_inv]
      exact sum_map_mul_const pts (fun p => (p.x : ℚ) * (p.x : ℚ)) _
    rw [this]
  have hterm : ∀ p ∈ pts,
      (p.x : ℚ) / (pts.length : ℚ) * (1 - 1 / 2 ^ 53) ≤ m.div (p.x : ℚ) (pts.length : ℚ) ∧
      m.div (p.x : ℚ) (pts.length : ℚ) ≤ (p.x : ℚ) / (pts.length : ℚ) * (1 + 1 / 2 ^ 53) :=
    fun p hp => round_bounds hacc (div_nonneg (hq0 p hp) (le_of_lt hnq))
  have hterm2 : ∀ p ∈ pts,
      (p.x : ℚ) * (p.x : ℚ) / (pts.length : ℚ) * ((1 - 1 / 2 ^ 53) * (1 - 1 / 2 ^ 53))
        ≤ m.div (m.mul (p.x : ℚ) (p.x : ℚ)) (pts.length : ℚ) ∧
      m.div (m.mul (p.x : ℚ) (p.x : ℚ)) (pts.length : ℚ)
        ≤ (p.x : ℚ) * (p.x : ℚ) / (pts.length : ℚ)
          * ((1 + 1 / 2 ^ 53) * (1 + 1 / 2 ^ 53)) := by
    intro p hp
    obtain ⟨hm1, hm2⟩ := round_bounds hacc (hqq0 p hp)
    have hm0 : 0 ≤ m.round ((p.x : ℚ) * (p.x : ℚ)) :=
      le_trans (mul_nonneg (hqq0 p hp) e2) hm1
    obtain ⟨hr1, hr2⟩ := round_bounds hacc (div_nonneg hm0 (le_of_lt hnq))
    unfold FloatEnv.div FloatEnv.mul
    constructor
    · refine le_trans ?_ hr1
      calc (p.x : ℚ) * (p.x : ℚ) / (pts.length : ℚ) * ((1 - 1 / 2 ^ 53) * (1 - 1 / 2 ^ 53))
          = (p.x : ℚ) * (p.x : ℚ) * (1 - 1 / 2 ^ 53) / (pts.length : ℚ) * (1 - 1 / 2 ^ 53) := by
            ring
        _ ≤ m.round ((p.x : ℚ) * (p.x : ℚ)) / (pts.length : ℚ) * (1 - 1 / 2 ^ 53) :=
            mul_le_mul_of_nonneg_right (div_le_div_of_nonneg_right hm1 (le_of_lt hnq)) e2
    · refine le_trans hr2 ?_
      calc m.round ((p.x : ℚ) * (p.x : ℚ)) / (pts.length : ℚ) * (1 + 1 / 2 ^ 53)
          ≤ (p.x : ℚ) * (p.x : ℚ) * (1 + 1 / 2 ^ 53) / (pts.length : ℚ) * (1 + 1 / 2 ^ 53) :=
            mul_le_mul_of_nonneg_right (div_le_div_of_nonneg_right hm2 (le_of_lt hnq)) e4
        _ = _ := by ring
  unfold fitSums
  dsimp only at h1 h2 ⊢
  rw [h1, h2]
  constructor
  · apply foldl_round_list_bounds hacc _ (meanX pts) hmean
    · intro t ht
      obtain ⟨p, hp, rfl⟩ := List.mem_map.1 ht
      exact le_trans (mul_nonneg (div_nonneg (hq0 p hp) (le_of_lt hnq)) e2) (hterm p hp).1
    · rw [List.length_map]; exact hlen
    · refine le_trans (mul_le_mul_of_nonneg_left hsq1 hmean) ?_
      rw [← hmx]
      exact sum_map_le_of_le pts _ _ (fun p hp => (hterm p hp).1)
    · refine le_trans ?_ (mul_le_mul_of_nonneg_left hsq2 hmean)
      rw [← hmx]
      exact sum_map_le_of_le pts _ _ (fun p hp => (hterm p hp).2)
  · apply foldl_round_list_bounds hacc _ (meanX2 pts) hmean2
    · intro t ht
      obtain ⟨p, hp, rfl⟩ := List.mem_map.1 ht
      exact le_trans (mul_nonneg (div_nonneg (hqq0 p hp) (le_of_lt hnq))
        (mul_nonneg e2 e2)) (hterm2 p hp).1
    · rw [List.length_map]; exact hlen
    · rw [← hmx2]
      exact sum_map_le_of_le pts _ _ (fun p hp => (hterm2 p hp).1)
    · rw [← hmx2]
      exact sum_map_le_of_le pts _ _ (fun p hp => (hterm2 p hp).2)


theorem computed_variance_close {m : FloatEnv} (hacc : Accurate m) (M1 M2 s s2 : ℚ)
    (hM1 : 0 ≤ M1 ∧ M1 ≤ 1599) (hM2 : 0 ≤ M2 ∧ M2 ≤ 1599 * 1599)
    (hs : M1 * (1 - 8004 / 2 ^ 53) ≤ s ∧ s ≤ M1 * (1 + 8004 / 2 ^ 53))
    (hs2 : M2 * (1 - 8004 / 2 ^ 53) ≤ s2 ∧ s2 ≤ M2 * (1 + 8004 / 2 ^ 53)) :
    |m.sub s2 (m.mul s s) - (M2 - M1 * M1)| ≤ 7 / 1000000 := by
  obtain ⟨hslo, hshi⟩ := hs
  obtain ⟨h2lo, h2hi⟩ := hs2
  obtain ⟨hM10, hM11⟩ := hM1
  obtain ⟨hM20, hM21⟩ := hM2
  have hlo0 : 0 ≤ M1 * (1 - 8004 / 2 ^ 53) := mul_nonneg hM10 (by norm_num)
  have hs0 : 0 ≤ s := le_trans hlo0 hslo
  have hY0 : 0 ≤ M1 * M1 := mul_nonneg hM10 hM10
  have hY1 : M1 * M1 ≤ 1599 * 1599 := mul_le_mul hM11 hM11 hM10 (by norm_num)
  have hsslo : M1 * (1 - 8004 / 2 ^ 53) * (M1 * (1 - 8004 / 2 ^ 53)) ≤ s * s :=
    mul_le_mul hslo hslo hlo0 hs0
  have hsshi : s * s ≤ M1 * (1 + 8004 / 2 ^ 53) * (M1 * (1 + 8004 / 2 ^ 53)) :=
    mul_le_mul hshi hshi hs0 (le_trans hs0 hshi)
  obtain ⟨hp1, hp2⟩ := round_bounds hacc (mul_nonneg hs0 hs0)
  have hplo : M1 * M1 * ((1 - 8004 / 2 ^ 53) * (1 - 8004 / 2 ^ 53) * (1 - 1 / 2 ^ 53))
      ≤ m.round (s * s) := by
    refine le_trans ?_ hp1
    calc M1 * M1 * ((1 - 8004 / 2 ^ 53) * (1 - 8004 / 2 ^ 53) * (1 - 1 / 2 ^ 53))
        = M1 * (1 - 8004 / 2 ^ 53) * (M1 * (1 - 8004 / 2 ^ 53)) * (1 - 1 / 2 ^ 53) := by ring
      _ ≤ s * s * (1 - 1 / 2 ^ 53) := mul_le_mul_of_nonneg_right hsslo (by norm_num)
  have hphi : m.round (s * s)
      ≤ M1 * M1 * ((1 + 8004 / 2 ^ 53) * (1 + 8004 / 2 ^ 53) * (1 + 1 / 2 ^ 53)) := by
    refine le_trans hp2 ?_
    calc s * s * (1 + 1 / 2 ^ 53)
        ≤ M1 * (1 + 8004 / 2 ^ 53) * (M1 * (1 + 8004 / 2 ^ 53)) * (1 + 1 / 2 ^ 53) :=
          mul_le_mul_of_nonneg_right hsshi (by norm_num)
      _ = _ := by ring
  have k1 : (1 + 8004 / 2 ^ 53 : ℚ) * (1 + 8004 / 2 ^ 53) * (1 + 1 / 2 ^ 53) - 1
      ≤ 16010 / 2 ^ 53 := by norm_num
  have k2 : (1 : ℚ) - (1 - 8004 / 2 ^ 53) * (1 - 8004 / 2 ^ 53) * (1 - 1 / 2 ^ 53)
      ≤ 16010 / 2 ^ 53 := by norm_num
  have m1 := mul_le_mul_of_nonneg_left k1 hY0
  have m2 := mul_le_mul_of_nonneg_left k2 hY0
  have m3 : M1 * M1 * (16010 / 2 ^ 53) ≤ 1599 * 1599 * (16010 / 2 ^ 53) :=
    mul_le_mul_of_nonneg_right hY1 (by norm_num)
  have m4 : M2 * (8004 / 2 ^ 53) ≤ 1599 * 1599 * (8004 / 2 ^ 53) :=
    mul_le_mul_of_nonneg_right hM21 (by norm_num)
  have hD : |s2 - m.round (s * s) - (M2 - M1 * M1)| ≤ 1599 * 1599 * (24014 / 2 ^ 53) := by
    rw [abs_le]
    constructor
    · linarith
    · linarith
  have hV : |M2 - M1 * M1| ≤ 1599 * 1599 := by
    rw [abs_le]
    constructor
    · linarith
    · linarith
  have hDabs : |s2 - m.round (s * s)| ≤ 1599 * 1599 + 1599 * 1599 * (24014 / 2 ^ 53) := by
    have h3 := abs_sub_abs_le_abs_sub (s2 - m.round (s * s)) (M2 - M1 * M1)
    linarith
  have hr := hacc (s2 - m.round (s * s))
  have hr2 : |s2 - m.round (s * s)| / 2 ^ 53
      ≤ (1599 * 1599 + 1599 * 1599 * (24014 / 2 ^ 53)) / 2 ^ 53 :=
    div_le_div_of_nonneg_right hDabs (by norm_num)
  unfold FloatEnv.sub FloatEnv.mul
  have htri : |m.round (s2 - m.round (s * s)) - (M2 - M1 * M1)|
      ≤ |m.round (s2 - m.round (s * s)) - (s2 - m.round (s * s))|
        + |s2 - m.round (s * s) - (M2 - M1 * M1)| := by
    have := abs_add (m.round (s2 - m.round (s * s)) - (s2 - m.round (s * s)))
      (s2 - m.round (s * s) - (M2 - M1 * M1))
    rw [sub_add_sub_cancel] at this
    exact this
  have hfin : ((1599 : ℚ) * 1599 + 1599 * 1599 * (24014 / 2 ^ 53)) / 2 ^ 53
      + 1599 * 1599 * (24014 / 2 ^ 53) ≤ 7 / 1000000 := by norm_num
  linarith


/-! ## The x-variance of integer points -/

theorem sum_sq_dev (pts : List Point2D) (μ : ℚ) :
    (pts.map (fun p => ((p.x : ℚ) - μ) * ((p.x : ℚ) - μ))).sum
      = (pts.map (fun p => (p.x : ℚ) * (p.x : ℚ))).sum
        - 2 * μ * (pts.map (fun p => (p.x : ℚ))).sum + (pts.length : ℚ) * (μ * μ) := by
  induction pts with
  | nil => simp
  | cons a t ih =>
    simp only [List.map_cons, List.sum_cons, List.length_cons, ih]
    push_cast
    ring

theorem varX_eq_mean_sq_dev (pts : List Point2D) (hne : 1 ≤ pts.length) :
    varX pts
      = (pts.map (fun p => ((p.x : ℚ) - meanX pts) * ((p.x : ℚ) - meanX pts))).sum
        / (pts.length : ℚ) := by
  have hnq : ((pts.length : Nat) : ℚ) ≠ 0 := by
    have : (0 : ℚ) < (pts.length : ℚ) := by exact_mod_cast hne
    exact ne_of_gt this
  rw [sum_sq_dev]
  unfold varX meanX2 meanX
  field_simp
  ring

theorem meanX_of_const (pts : List Point2D) (x : Int) (hne : 1 ≤ pts.length)
    (hx : ∀ p ∈ pts, p.x = x) :
    meanX pts = (x : ℚ) ∧ meanX2 pts = (x : ℚ) * (x : ℚ) ∧ varX pts = 0 := by
  have hnq : ((pts.length : Nat) : ℚ) ≠ 0 := by
    have : (0 : ℚ) < (pts.length : ℚ) := by exact_mod_cast hne
    exact ne_of_gt this
  have hmx : meanX pts = (x : ℚ) := by
    unfold meanX
    rw [sum_map_of_const pts _ (x : ℚ) (fun p hp => by rw [hx p hp])]
    field_simp
  have hmx2 : meanX2 pts = (x : ℚ) * (x : ℚ) := by
    unfold meanX2
    rw [sum_map_of_const pts _ ((x : ℚ) * (x : ℚ)) (fun p hp => by rw [hx p hp])]
    field_simp
  refine ⟨hmx, hmx2, ?_⟩
  unfold varX
  rw [hmx, hmx2, sub_self]

theorem varX_lower (pts : List Point2D) (hne : 1 ≤ pts.length) (p q : Point2D)
    (hp : p ∈ pts) (hq : q ∈ pts) (hpq : p.x ≠ q.x) :
    1 / (4 * (pts.length : ℚ)) ≤ varX pts := by
  have hnq : (0 : ℚ) < (pts.length : ℚ) := by exact_mod_cast hne
  rw [varX_eq_mean_sq_dev pts hne, div_le_div_iff₀ (by linarith) hnq]
  have hnn : ∀ t ∈ pts.map (fun r => ((r.x : ℚ) - meanX pts) * ((r.x : ℚ) - meanX pts)),
      (0 : ℚ) ≤ t := by
    intro t ht
    obtain ⟨r, _, rfl⟩ := List.mem_map.1 ht
    exact mul_self_nonneg _
  have hmem : ∀ r ∈ pts, ((r.x : ℚ) - meanX pts) * ((r.x : ℚ) - meanX pts)
      ≤ (pts.map (fun r => ((r.x : ℚ) - meanX pts) * ((r.x : ℚ) - meanX pts))).sum :=
    fun r hr => List.single_le_sum hnn _ (List.mem_map.2 ⟨r, hr, rfl⟩)
  have hdiff : (1 : ℚ) ≤ |(p.x : ℚ) - (q.x : ℚ)| := by
    have h1 : (1 : Int) ≤ |p.x - q.x| := Int.one_le_abs (sub_ne_zero.2 hpq)
    have h2 : ((1 : Int) : ℚ) ≤ ((|p.x - q.x| : Int) : ℚ) := by exact_mod_cast h1
    push_cast at h2
    exact h2
  have hquarter : (1 : ℚ) / 4 ≤ ((p.x : ℚ) - meanX pts) * ((p.x : ℚ) - meanX pts) ∨
      (1 : ℚ) / 4 ≤ ((q.x : ℚ) - meanX pts) * ((q.x : ℚ) - meanX pts) := by
    by_contra hcon
    push_neg at hcon
    obtain ⟨ha, hb⟩ := hcon
    have ha2 : |(p.x : ℚ) - meanX pts| < 1 / 2 := by
      rw [abs_lt]
      constructor <;> nlinarith
    have hb2 : |(q.x : ℚ) - meanX pts| < 1 / 2 := by
      rw [abs_lt]
      constructor <;> nlinarith
    have htri : |(p.x : ℚ) - (q.x : ℚ)|
        ≤ |(p.x : ℚ) - meanX pts| + |(q.x : ℚ) - meanX pts| := by
      have := abs_sub_le (p.x : ℚ) (meanX pts) (q.x : ℚ)
      rw [abs_sub_comm (meanX pts) (q.x : ℚ)] at this
      exact this
    linarith
  have hS : (1 : ℚ) / 4
      ≤ (pts.map (fun r => ((r.x : ℚ) - meanX pts) * ((r.x : ℚ) - meanX pts))).sum := by
    rcases hquarter with h | h
    · exact le_trans h (hmem p hp)
    · exact le_trans h (hmem q hq)
  have hS2 := mul_le_mul_of_nonneg_right hS (le_of_lt hnq)
  linarith

theorem const_x_of_small_variance (pts : List Point2D) (hne : pts ≠ [])
    (hlen : pts.length ≤ 4000) (hvar : |varX pts| < 1 / 100000) :
    ∀ p ∈ pts, p.x = (pts.head hne).x := by
  intro p hp
  by_contra hcon
  have hpos : 1 ≤ pts.length := List.length_pos.2 hne
  have hnq : (0 : ℚ) < (pts.length : ℚ) := by exact_mod_cast hpos
  have hnq2 : (pts.length : ℚ) ≤ 4000 := by exact_mod_cast hlen
  have h := varX_lower pts hpos p (pts.head hne) hp (List.head_mem hne) hcon
  have h2 : (1 : ℚ) / 16000 ≤ 1 / (4 * (pts.length : ℚ)) := by
    rw [div_le_div_iff₀ (by norm_num) (by linarith)]
    linarith
  have h3 := (abs_lt.1 hvar).2
  linarith

theorem variance_lower_of_not_small (pts : List Point2D) (hne : pts ≠ [])
    (hlen : pts.length ≤ 4000) (hvar : ¬ |varX pts| < 1 / 100000) :
    1 / 16000 ≤ varX pts := by
  have hpos : 1 ≤ pts.length := List.length_pos.2 hne
  have hnq : (0 : ℚ) < (pts.length : ℚ) := by exact_mod_cast hpos
  have hnq2 : (pts.length : ℚ) ≤ 4000 := by exact_mod_cast hlen
  by_cases hall : ∀ p ∈ pts, p.x = (pts.head hne).x
  · exfalso
    apply hvar
    rw [(meanX_of_const pts _ hpos hall).2.2, abs_zero]
    norm_num
  · push_neg at hall
    obtain ⟨p, hp, hpx⟩ := hall
    have h := varX_lower pts hpos p (pts.head hne) hp (List.head_mem hne) hpx
    have h2 : (1 : ℚ) / 16000 ≤ 1 / (4 * (pts.length : ℚ)) := by
      rw [div_le_div_iff₀ (by norm_num) (by linarith)]
      linarith
    linarith


/-! ## FitLine on points sharing one x, in binary64-accurate arithmetic -/

theorem toInt_of_mean_bounds (x : Int) (s : ℚ) (hx0 : 0 ≤ x) (hx1 : x < 1600)
    (hs : (x : ℚ) * (1 - 8004 / 2 ^ 53) ≤ s ∧ s ≤ (x : ℚ) * (1 + 8004 / 2 ^ 53)) :
    toInt s = x ∨ toInt s = x - 1 := by
  obtain ⟨hslo, hshi⟩ := hs
  have hX0 : (0 : ℚ) ≤ (x : ℚ) := by exact_mod_cast hx0
  have hX1 : (x : ℚ) ≤ 1599 := by
    have : x ≤ 1599 := by omega
    exact_mod_cast this
  have hs0 : 0 ≤ s := le_trans (mul_nonneg hX0 (by norm_num)) hslo
  rw [toInt_of_nonneg hs0]
  have h1 : ⌊s⌋ < x + 1 := by
    rw [Int.floor_lt]
    push_cast
    nlinarith
  have h2 : x - 1 ≤ ⌊s⌋ := by
    rw [Int.le_floor]
    push_cast
    nlinarith
  omega

/-- C5 (counterexample): the ten points `(1, 0), ..., (1, 9)` share `x = 1`, so their
x-variance is 0 and their mean x is 1; with binary64 rounding the accumulated sum of ten times
`1.0/10` is `0.9999999999999999`, the variance test passes, and `FitLine` returns the segment
from `(0, 0)` to `(0, 9)`: the x of both endpoints is 0, not the mean x. -/
theorem FitLine_tenPointLine_ieee :
    tenPointLine.line ≠ [] ∧ |varX tenPointLine.line| < 1 / 100000 ∧
      meanX tenPointLine.line = 1 ∧
      (fitSums ieee tenPointLine.line).s_x = 9007199254740991 / 9007199254740992 ∧
      FitLine ieee tenPointLine = ⟨⟨0, 0⟩, ⟨0, 9⟩⟩ ∧
      (((FitLine ieee tenPointLine).m_start.x : Int) : ℚ) ≠ meanX tenPointLine.line := by
  decide!

/-- C5 (amended): for every non-empty RawLine of at most 4000 integer points with x
coordinates in `[0, 1600)` (the pixel columns of an image resized to `MAX_RESIZE_DIM`) whose
x-variance is below 0.00001 in absolute value, all points share one x, which is the mean x,
and in binary64-accurate arithmetic `FitLine` returns the segment from `(t, y of the first
point)` to `(t, y of the last point)`: both endpoints have the same x, namely the accumulated
mean converted to `int`, which is the mean x or the mean x minus 1; in exact arithmetic it is
the mean x. -/
theorem FitLine_vertical_segment (m : FloatEnv) (hacc : Accurate m) (line : SingleLine)
    (hne : line.line ≠ []) (hlen : line.line.length ≤ 4000)
    (hx0 : ∀ p ∈ line.line, 0 ≤ p.x) (hx1 : ∀ p ∈ line.line, p.x < 1600)
    (hvar : |varX line.line| < 1 / 100000) :
    ∃ x : Int, (∀ p ∈ line.line, p.x = x) ∧ meanX line.line = (x : ℚ) ∧
      FitLine m line
        = ⟨⟨toInt (fitSums m line.line).s_x, (line.line.head hne).y⟩,
           ⟨toInt (fitSums m line.line).s_x, (line.line.getLast hne).y⟩⟩ ∧
      (toInt (fitSums m line.line).s_x = x ∨ toInt (fitSums m line.line).s_x = x - 1) ∧
      (Exact m → toInt (fitSums m line.line).s_x = x) := by
  have hpos : 1 ≤ line.line.length := List.length_pos.2 hne
  have hconst := const_x_of_small_variance line.line hne hlen hvar
  have hh0 : 0 ≤ (line.line.head hne).x := hx0 _ (List.head_mem hne)
  have hh1 : (line.line.head hne).x < 1600 := hx1 _ (List.head_mem hne)
  obtain ⟨hmx, hmx2, _⟩ := meanX_of_const line.line _ hpos hconst
  have hb := fitSums_bounds hacc line.line hx0 hpos hlen
  rw [hmx, hmx2] at hb
  have hX0 : (0 : ℚ) ≤ ((line.line.head hne).x : ℚ) := by exact_mod_cast hh0
  have hX1 : ((line.line.head hne).x : ℚ) ≤ 1599 := by
    have : (line.line.head hne).x ≤ 1599 := by omega
    exact_mod_cast this
  have hclose := computed_variance_close hacc ((line.line.head hne).x : ℚ)
    (((line.line.head hne).x : ℚ) * ((line.line.head hne).x : ℚ)) _ _ ⟨hX0, hX1⟩
    ⟨mul_nonneg hX0 hX0, mul_le_mul hX1 hX1 hX0 (by norm_num)⟩ hb.1 hb.2
  rw [sub_self, sub_zero] at hclose
  have htest : |m.sub (fitSums m line.line).s_x2
      (m.mul (fitSums m line.line).s_x (fitSums m line.line).s_x)| < 1 / 100000 :=
    lt_of_le_of_lt hclose (by norm_num)
  have hfit := FitLine_of_test_pass m line htest
  rw [getD_zero_eq_head _ hne, getD_last_eq_getLast _ hne] at hfit
  refine ⟨(line.line.head hne).x, hconst, hmx, hfit,
    toInt_of_mean_bounds _ _ hh0 hh1 hb.1, ?_⟩
  intro hex
  rw [fitSums_eq_means m hex]
  show toInt (meanX line.line) = _
  rw [hmx, toInt_intCast]

theorem FitLine_vertical_segment_witness :
    ((vertLine 70 0 50).line ≠ [] ∧ (vertLine 70 0 50).line.length ≤ 4000 ∧
      (∀ p ∈ (vertLine 70 0 50).line, 0 ≤ p.x) ∧
      (∀ p ∈ (vertLine 70 0 50).line, p.x < 1600) ∧
      |varX (vertLine 70 0 50).line| < 1 / 100000) ∧
    ∃ x : Int, (∀ p ∈ (vertLine 70 0 50).line, p.x = x) ∧
      meanX (vertLine 70 0 50).line = (x : ℚ) ∧
      FitLine ieee (vertLine 70 0 50)
        = ⟨⟨toInt (fitSums ieee (vertLine 70 0 50).line).s_x,
            ((vertLine 70 0 50).line.head (by decide!)).y⟩,
           ⟨toInt (fitSums ieee (vertLine 70 0 50).line).s_x,
            ((vertLine 70 0 50).line.getLast (by decide!)).y⟩⟩ ∧
      (toInt (fitSums ieee (vertLine 70 0 50).line).s_x = x ∨
        toInt (fitSums ieee (vertLine 70 0 50).line).s_x = x - 1) ∧
      (Exact ieee → toInt (fitSums ieee (vertLine 70 0 50).line).s_x = x) :=
  ⟨⟨by decide!, by decide!, by decide!, by decide!, by decide!⟩,
   FitLine_vertical_segment ieee ieee_accurate (vertLine 70 0 50) (by decide!) (by decide!)
     (by decide!) (by decide!) (by decide!)⟩


/-! ## Rounding errors of the footpoint computation -/

theorem round_rel {m : FloatEnv} (hacc : Accurate m) (q q0 c c2 : ℚ)
    (h : |q - q0| ≤ |q0| * c) (hc : c + (1 + c) / 2 ^ 53 ≤ c2) :
    |m.round q - q0| ≤ |q0| * c2 := by
  have h1 := hacc q
  have h2 : |q| ≤ |q0| + |q - q0| := by
    have := abs_add q0 (q - q0)
    rw [add_sub_cancel] at this
    linarith
  have h3 : |m.round q - q0| ≤ |m.round q - q| + |q - q0| := by
    have := abs_add (m.round q - q) (q - q0)
    rw [sub_add_sub_cancel] at this
    exact this
  have h4 : |q| / 2 ^ 53 ≤ (|q0| + |q0| * c) / 2 ^ 53 :=
    div_le_div_of_nonneg_right (by linarith) (by norm_num)
  have h5 : |q0| * (c + (1 + c) / 2 ^ 53) ≤ |q0| * c2 :=
    mul_le_mul_of_nonneg_left hc (abs_nonneg _)
  have h6 : |q0| * (c + (1 + c) / 2 ^ 53) = |q0| * c + (|q0| + |q0| * c) / 2 ^ 53 := by ring
  linarith

theorem sqr_norm_close {m : FloatEnv} (hacc : Accurate m) (d : ℚ)
    (hsqrt : |m.sqrt (m.add (m.mul 100 100) (m.mul d d))
        * m.sqrt (m.add (m.mul 100 100) (m.mul d d))
        - m.add (m.mul 100 100) (m.mul d d)|
      ≤ m.add (m.mul 100 100) (m.mul d d) / 2 ^ 51) :
    |sqr m (norm m 100 d) - (100 * 100 + d * d)| ≤ (100 * 100 + d * d) * (10 / 2 ^ 53) := by
  have hdd : 0 ≤ d * d := mul_self_nonneg d
  have hQ : (0 : ℚ) < 100 * 100 + d * d := by linarith
  have hQabs : |100 * 100 + d * d| = 100 * 100 + d * d := abs_of_pos hQ
  have r1 := hacc (100 * 100)
  have r2 := hacc (d * d)
  rw [abs_of_nonneg hdd] at r2
  rw [abs_of_pos (by norm_num : (0 : ℚ) < 100 * 100)] at r1
  have hq : |m.round (100 * 100) + m.round (d * d) - (100 * 100 + d * d)|
      ≤ |100 * 100 + d * d| * (1 / 2 ^ 53) := by
    rw [hQabs, abs_le]
    have a1 := abs_le.1 r1
    have a2 := abs_le.1 r2
    constructor
    · linarith [a1.1, a2.1]
    · linarith [a1.2, a2.2]
  have ht := round_rel hacc _ _ _ (3 / 2 ^ 53) hq (by norm_num)
  rw [hQabs] at ht
  unfold sqr norm
  unfold FloatEnv.add FloatEnv.mul at hsqrt ⊢
  generalize hT : m.round (m.round (100 * 100) + m.round (d * d)) = T at *
  generalize hS : m.sqrt T = s at *
  have ht2 := abs_le.1 ht
  have hT1 : T ≤ (100 * 100 + d * d) * (1 + 3 / 2 ^ 53) := by linarith [ht2.2]
  have hT51 : T / 2 ^ 51 ≤ (100 * 100 + d * d) * (1 + 3 / 2 ^ 53) / 2 ^ 51 :=
    div_le_div_of_nonneg_right hT1 (by norm_num)
  have hs : |s * s - (100 * 100 + d * d)| ≤ |100 * 100 + d * d| * (8 / 2 ^ 53) := by
    rw [hQabs]
    have h3 : |s * s - (100 * 100 + d * d)| ≤ |s * s - T| + |T - (100 * 100 + d * d)| := by
      have := abs_add (s * s - T) (T - (100 * 100 + d * d))
      rw [sub_add_sub_cancel] at this
      exact this
    have h4 : (100 * 100 + d * d) * (1 + 3 / 2 ^ 53) / 2 ^ 51
        + (100 * 100 + d * d) * (3 / 2 ^ 53) ≤ (100 * 100 + d * d) * (8 / 2 ^ 53) := by
      have : (1 + 3 / 2 ^ 53 : ℚ) / 2 ^ 51 + 3 / 2 ^ 53 ≤ 8 / 2 ^ 53 := by norm_num
      have h5 := mul_le_mul_of_nonneg_left this (le_of_lt hQ)
      have h6 : (100 * 100 + d * d) * (1 + 3 / 2 ^ 53) / 2 ^ 51
          + (100 * 100 + d * d) * (3 / 2 ^ 53)
          = (100 * 100 + d * d) * ((1 + 3 / 2 ^ 53) / 2 ^ 51 + 3 / 2 ^ 53) := by ring
      rw [h6]
      exact h5
    exact le_trans h3 (le_trans (add_le_add (le_trans hsqrt hT51) ht) h4)
  have hD := round_rel hacc _ _ _ (10 / 2 ^ 53) hs (by norm_num)
  rw [hQabs] at hD
  exact hD

theorem div_close (N D Q : ℚ) (hQ : 0 < Q) (hD : |D - Q| ≤ Q * (10 / 2 ^ 53)) :
    |N / D - N / Q| ≤ |N / Q| * (11 / 2 ^ 53) := by
  have hD2 := abs_le.1 hD
  have hDlo : Q * (1 - 10 / 2 ^ 53) ≤ D := by linarith [hD2.1]
  have hDpos : 0 < D := lt_of_lt_of_le (mul_pos hQ (by norm_num)) hDlo
  have key : N / D - N / Q = N / Q * ((Q - D) / D) := by
    field_simp
    ring
  rw [key, abs_mul]
  apply mul_le_mul_of_nonneg_left _ (abs_nonneg _)
  rw [abs_div, abs_of_pos hDpos, div_le_iff₀ hDpos, abs_sub_comm]
  have h1 : Q * (10 / 2 ^ 53) ≤ 11 / 2 ^ 53 * (Q * (1 - 10 / 2 ^ 53)) := by
    have : (10 : ℚ) / 2 ^ 53 ≤ 11 / 2 ^ 53 * (1 - 10 / 2 ^ 53) := by norm_num
    have h2 := mul_le_mul_of_nonneg_left this (le_of_lt hQ)
    linarith
  have h3 : 11 / 2 ^ 53 * (Q * (1 - 10 / 2 ^ 53)) ≤ 11 / 2 ^ 53 * D :=
    mul_le_mul_of_nonneg_left hDlo (by norm_num)
  linarith


theorem abs_le_of_fitsInt (z : Int) (h : fitsInt z) : |(z : ℚ)| ≤ 2147483648 := by
  unfold fitsInt at h
  rw [abs_le]
  constructor
  · have : (-2147483648 : Int) ≤ z := h.1
    exact_mod_cast this
  · have : z ≤ 2147483648 := by omega
    exact_mod_cast this

theorem footpoint_coords_close {m : FloatEnv} (hacc : Accurate m) (N a d : Int)
    (hN : fitsInt N) (ha : fitsInt a) (D : ℚ)
    (hD : |D - (100 * 100 + (d : ℚ) * (d : ℚ))|
      ≤ (100 * 100 + (d : ℚ) * (d : ℚ)) * (10 / 2 ^ 53)) :
    |m.add ((0 : Int) : ℚ) (m.mul 100 (m.div (N : ℚ) D))
        - 100 * ((N : ℚ) / (100 * 100 + (d : ℚ) * (d : ℚ)))| ≤ 1 / 1000000 ∧
      |m.add (a : ℚ) (m.mul (d : ℚ) (m.div (N : ℚ) D))
        - ((a : ℚ) + (d : ℚ) * ((N : ℚ) / (100 * 100 + (d : ℚ) * (d : ℚ))))|
        ≤ 1 / 1000000 := by
  have hdd : 0 ≤ (d : ℚ) * (d : ℚ) := mul_self_nonneg _
  generalize hQd : 100 * 100 + (d : ℚ) * (d : ℚ) = Q at *
  have hQ : (0 : ℚ) < Q := by rw [← hQd]; linarith
  have hQ4 : (10000 : ℚ) ≤ Q := by rw [← hQd]; linarith
  have hNabs := abs_le_of_fitsInt N hN
  have haabs := abs_le_of_fitsInt a ha
  have hu0 := div_close (N : ℚ) D Q hQ hD
  have hu := round_rel hacc _ _ _ (13 / 2 ^ 53) hu0 (by norm_num)
  unfold FloatEnv.add FloatEnv.mul FloatEnv.div
  generalize hU : m.round ((N : ℚ) / D) = u at *
  generalize hU0 : (N : ℚ) / Q = u0 at *
  have hu0abs : |u0| ≤ 2147483648 / 10000 := by
    rw [← hU0, abs_div, abs_of_pos hQ, div_le_div_iff₀ hQ (by norm_num)]
    calc |(N : ℚ)| * 10000 ≤ 2147483648 * 10000 :=
          mul_le_mul_of_nonneg_right hNabs (by norm_num)
      _ ≤ 2147483648 * Q := mul_le_mul_of_nonneg_left hQ4 (by norm_num)
  have hdu0abs : |(d : ℚ) * u0| ≤ 2147483648 / 200 := by
    have hdQ : |(d : ℚ)| * 200 ≤ Q := by
      rw [← hQd]
      have h1 : 0 ≤ (|(d : ℚ)| - 100) * (|(d : ℚ)| - 100) := mul_self_nonneg _
      have h2 : |(d : ℚ)| * |(d : ℚ)| = (d : ℚ) * (d : ℚ) := abs_mul_abs_self _
      nlinarith
    rw [← hU0, abs_mul, abs_div, abs_of_pos hQ, ← mul_div_assoc,
      div_le_div_iff₀ hQ (by norm_num)]
    calc |(d : ℚ)| * |(N : ℚ)| * 200 = |(N : ℚ)| * (|(d : ℚ)| * 200) := by ring
      _ ≤ 2147483648 * Q := mul_le_mul hNabs hdQ (by positivity) (by norm_num)
  constructor
  · have h100 : |100 * u - 100 * u0| ≤ |100 * u0| * (13 / 2 ^ 53) := by
      rw [← mul_sub, abs_mul, abs_mul, mul_assoc]
      exact mul_le_mul_of_nonneg_left hu (abs_nonneg _)
    have hw1 := round_rel hacc _ _ _ (15 / 2 ^ 53) h100 (by norm_num)
    rw [Int.cast_zero, zero_add]
    have hfx := round_rel hacc _ _ _ (17 / 2 ^ 53) hw1 (by norm_num)
    refine le_trans hfx ?_
    have h1 : |100 * u0| ≤ 2147483648 / 100 := by
      rw [abs_mul, abs_of_pos (by norm_num : (0 : ℚ) < 100)]
      linarith
    calc |100 * u0| * (17 / 2 ^ 53) ≤ 2147483648 / 100 * (17 / 2 ^ 53) :=
          mul_le_mul_of_nonneg_right h1 (by norm_num)
      _ ≤ 1 / 1000000 := by norm_num
  · have hdu : |(d : ℚ) * u - (d : ℚ) * u0| ≤ |(d : ℚ) * u0| * (13 / 2 ^ 53) := by
      rw [← mul_sub, abs_mul, abs_mul, mul_assoc]
      exact mul_le_mul_of_nonneg_left hu (abs_nonneg _)
    have hw2 := round_rel hacc _ _ _ (15 / 2 ^ 53) hdu (by norm_num)
    generalize hW : m.round ((d : ℚ) * u) = w at *
    have hw2b : |(d : ℚ) * u0| * (15 / 2 ^ 53) ≤ 2147483648 / 200 * (15 / 2 ^ 53) :=
      mul_le_mul_of_nonneg_right hdu0abs (by norm_num)
    have hwabs : |w| ≤ 2147483648 / 200 + 2147483648 / 200 * (15 / 2 ^ 53) := by
      have := abs_add ((d : ℚ) * u0) (w - (d : ℚ) * u0)
      rw [add_sub_cancel] at this
      linarith
    have hr := hacc ((a : ℚ) + w)
    have hsum : |(a : ℚ) + w| ≤ |(a : ℚ)| + |w| := abs_add _ _
    have hr2 : |(a : ℚ) + w| / 2 ^ 53
        ≤ (2147483648 + (2147483648 / 200 + 2147483648 / 200 * (15 / 2 ^ 53))) / 2 ^ 53 :=
      div_le_div_of_nonneg_right (by linarith) (by norm_num)
    have htri : |m.round ((a : ℚ) + w) - ((a : ℚ) + (d : ℚ) * u0)|
        ≤ |m.round ((a : ℚ) + w) - ((a : ℚ) + w)| + |w - (d : ℚ) * u0| := by
      have := abs_add (m.round ((a : ℚ) + w) - ((a : ℚ) + w)) (w - (d : ℚ) * u0)
      have e : m.round ((a : ℚ) + w) - ((a : ℚ) + w) + (w - (d : ℚ) * u0)
          = m.round ((a : ℚ) + w) - ((a : ℚ) + (d : ℚ) * u0) := by ring
      rw [e] at this
      exact this
    have hfin : ((2147483648 : ℚ) + (2147483648 / 200 + 2147483648 / 200 * (15 / 2 ^ 53)))
        / 2 ^ 53 + 2147483648 / 200 * (15 / 2 ^ 53) ≤ 1 / 1000000 := by norm_num
    linarith


/-! ## FitLine: the regression branch in binary64-accurate arithmetic -/

theorem FitLine_of_test_fail (m : FloatEnv) (line : SingleLine)
    (htest : ¬ |m.sub (fitSums m line.line).s_x2
      (m.mul (fitSums m line.line).s_x (fitSums m line.line).s_x)| < 1 / 100000) :
    FitLine m line
      = ⟨(GetFootpoint m (line.line.getD 0 default)
            ⟨0, anchorY0 m line⟩ ⟨100, anchorY100 m line⟩).1,
         (GetFootpoint m (line.line.getD (line.line.length - 1) default)
            ⟨0, anchorY0 m line⟩ ⟨100, anchorY100 m line⟩).1⟩ := by
  unfold FitLine
  dsimp only
  rw [if_neg htest]
  rfl

theorem anchors_exact (m : FloatEnv) (hex : Exact m) (line : SingleLine) :
    anchorY0 m line = toInt (regOffset line.line) ∧
      anchorY100 m line = toInt (100 * regSlope line.line + regOffset line.line) := by
  have hr : ∀ q, m.round q = q := hex
  unfold anchorY0 anchorY100 fitOffset fitSlope
  simp only [fitSums_eq_means m hex, FloatEnv.sub, FloatEnv.mul, FloatEnv.div, FloatEnv.add, hr]
  exact ⟨rfl, rfl⟩

theorem GetFootpoint_close {m : FloatEnv} (hacc : Accurate m) (p : Point2D) (a b : Int)
    (ha : fitsInt a) (hd : fitsInt (b - a))
    (hN : fitsInt (p.x * 100 + (p.y - a) * (b - a)))
    (hsqrt : SqrtAccurateAt m
      (m.add (m.mul 100 100) (m.mul ((b - a : Int) : ℚ) ((b - a : Int) : ℚ)))) :
    ∃ F f : ℚ × ℚ,
      (F.2 - (a : ℚ)) * 100 = F.1 * ((b - a : Int) : ℚ) ∧
      ((p.x : ℚ) - F.1) * 100 + ((p.y : ℚ) - F.2) * ((b - a : Int) : ℚ) = 0 ∧
      |f.1 - F.1| ≤ 1 / 1000000 ∧ |f.2 - F.2| ≤ 1 / 1000000 ∧
      (GetFootpoint m p ⟨0, a⟩ ⟨100, b⟩).1 = ⟨toInt f.1, toInt f.2⟩ := by
  have hdd : 0 ≤ ((b - a : Int) : ℚ) * ((b - a : Int) : ℚ) := mul_self_nonneg _
  have hpos : (0 : ℚ) < 100 * 100 + ((b - a : Int) : ℚ) * ((b - a : Int) : ℚ) := by linarith
  have hD := sqr_norm_close hacc ((b - a : Int) : ℚ) hsqrt
  obtain ⟨hfx, hfy⟩ := footpoint_coords_close hacc (p.x * 100 + (p.y - a) * (b - a)) a (b - a)
    hN ha _ hD
  have hsub : (⟨100, b⟩ : Point2D).sub ⟨0, a⟩ = ⟨100, b - a⟩ := by
    unfold Point2D.sub
    have e1 : wrapInt ((100 : Int) - 0) = 100 := by decide
    have e2 : wrapInt (b - a) = b - a := wrapInt_of_fits hd
    simp only [e1, e2]
  have hnum : wrapInt ((p.x - 0) * (100 - 0) + (p.y - a) * (b - a))
      = p.x * 100 + (p.y - a) * (b - a) := by
    rw [show (p.x - 0) * (100 - 0) + (p.y - a) * (b - a) = p.x * 100 + (p.y - a) * (b - a)
      by ring]
    exact wrapInt_of_fits hN
  refine ⟨((100 : ℚ) * (((p.x * 100 + (p.y - a) * (b - a) : Int) : ℚ)
      / (100 * 100 + ((b - a : Int) : ℚ) * ((b - a : Int) : ℚ))),
    (a : ℚ) + ((b - a : Int) : ℚ) * (((p.x * 100 + (p.y - a) * (b - a) : Int) : ℚ)
      / (100 * 100 + ((b - a : Int) : ℚ) * ((b - a : Int) : ℚ)))),
    (m.add ((0 : Int) : ℚ) (m.mul 100 (m.div ((p.x * 100 + (p.y - a) * (b - a) : Int) : ℚ)
        (sqr m (norm m 100 ((b - a : Int) : ℚ))))),
      m.add (a : ℚ) (m.mul ((b - a : Int) : ℚ)
        (m.div ((p.x * 100 + (p.y - a) * (b - a) : Int) : ℚ)
          (sqr m (norm m 100 ((b - a : Int) : ℚ)))))), ?_, ?_, hfx, hfy, ?_⟩
  · show ((a : ℚ) + _ - (a : ℚ)) * 100 = _
    ring
  · show ((p.x : ℚ) - 100 * _) * 100 + ((p.y : ℚ) - ((a : ℚ) + _)) * _ = 0
    have hNc : ((p.x * 100 + (p.y - a) * (b - a) : Int) : ℚ)
        = (p.x : ℚ) * 100 + ((p.y : ℚ) - (a : ℚ)) * ((b - a : Int) : ℚ) := by
      rw [Int.cast_add, Int.cast_mul, Int.cast_mul, Int.cast_sub p.y a]
      norm_num
    rw [hNc]
    generalize ((b - a : Int) : ℚ) = dq at hpos ⊢
    have hne : 100 * 100 + dq * dq ≠ 0 := ne_of_gt hpos
    field_simp
    ring
  · unfold GetFootpoint
    dsimp only
    rw [hsub, hnum]
    dsimp only
    rw [show ((100 : Int) : ℚ) = 100 by norm_num]


/-- C6 (amended): for every non-empty RawLine of at most 4000 integer points with x
coordinates in `[0, 1600)` whose x-variance is not below the 0.00001 tolerance, in
binary64-accurate arithmetic `FitLine` takes the regression branch.  Let `a` and `b` be the
`int` ordinates at `x = 0` and `x = 100` that the code derives from the computed slope and
offset (in exact arithmetic `a = trunc(offset)` and `b = trunc(100*slope + offset)` for the
least-squares slope and offset).  When the `int` arithmetic of `GetFootpoint` stays in range
and `sqrt` is accurate at the squared length of `(100, b - a)`, the returned start and end
points are the coordinatewise truncations to `int` of points `fs`, `fe` that lie within
`10^-6` of the orthogonal footpoints `Fs`, `Fe` of the RawLine's first and last points on the
line through `(0, a)` and `(100, b)`: each footpoint lies on that line, its difference from
the projected point is perpendicular to it, and every returned coordinate is less than
`1 + 10^-6` away from the footpoint's. -/
theorem FitLine_regression_footpoints (m : FloatEnv) (hacc : Accurate m) (line : SingleLine)
    (hne : line.line ≠ []) (hlen : line.line.length ≤ 4000)
    (hx0 : ∀ p ∈ line.line, 0 ≤ p.x) (hx1 : ∀ p ∈ line.line, p.x < 1600)
    (hvar : ¬ |varX line.line| < 1 / 100000)
    (ha : fitsInt (anchorY0 m line))
    (hd : fitsInt (anchorY100 m line - anchorY0 m line))
    (hNs : fitsInt ((line.line.head hne).x * 100
      + ((line.line.head hne).y - anchorY0 m line) * (anchorY100 m line - anchorY0 m line)))
    (hNe : fitsInt ((line.line.getLast hne).x * 100
      + ((line.line.getLast hne).y - anchorY0 m line)
        * (anchorY100 m line - anchorY0 m line)))
    (hsqrt : SqrtAccurateAt m (m.add (m.mul 100 100)
      (m.mul ((anchorY100 m line - anchorY0 m line : Int) : ℚ)
        ((anchorY100 m line - anchorY0 m line : Int) : ℚ)))) :
    ∃ Fs fs Fe fe : ℚ × ℚ,
      (Fs.2 - (anchorY0 m line : ℚ)) * 100
        = Fs.1 * ((anchorY100 m line - anchorY0 m line : Int) : ℚ) ∧
      (((line.line.head hne).x : ℚ) - Fs.1) * 100 + (((line.line.head hne).y : ℚ) - Fs.2)
        * ((anchorY100 m line - anchorY0 m line : Int) : ℚ) = 0 ∧
      (Fe.2 - (anchorY0 m line : ℚ)) * 100
        = Fe.1 * ((anchorY100 m line - anchorY0 m line : Int) : ℚ) ∧
      (((line.line.getLast hne).x : ℚ) - Fe.1) * 100
        + (((line.line.getLast hne).y : ℚ) - Fe.2)
        * ((anchorY100 m line - anchorY0 m line : Int) : ℚ) = 0 ∧
      |fs.1 - Fs.1| ≤ 1 / 1000000 ∧ |fs.2 - Fs.2| ≤ 1 / 1000000 ∧
      |fe.1 - Fe.1| ≤ 1 / 1000000 ∧ |fe.2 - Fe.2| ≤ 1 / 1000000 ∧
      FitLine m line = ⟨⟨toInt fs.1, toInt fs.2⟩, ⟨toInt fe.1, toInt fe.2⟩⟩ ∧
      |(((FitLine m line).m_start.x : Int) : ℚ) - Fs.1| < 1 + 1 / 1000000 ∧
      |(((FitLine m line).m_start.y : Int) : ℚ) - Fs.2| < 1 + 1 / 1000000 ∧
      |(((FitLine m line).m_end.x : Int) : ℚ) - Fe.1| < 1 + 1 / 1000000 ∧
      |(((FitLine m line).m_end.y : Int) : ℚ) - Fe.2| < 1 + 1 / 1000000 ∧
      (Exact m → anchorY0 m line = toInt (regOffset line.line) ∧
        anchorY100 m line = toInt (100 * regSlope line.line + regOffset line.line)) := by
  have hpos : 1 ≤ line.line.length := List.length_pos.2 hne
  have hb := fitSums_bounds hacc line.line hx0 hpos hlen
  have hmm := meanX_nonneg_le line.line hpos hx0 hx1
  have hclose := computed_variance_close hacc _ _ _ _ hmm.1 hmm.2 hb.1 hb.2
  have hlow := variance_lower_of_not_small line.line hne hlen hvar
  have htest : ¬ |m.sub (fitSums m line.line).s_x2
      (m.mul (fitSums m line.line).s_x (fitSums m line.line).s_x)| < 1 / 100000 := by
    intro hlt
    have h1 := (abs_le.1 hclose).1
    have h2 := (abs_lt.1 hlt).2
    unfold varX at hlow
    have h3 : (1 : ℚ) / 16000 - 7 / 1000000 > 1 / 100000 := by norm_num
    linarith
  have hfit := FitLine_of_test_fail m line htest
  rw [getD_zero_eq_head _ hne, getD_last_eq_getLast _ hne] at hfit
  obtain ⟨Fs, fs, hs1, hs2, hs3, hs4, hs5⟩ := GetFootpoint_close hacc (line.line.head hne)
    (anchorY0 m line) (anchorY100 m line) ha hd hNs hsqrt
  obtain ⟨Fe, fe, he1, he2, he3, he4, he5⟩ := GetFootpoint_close hacc (line.line.getLast hne)
    (anchorY0 m line) (anchorY100 m line) ha hd hNe hsqrt
  rw [hs5, he5] at hfit
  have hnear : ∀ f F : ℚ, |f - F| ≤ 1 / 1000000 →
      |((toInt f : Int) : ℚ) - F| < 1 + 1 / 1000000 := by
    intro f F h
    have h1 := toInt_sub_abs_lt_one f
    have h2 := abs_add (((toInt f : Int) : ℚ) - f) (f - F)
    rw [sub_add_sub_cancel] at h2
    linarith
  refine ⟨Fs, fs, Fe, fe, hs1, hs2, he1, he2, hs3, hs4, he3, he4, hfit, ?_, ?_, ?_, ?_,
    fun hex => anchors_exact m hex line⟩
  · rw [hfit]; exact hnear _ _ hs3
  · rw [hfit]; exact hnear _ _ hs4
  · rw [hfit]; exact hnear _ _ he3
  · rw [hfit]; exact hnear _ _ he4

theorem FitLine_regression_footpoints_witness :
    (slantedLine.line.length ≤ 4000 ∧ (∀ p ∈ slantedLine.line, 0 ≤ p.x) ∧
      (∀ p ∈ slantedLine.line, p.x < 1600) ∧ ¬ |varX slantedLine.line| < 1 / 100000 ∧
      fitsInt (anchorY0 ieee slantedLine) ∧
      fitsInt (anchorY100 ieee slantedLine - anchorY0 ieee slantedLine) ∧
      SqrtAccurateAt ieee (ieee.add (ieee.mul 100 100)
        (ieee.mul ((anchorY100 ieee slantedLine - anchorY0 ieee slantedLine : Int) : ℚ)
          ((anchorY100 ieee slantedLine - anchorY0 ieee slantedLine : Int) : ℚ)))) ∧
    ∃ Fs fs Fe fe : ℚ × ℚ,
      (Fs.2 - (anchorY0 ieee slantedLine : ℚ)) * 100
        = Fs.1 * ((anchorY100 ieee slantedLine - anchorY0 ieee slantedLine : Int) : ℚ) ∧
      (((slantedLine.line.head (by decide!)).x : ℚ) - Fs.1) * 100 + (((slantedLine.line.head (by decide!)).y : ℚ) - Fs.2)
        * ((anchorY100 ieee slantedLine - anchorY0 ieee slantedLine : Int) : ℚ) = 0 ∧
      (Fe.2 - (anchorY0 ieee slantedLine : ℚ)) * 100
        = Fe.1 * ((anchorY100 ieee slantedLine - anchorY0 ieee slantedLine : Int) : ℚ) ∧
      (((slantedLine.line.getLast (by decide!)).x : ℚ) - Fe.1) * 100
        + (((slantedLine.line.getLast (by decide!)).y : ℚ) - Fe.2)
        * ((anchorY100 ieee slantedLine - anchorY0 ieee slantedLine : Int) : ℚ) = 0 ∧
      |fs.1 - Fs.1| ≤ 1 / 1000000 ∧ |fs.2 - Fs.2| ≤ 1 / 1000000 ∧
      |fe.1 - Fe.1| ≤ 1 / 1000000 ∧ |fe.2 - Fe.2| ≤ 1 / 1000000 ∧
      FitLine ieee slantedLine = ⟨⟨toInt fs.1, toInt fs.2⟩, ⟨toInt fe.1, toInt fe.2⟩⟩ ∧
      |(((FitLine ieee slantedLine).m_start.x : Int) : ℚ) - Fs.1| < 1 + 1 / 1000000 ∧
      |(((FitLine ieee slantedLine).m_start.y : Int) : ℚ) - Fs.2| < 1 + 1 / 1000000 ∧
      |(((FitLine ieee slantedLine).m_end.x : Int) : ℚ) - Fe.1| < 1 + 1 / 1000000 ∧
      |(((FitLine ieee slantedLine).m_end.y : Int) : ℚ) - Fe.2| < 1 + 1 / 1000000 ∧
      (Exact ieee → anchorY0 ieee slantedLine = toInt (regOffset slantedLine.line) ∧
        anchorY100 ieee slantedLine = toInt (100 * regSlope slantedLine.line + regOffset slantedLine.line)) :=
  ⟨⟨by decide!, by decide!, by decide!, by decide!, by decide!, by decide!, by decide!⟩,
   FitLine_regression_footpoints ieee ieee_accurate slantedLine (by decide!) (by decide!)
     (by decide!) (by decide!) (by decide!) (by decide!) (by decide!) (by decide!)
     (by decide!) (by decide!)⟩


end HuginLines
